import Mathlib

/-!
# hostio: a host.io API client

A shallow embedding of `client.go` and `types.go`.

Go strings are byte strings; a byte is a natural number below 256 and a
string is a list of bytes.  The client is a thin layer over the Go standard
library, so the library functions it calls (`path.Join`, `url.Parse`,
`(*URL).Parse`, `(*URL).String`, `(*URL).Query`, `Values.Set`,
`Values.Encode`, `strconv.Itoa`, `http.NewRequestWithContext`) are embedded
as well, following the Go 1.22 sources of `path`, `net/url`, `strconv` and
`net/http`.

ASCII codes used below:
`' '` 32, `!` 33, `"` 34, `#` 35, `$` 36, `%` 37, `&` 38, `'` 39, `(` 40,
`)` 41, `*` 42, `+` 43, `,` 44, `-` 45, `.` 46, `/` 47, `0`-`9` 48-57,
`:` 58, `;` 59, `<` 60, `=` 61, `>` 62, `?` 63, `@` 64, `A`-`Z` 65-90,
`[` 91, `]` 93, `_` 95, `a`-`z` 97-122, `~` 126, DEL 127.
-/

namespace Hostio

/-- A Go `string`: a sequence of bytes. -/
abbrev Str := List Nat

/-- The Go string of an ASCII literal. -/
def str (s : String) : Str := s.toList.map Char.toNat

/-! ## Package `path` -/

/-- The inner loop of the `..` case of `path.Clean`: starting from index `w`,
step back while `w > dotdot` and `out[w]` is not a slash. -/
def backtrack (out : Str) (dotdot : Nat) : Nat → Nat
  | 0 => 0
  | w + 1 => if w + 1 > dotdot ∧ out.getD (w + 1) 0 ≠ 47 then backtrack out dotdot w else w + 1

/-- The main loop of `path.Clean`.  The arguments are the unread part of the
path (`path[r:]`), the bytes written so far (`buf[:w]` of the lazy buffer) and
`dotdot`.  Every turn consumes at least one byte, so the length of the path is
enough fuel. -/
def cleanLoop (rooted : Bool) : Nat → Str → Str → Nat → Str
  | 0, _, out, _ => out
  | _ + 1, [], out, _ => out
  | fuel + 1, c :: rest, out, dotdot =>
    if c = 47 then
      -- empty path element
      cleanLoop rooted fuel rest out dotdot
    else if c = 46 ∧ (rest = [] ∨ rest.head? = some 47) then
      -- . element
      cleanLoop rooted fuel rest out dotdot
    else if c = 46 ∧ rest.head? = some 46 ∧ (rest.tail = [] ∨ rest.tail.head? = some 47) then
      -- .. element: remove to last /
      if out.length > dotdot then
        cleanLoop rooted fuel rest.tail (out.take (backtrack out dotdot (out.length - 1))) dotdot
      else if rooted = false then
        let out1 := (if out.length > 0 then out ++ [47] else out) ++ [46, 46]
        cleanLoop rooted fuel rest.tail out1 out1.length
      else
        cleanLoop rooted fuel rest.tail out dotdot
    else
      -- real path element: add slash if needed, copy element
      let out1 :=
        if (rooted = true ∧ out.length ≠ 1) ∨ (rooted = false ∧ out.length ≠ 0) then out ++ [47]
        else out
      cleanLoop rooted fuel ((c :: rest).dropWhile (fun b => b ≠ 47))
        (out1 ++ (c :: rest).takeWhile (fun b => b ≠ 47)) dotdot

/-- Go `path.Clean`. -/
def Clean (path : Str) : Str :=
  if path = [] then [46]
  else
    let rooted : Bool := path.head? = some 47
    let out :=
      if rooted then cleanLoop rooted path.length path.tail [47] 1
      else cleanLoop rooted path.length path [] 0
    -- Turn empty string into "."
    if out = [] then [46] else out

/-- Go `path.Join`. -/
def Join (elem : List Str) : Str :=
  if (elem.map List.length).sum = 0 then []
  else
    Clean (elem.foldl
      (fun buf e =>
        if buf.length > 0 ∨ e ≠ [] then (if buf.length > 0 then buf ++ [47] else buf) ++ e
        else buf)
      [])

/-! ## Package `strings` (the functions used by `net/url`) -/

/-- Go `strings.IndexByte`. -/
def IndexByte : Str → Nat → Option Nat
  | [], _ => none
  | b :: s, c => if b = c then some 0 else (IndexByte s c).map (fun i => i + 1)

/-- Go `strings.LastIndexByte`; `none` stands for `-1`. -/
def LastIndexByte : Str → Nat → Option Nat
  | [], _ => none
  | b :: s, c =>
    match LastIndexByte s c with
    | some i => some (i + 1)
    | none => if b = c then some 0 else none

/-- Go `strings.Index`; `none` stands for `-1`. -/
def Index : Str → Str → Option Nat
  | [], sub => if sub = [] then some 0 else none
  | b :: s, sub =>
    if sub.isPrefixOf (b :: s) then some 0 else (Index s sub).map (fun i => i + 1)

/-- Go `strings.Cut` with a one-byte separator: `(before, after, found)`. -/
def Cut (s : Str) (sep : Nat) : Str × Str × Bool :=
  if sep ∈ s then
    (s.takeWhile (fun b => b ≠ sep), (s.dropWhile (fun b => b ≠ sep)).tail, true)
  else (s, [], false)

/-- Go `strings.ToLower` on ASCII text. -/
def ToLower (s : Str) : Str := s.map (fun c => if 65 ≤ c ∧ c ≤ 90 then c + 32 else c)

/-! ## Errors -/

/-- Go `error` values met on the paths of this client. -/
inductive Error where
  /-- An `errors.New` or `fmt.Errorf` error with the given message. -/
  | errorString (msg : Str)
  /-- A `url.EscapeError`. -/
  | EscapeError (s : Str)
  /-- A `url.InvalidHostError`. -/
  | InvalidHostError (s : Str)
  /-- The error `fmt.Errorf("invalid port %q after host", colonPort)`. -/
  | invalidPort (colonPort : Str)
  /-- A `*url.Error` with fields `Op`, `URL` and `Err`. -/
  | urlError (op : Str) (url : Str) (err : Error)
  /-- A failure reported by a collaborator (HTTP transport, JSON decoder,
  body reader). -/
  | external (id : Nat)
  deriving DecidableEq, Repr

deriving instance DecidableEq for Except

/-! ## Package `net/url` -/

/-- Go `url.encoding`. -/
inductive encoding where
  | encodePath
  | encodePathSegment
  | encodeHost
  | encodeZone
  | encodeUserPassword
  | encodeQueryComponent
  | encodeFragment
  deriving DecidableEq, Repr

open encoding

/-- Go `url.ishex`. -/
def ishex (c : Nat) : Bool :=
  if 48 ≤ c ∧ c ≤ 57 then true
  else if 97 ≤ c ∧ c ≤ 102 then true
  else if 65 ≤ c ∧ c ≤ 70 then true
  else false

/-- Go `url.unhex`. -/
def unhex (c : Nat) : Nat :=
  if 48 ≤ c ∧ c ≤ 57 then c - 48
  else if 97 ≤ c ∧ c ≤ 102 then c - 97 + 10
  else if 65 ≤ c ∧ c ≤ 70 then c - 65 + 10
  else 0

/-- Go `url.shouldEscape`. -/
def shouldEscape (c : Nat) (mode : encoding) : Bool :=
  -- §2.3 Unreserved characters (alphanum)
  if (97 ≤ c ∧ c ≤ 122) ∨ (65 ≤ c ∧ c ≤ 90) ∨ (48 ≤ c ∧ c ≤ 57) then false
  else if (mode = encodeHost ∨ mode = encodeZone) ∧
      c ∈ [33, 36, 38, 39, 40, 41, 42, 43, 44, 59, 61, 58, 91, 93, 60, 62, 34] then false
  -- §2.3 Unreserved characters (mark): - _ . ~
  else if c ∈ [45, 95, 46, 126] then false
  -- §2.2 Reserved characters (reserved): $ & + , / : ; = ? @
  else if c ∈ [36, 38, 43, 44, 47, 58, 59, 61, 63, 64] then
    match mode with
    | encodePath => c = 63
    | encodePathSegment => c = 47 ∨ c = 59 ∨ c = 44 ∨ c = 63
    | encodeUserPassword => c = 64 ∨ c = 47 ∨ c = 63 ∨ c = 58
    | encodeQueryComponent => true
    | encodeFragment => false
    | _ => true
  else if mode = encodeFragment ∧ c ∈ [33, 40, 41, 42] then false
  -- Everything else must be escaped.
  else true

/-- The first pass of Go `url.unescape`: check that every `%` is well formed
(and, for hosts, that no byte is forbidden). -/
def unescapeCheck (mode : encoding) : Str → Except Error Unit
  | [] => .ok ()
  | c :: rest =>
    if c = 37 then
      match rest with
      | a :: b :: rest2 =>
        if ¬ (ishex a ∧ ishex b) then .error (.EscapeError ((c :: rest).take 3))
        else if mode = encodeHost ∧ unhex a < 8 ∧ [c, a, b] ≠ [37, 50, 53] then
          .error (.EscapeError [c, a, b])
        else if mode = encodeZone ∧ [c, a, b] ≠ [37, 50, 53] ∧
            ((unhex a <<< 4) ||| unhex b) % 256 ≠ 32 ∧
            shouldEscape (((unhex a <<< 4) ||| unhex b) % 256) encodeHost then
          .error (.EscapeError [c, a, b])
        else unescapeCheck mode rest2
      | _ => .error (.EscapeError ((c :: rest).take 3))
    else if c = 43 then unescapeCheck mode rest
    else if (mode = encodeHost ∨ mode = encodeZone) ∧ c < 128 ∧ shouldEscape c encodeHost then
      .error (.InvalidHostError [c])
    else unescapeCheck mode rest

/-- The second pass of Go `url.unescape`: decode.  It runs only after
`unescapeCheck` has succeeded, so every `%` is followed by two bytes. -/
def unescapeDecode (mode : encoding) : Str → Str
  | [] => []
  | c :: rest =>
    if c = 37 then
      match rest with
      | a :: b :: rest2 => (((unhex a <<< 4) ||| unhex b) % 256) :: unescapeDecode mode rest2
      | _ => []
    else if c = 43 then
      (if mode = encodeQueryComponent then 32 else 43) :: unescapeDecode mode rest
    else c :: unescapeDecode mode rest

/-- Go `url.unescape`.  (The source returns `s` itself when it has no `%` and
no `+` to turn into a space; the decoding pass is the identity then.) -/
def unescape (s : Str) (mode : encoding) : Except Error Str :=
  match unescapeCheck mode s with
  | .error e => .error e
  | .ok _ => .ok (unescapeDecode mode s)

/-- The test `p, err := unescape(raw, mode); err == nil && p == want` of
`EscapedPath` and `EscapedFragment`. -/
def unescapesTo (raw : Str) (mode : encoding) (want : Str) : Bool :=
  match unescape raw mode with
  | .ok p => p = want
  | .error _ => false

/-- Go `url.upperhex`, `"0123456789ABCDEF"`. -/
def upperhex : Str := [48, 49, 50, 51, 52, 53, 54, 55, 56, 57, 65, 66, 67, 68, 69, 70]

/-- Go `url.escape`: byte by byte, a space becomes `+` in a query component,
a byte that `shouldEscape` becomes `%XX`, every other byte is copied.  (The
source first counts to size the buffer and returns early when nothing has to
change; the result is that of this loop.) -/
def escape : Str → encoding → Str
  | [], _ => []
  | c :: s, mode =>
    if c = 32 ∧ mode = encodeQueryComponent then 43 :: escape s mode
    else if shouldEscape c mode then
      37 :: upperhex.getD (c >>> 4) 0 :: upperhex.getD (c &&& 15) 0 :: escape s mode
    else c :: escape s mode

/-- Go `url.QueryEscape`. -/
def QueryEscape (s : Str) : Str := escape s encodeQueryComponent

/-- Go `url.QueryUnescape`. -/
def QueryUnescape (s : Str) : Except Error Str := unescape s encodeQueryComponent

/-- Go `url.validEncoded`. -/
def validEncoded (s : Str) (mode : encoding) : Bool :=
  s.all (fun c =>
    if c ∈ [33, 36, 38, 39, 40, 41, 42, 43, 44, 59, 61, 58, 64] then true
    else if c ∈ [91, 93] then true
    else if c = 37 then true
    else ! shouldEscape c mode)

/-- Go `url.stringContainsCTLByte`. -/
def stringContainsCTLByte (s : Str) : Bool := s.any (fun b => b < 32 ∨ b = 127)

/-- Go `url.Userinfo`. -/
structure Userinfo where
  username : Str
  password : Str
  passwordSet : Bool
  deriving DecidableEq, Repr

/-- Go `url.URL`. -/
structure URL where
  Scheme : Str := []
  Opaque : Str := []
  User : Option Userinfo := none
  Host : Str := []
  Path : Str := []
  RawPath : Str := []
  OmitHost : Bool := false
  ForceQuery : Bool := false
  RawQuery : Str := []
  Fragment : Str := []
  RawFragment : Str := []
  deriving DecidableEq, Repr

/-- Go `(*Userinfo).String` on a non-nil receiver. -/
def Userinfo.String (u : Userinfo) : Str :=
  let s := escape u.username encodeUserPassword
  if u.passwordSet then s ++ [58] ++ escape u.password encodeUserPassword else s

/-- Go `(*URL).setPath`. -/
def URL.setPath (u : URL) (p : Str) : Except Error URL :=
  match unescape p encodePath with
  | .error e => .error e
  | .ok path =>
    if p = escape path encodePath then .ok { u with Path := path, RawPath := [] }
    else .ok { u with Path := path, RawPath := p }

/-- Go `(*URL).EscapedPath`. -/
def URL.EscapedPath (u : URL) : Str :=
  if u.RawPath ≠ [] ∧ validEncoded u.RawPath encodePath ∧
      unescapesTo u.RawPath encodePath u.Path then u.RawPath
  else if u.Path = [42] then [42]
  else escape u.Path encodePath

/-- Go `(*URL).setFragment`. -/
def URL.setFragment (u : URL) (f : Str) : Except Error URL :=
  match unescape f encodeFragment with
  | .error e => .error e
  | .ok frag =>
    if f = escape frag encodeFragment then .ok { u with Fragment := frag, RawFragment := [] }
    else .ok { u with Fragment := frag, RawFragment := f }

/-- Go `(*URL).EscapedFragment`. -/
def URL.EscapedFragment (u : URL) : Str :=
  if u.RawFragment ≠ [] ∧ validEncoded u.RawFragment encodeFragment ∧
      unescapesTo u.RawFragment encodeFragment u.Fragment then u.RawFragment
  else escape u.Fragment encodeFragment

/-- The loop of Go `url.getScheme`; `i` is the index of the byte at the head
of the unread part. -/
def getSchemeLoop (rawURL : Str) : Nat → Str → Except Error (Str × Str)
  | _, [] => .ok ([], rawURL)
  | i, c :: rest =>
    if (97 ≤ c ∧ c ≤ 122) ∨ (65 ≤ c ∧ c ≤ 90) then getSchemeLoop rawURL (i + 1) rest
    else if (48 ≤ c ∧ c ≤ 57) ∨ c = 43 ∨ c = 45 ∨ c = 46 then
      if i = 0 then .ok ([], rawURL) else getSchemeLoop rawURL (i + 1) rest
    else if c = 58 then
      if i = 0 then .error (.errorString (str "missing protocol scheme"))
      else .ok (rawURL.take i, rawURL.drop (i + 1))
    else
      -- an invalid character, so there is no valid scheme
      .ok ([], rawURL)

/-- Go `url.getScheme`: `(scheme, path)`. -/
def getScheme (rawURL : Str) : Except Error (Str × Str) := getSchemeLoop rawURL 0 rawURL

/-- Go `url.validOptionalPort`. -/
def validOptionalPort (port : Str) : Bool :=
  match port with
  | [] => true
  | c :: digits => if c ≠ 58 then false else digits.all (fun b => ¬ (b < 48 ∨ b > 57))

/-- Go `url.validUserinfo`. -/
def validUserinfo (s : Str) : Bool :=
  s.all (fun r =>
    if 65 ≤ r ∧ r ≤ 90 then true
    else if 97 ≤ r ∧ r ≤ 122 then true
    else if 48 ≤ r ∧ r ≤ 57 then true
    else decide (r ∈ [45, 46, 95, 58, 126, 33, 36, 38, 39, 40, 41, 42, 43, 44, 59, 61, 37, 64]))

/-- Go `url.parseHost`. -/
def parseHost (host : Str) : Except Error Str :=
  if host.head? = some 91 then
    -- Parse an IP-Literal in RFC 3986 and RFC 6874.
    match LastIndexByte host 93 with
    | none => .error (.errorString (str "missing ']' in host"))
    | some i =>
      let colonPort := host.drop (i + 1)
      if ¬ validOptionalPort colonPort then .error (.invalidPort colonPort)
      else
        match Index (host.take i) [37, 50, 53] with
        | some zone =>
          match unescape (host.take zone) encodeHost with
          | .error e => .error e
          | .ok host1 =>
            match unescape ((host.take i).drop zone) encodeZone with
            | .error e => .error e
            | .ok host2 =>
              match unescape (host.drop i) encodeHost with
              | .error e => .error e
              | .ok host3 => .ok (host1 ++ host2 ++ host3)
        | none => unescape host encodeHost
  else
    match LastIndexByte host 58 with
    | some i =>
      let colonPort := host.drop i
      if ¬ validOptionalPort colonPort then .error (.invalidPort colonPort)
      else unescape host encodeHost
    | none => unescape host encodeHost

/-- Go `url.parseAuthority`: `(user, host)`. -/
def parseAuthority (authority : Str) : Except Error (Option Userinfo × Str) :=
  match LastIndexByte authority 64 with
  | none =>
    match parseHost authority with
    | .error e => .error e
    | .ok host => .ok (none, host)
  | some i =>
    match parseHost (authority.drop (i + 1)) with
    | .error e => .error e
    | .ok host =>
      let userinfo := authority.take i
      if ¬ validUserinfo userinfo then .error (.errorString (str "net/url: invalid userinfo"))
      else if 58 ∉ userinfo then
        match unescape userinfo encodeUserPassword with
        | .error e => .error e
        | .ok username => .ok (some ⟨username, [], false⟩, host)
      else
        match unescape (Cut userinfo 58).1 encodeUserPassword with
        | .error e => .error e
        | .ok username =>
          match unescape (Cut userinfo 58).2.1 encodeUserPassword with
          | .error e => .error e
          | .ok password => .ok (some ⟨username, password, true⟩, host)

/-- The second half of Go `url.parse`, from the authority on: `rest` is what
follows the scheme, without the query. -/
def parseRest (url : URL) (rest : Str) (viaRequest : Bool) : Except Error URL :=
  if (url.Scheme ≠ [] ∨ (viaRequest = false ∧ ¬ [47, 47, 47].isPrefixOf rest)) ∧
      [47, 47].isPrefixOf rest then
    let authority0 := rest.drop 2
    let authority := match IndexByte authority0 47 with
      | some i => authority0.take i
      | none => authority0
    let rest1 := match IndexByte authority0 47 with
      | some i => authority0.drop i
      | none => []
    match parseAuthority authority with
    | .error e => .error e
    | .ok (user, host) => URL.setPath { url with User := user, Host := host } rest1
  else if url.Scheme ≠ [] ∧ [47].isPrefixOf rest then
    -- OmitHost is set to true when rawURL has an empty host (authority).
    URL.setPath { url with OmitHost := true } rest
  else URL.setPath url rest

/-- Go `url.parse`. -/
def parse (rawURL : Str) (viaRequest : Bool) : Except Error URL :=
  if stringContainsCTLByte rawURL then
    .error (.errorString (str "net/url: invalid control character in URL"))
  else if rawURL = [] ∧ viaRequest = true then .error (.errorString (str "empty url"))
  else if rawURL = [42] then .ok { Path := [42] }
  else
    -- Split off possible leading "http:", "mailto:", etc.
    match getScheme rawURL with
    | .error e => .error e
    | .ok (scheme, rest0) =>
      let url0 : URL := { Scheme := ToLower scheme }
      let forced : Bool := rest0.getLast? = some 63 ∧ rest0.count 63 = 1
      let rest := if forced then rest0.dropLast else (Cut rest0 63).1
      let url : URL :=
        if forced then { url0 with ForceQuery := true }
        else { url0 with RawQuery := (Cut rest0 63).2.1 }
      if ¬ [47].isPrefixOf rest then
        if url.Scheme ≠ [] then
          -- We consider rootless paths per RFC 3986 as opaque.
          .ok { url with Opaque := rest }
        else if viaRequest then .error (.errorString (str "invalid URI for request"))
        else if 58 ∈ (Cut rest 47).1 then
          -- First path segment has colon. Not allowed in relative URL.
          .error (.errorString (str "first path segment in URL cannot contain colon"))
        else parseRest url rest viaRequest
      else parseRest url rest viaRequest

/-- Go `url.Parse`. -/
def Parse (rawURL : Str) : Except Error URL :=
  -- Cut off #frag
  let u := (Cut rawURL 35).1
  let frag := (Cut rawURL 35).2.1
  match parse u false with
  | .error e => .error (.urlError (str "parse") u e)
  | .ok url =>
    if frag = [] then .ok url
    else
      match url.setFragment frag with
      | .error e => .error (.urlError (str "parse") rawURL e)
      | .ok url1 => .ok url1

/-- The loop `for found { elem, remaining, found = strings.Cut(remaining, "/") ... }`
of Go `url.resolvePath`: returns the bytes of `dst` and the last `elem`.  Every
turn removes a slash from `remaining`, so its length plus one is enough fuel. -/
def resolveLoop : Nat → Str → Str → Bool → Str × Str
  | 0, _, dst, _ => (dst, [])
  | fuel + 1, remaining, dst, first =>
    let elem := (Cut remaining 47).1
    let found := (Cut remaining 47).2.2
    let next : Str × Bool :=
      if elem = [46] then (dst, false)
      else if elem = [46, 46] then
        -- Ignore the leading '/' we already wrote.
        match LastIndexByte (dst.drop 1) 47 with
        | none => ([47], true)
        | some index => ([47] ++ (dst.drop 1).take index, first)
      else ((if first = false then dst ++ [47] else dst) ++ elem, false)
    if found then resolveLoop fuel (Cut remaining 47).2.1 next.1 next.2 else (next.1, elem)

/-- Go `url.resolvePath`. -/
def resolvePath (base ref : Str) : Str :=
  let full :=
    if ref = [] then base
    else if ref.head? ≠ some 47 then
      (match LastIndexByte base 47 with
        | some i => base.take (i + 1)
        | none => []) ++ ref
    else ref
  if full = [] then []
  else
    let res := resolveLoop (full.length + 1) full [47] true
    let dst := if res.2 = [46] ∨ res.2 = [46, 46] then res.1 ++ [47] else res.1
    -- We wrote an initial '/', but we don't want two.
    if dst.length > 1 ∧ dst.getD 1 0 = 47 then dst.drop 1 else dst

/-- The result of a `setPath` whose error Go ignores: on an error the URL is
left as it was. -/
def URL.setPathIgnoringError (u : URL) (p : Str) : URL :=
  match u.setPath p with
  | .ok u1 => u1
  | .error _ => u

/-- Go `(*URL).ResolveReference`. -/
def URL.ResolveReference (u ref : URL) : URL :=
  let url : URL := if ref.Scheme = [] then { ref with Scheme := u.Scheme } else ref
  if ref.Scheme ≠ [] ∨ ref.Host ≠ [] ∨ ref.User ≠ none then
    -- The "absoluteURI" or "net_path" cases.
    url.setPathIgnoringError (resolvePath ref.EscapedPath [])
  else if ref.Opaque ≠ [] then { url with User := none, Host := [], Path := [] }
  else
    let url1 : URL :=
      if ref.Path = [] ∧ ref.ForceQuery = false ∧ ref.RawQuery = [] then
        if ref.Fragment = [] then
          { url with RawQuery := u.RawQuery, Fragment := u.Fragment, RawFragment := u.RawFragment }
        else { url with RawQuery := u.RawQuery }
      else url
    if ref.Path = [] ∧ u.Opaque ≠ [] then
      { url1 with Opaque := u.Opaque, User := none, Host := [], Path := [] }
    else
      -- The "abs_path" or "rel_path" cases.
      URL.setPathIgnoringError { url1 with Host := u.Host, User := u.User }
        (resolvePath u.EscapedPath ref.EscapedPath)

/-- Go `(*URL).Parse`: parse `ref` in the context of the receiver. -/
def URL.Parse (u : URL) (ref : Str) : Except Error URL :=
  match Hostio.Parse ref with
  | .error e => .error e
  | .ok refURL => .ok (u.ResolveReference refURL)

/-- Go `(*URL).String`. -/
def URL.String (u : URL) : Str :=
  let buf0 : Str := if u.Scheme ≠ [] then u.Scheme ++ [58] else []
  let buf1 : Str :=
    if u.Opaque ≠ [] then buf0 ++ u.Opaque
    else
      let bufA : Str :=
        if u.Scheme ≠ [] ∨ u.Host ≠ [] ∨ u.User ≠ none then
          if u.OmitHost = true ∧ u.Host = [] ∧ u.User = none then buf0
          else
            let b1 := if u.Host ≠ [] ∨ u.Path ≠ [] ∨ u.User ≠ none then buf0 ++ [47, 47] else buf0
            let b2 := match u.User with
              | some ui => b1 ++ ui.String ++ [64]
              | none => b1
            if u.Host ≠ [] then b2 ++ escape u.Host encodeHost else b2
        else buf0
      let path := u.EscapedPath
      let bufB := if path ≠ [] ∧ path.head? ≠ some 47 ∧ u.Host ≠ [] then bufA ++ [47] else bufA
      let bufC := if bufB = [] ∧ 58 ∈ (Cut path 47).1 then bufB ++ [46, 47] else bufB
      bufC ++ path
  let buf2 := if u.ForceQuery = true ∨ u.RawQuery ≠ [] then buf1 ++ [63] ++ u.RawQuery else buf1
  if u.Fragment ≠ [] then buf2 ++ [35] ++ u.EscapedFragment else buf2

/-- Nat-wise `<` on Go strings. -/
def strLess : Str → Str → Bool
  | [], [] => false
  | [], _ :: _ => true
  | _ :: _, [] => false
  | a :: s, b :: t => if a < b then true else if b < a then false else strLess s t

/-- Go `url.Values` (and `http.Header`), a `map[string][]string`: the entries
with their keys in increasing order, each key once. -/
abbrev Values := List (Str × List Str)

/-- The assignment `m[key] = f(m[key])` on a `map[string][]string`. -/
def Values.update (key : Str) (f : List Str → List Str) : Values → Values
  | [] => [(key, f [])]
  | (k, vs) :: m =>
    if key = k then (k, f vs) :: m
    else if strLess key k then (key, f []) :: (k, vs) :: m
    else (k, vs) :: Values.update key f m

/-- Go `Values.Set`: `v[key] = []string{value}`. -/
def Values.Set (v : Values) (key value : Str) : Values := Values.update key (fun _ => [value]) v

/-- Go `Values.Has`. -/
def Values.Has (v : Values) (key : Str) : Bool := v.any (fun kv => kv.1 = key)

/-- The loop of Go `url.parseQuery`: the map and the first error.  Every turn
shortens `query`, so its length plus one is enough fuel. -/
def parseQueryLoop : Nat → Str → Values → Option Error → Values × Option Error
  | 0, _, m, err => (m, err)
  | fuel + 1, query, m, err =>
    if query = [] then (m, err)
    else
      let key := (Cut query 38).1
      let query1 := (Cut query 38).2.1
      if 59 ∈ key then
        parseQueryLoop fuel query1 m
          (some (.errorString (str "invalid semicolon separator in query")))
      else if key = [] then parseQueryLoop fuel query1 m err
      else
        match QueryUnescape (Cut key 61).1 with
        | .error err1 => parseQueryLoop fuel query1 m (if err = none then some err1 else err)
        | .ok key1 =>
          match QueryUnescape (Cut key 61).2.1 with
          | .error err1 => parseQueryLoop fuel query1 m (if err = none then some err1 else err)
          | .ok value => parseQueryLoop fuel query1 (Values.update key1 (fun vs => vs ++ [value]) m) err

/-- Go `url.ParseQuery`. -/
def ParseQuery (query : Str) : Values × Option Error :=
  parseQueryLoop (query.length + 1) query [] none

/-- Go `(*URL).Query`: the parsed query, errors dropped. -/
def URL.Query (u : URL) : Values := (ParseQuery u.RawQuery).1

/-- Go `Values.Encode`: "URL encoded" form sorted by key. -/
def Values.Encode (v : Values) : Str :=
  v.foldl
    (fun buf kv =>
      kv.2.foldl
        (fun buf val =>
          (if buf.length > 0 then buf ++ [38] else buf) ++ QueryEscape kv.1 ++ [61] ++ QueryEscape val)
        buf)
    []

/-! ## Package `strconv` -/

/-- The loop of Go `strconv.formatBits` in base 10, writing digits from the
right: `for u >= 10 { a[i] = u%10 + '0'; u /= 10 }; a[i] = u + '0'`. -/
def formatBits : Nat → Nat → Str → Str
  | 0, u, a => (u % 10 + 48) :: a
  | fuel + 1, u, a =>
    if u ≥ 10 then formatBits fuel (u / 10) ((u % 10 + 48) :: a) else (u + 48) :: a

/-- Go `strconv.Itoa`. -/
def Itoa (i : Int) : Str :=
  if i < 0 then 45 :: formatBits (-i).toNat (-i).toNat [] else formatBits i.toNat i.toNat []

/-! ## Package `net/http` -/

/-- A response body as a reader: the bytes it yields and the error, if any,
that ends the reading. -/
structure Body where
  data : Str
  readErr : Option Error := none
  deriving DecidableEq, Repr

/-- Go `http.Response`: the fields the client reads. -/
structure Response where
  StatusCode : Int
  Body : Body
  deriving DecidableEq, Repr

/-- Go `http.Request`: the fields the client sets.  `Body` holds the bytes of
the request body (`http.NoBody` is empty). -/
structure Request where
  Method : Str
  URL : URL
  Header : Values
  Body : Str
  Host : Str
  deriving DecidableEq, Repr

/-- Go `httpguts.IsTokenRune` / `textproto.validHeaderFieldByte`: the token
characters of RFC 7230. -/
def isToken (c : Nat) : Bool :=
  if (97 ≤ c ∧ c ≤ 122) ∨ (65 ≤ c ∧ c ≤ 90) ∨ (48 ≤ c ∧ c ≤ 57) then true
  else decide (c ∈ [33, 35, 36, 37, 38, 39, 42, 43, 45, 46, 94, 95, 96, 124, 126])

/-- Go `http.validMethod`. -/
def validMethod (method : Str) : Bool := method ≠ [] ∧ method.all isToken

/-- The loop of Go `textproto.canonicalMIMEHeaderKey`: upper case at the start
and after a hyphen, lower case elsewhere. -/
def canonicalLoop : Bool → Str → Str
  | _, [] => []
  | upper, c :: s =>
    (if upper = true ∧ 97 ≤ c ∧ c ≤ 122 then c - 32
      else if upper = false ∧ 65 ≤ c ∧ c ≤ 90 then c + 32
      else c) :: canonicalLoop (c = 45) s

/-- Go `textproto.CanonicalMIMEHeaderKey`. -/
def CanonicalMIMEHeaderKey (s : Str) : Str := if s.all isToken then canonicalLoop true s else s

/-- Go `http.Header.Set`. -/
def HeaderSet (h : Values) (key value : Str) : Values :=
  Values.Set h (CanonicalMIMEHeaderKey key) value

/-- Go `http.hasPort`: `strings.LastIndex(s, ":") > strings.LastIndex(s, "]")`. -/
def hasPort (s : Str) : Bool :=
  match LastIndexByte s 58, LastIndexByte s 93 with
  | some i, some j => i > j
  | some _, none => true
  | none, _ => false

/-- Go `http.removeEmptyPort`. -/
def removeEmptyPort (host : Str) : Str :=
  if hasPort host ∧ host.getLast? = some 58 then host.dropLast else host

/-- Go `http.NewRequestWithContext` with a non-nil context.  (`%q` of a method
is the method between double quotes, for the methods free of quotes and
backslashes.) -/
def NewRequestWithContext (method url : Str) (body : Str) : Except Error Request :=
  let method1 := if method = [] then str "GET" else method
  if ¬ validMethod method1 then
    .error (.errorString (str "net/http: invalid method " ++ [34] ++ method1 ++ [34]))
  else
    match Parse url with
    | .error e => .error e
    | .ok u =>
      -- The host's colon:port should be normalized.
      let u1 : URL := { u with Host := removeEmptyPort u.Host }
      .ok { Method := method1, URL := u1, Header := [], Body := body, Host := u1.Host }

/-! ## `types.go` -/

/-- Go `type Field string`. -/
abbrev Field := Str

def IP : Field := str "ip"
def NS : Field := str "ns"
def MX : Field := str "mx"
def ASN : Field := str "asn"
def Backlinks : Field := str "backlinks"
def Redirects : Field := str "redirects"
def Adsense : Field := str "adsense"
def Facebook : Field := str "facebook"
def Twitter : Field := str "twitter"
def Instagram : Field := str "instagram"
def GTM : Field := str "gtm"
def GoogleAnalytics : Field := str "googleanalytics"
def Email : Field := str "email"

/-- The thirteen `Field` constants of `types.go`. -/
def fieldConstants : List Field :=
  [IP, NS, MX, ASN, Backlinks, Redirects, Adsense, Facebook, Twitter, Instagram, GTM,
    GoogleAnalytics, Email]

/-- A Go slice as a value: `none` is the nil slice, `some l` a non-nil slice
with the elements `l` (`some []` is empty and not nil). -/
abbrev Slice (α : Type) := Option (List α)

/-- Go `time.Time`: the wall and monotonic clock readings and the location
pointer (`none` is nil, which means UTC). -/
structure Time where
  wall : Nat := 0
  ext : Int := 0
  loc : Option Nat := none
  deriving DecidableEq, Repr

structure WebResponse where
  Domain : Str := []
  Rank : Int := 0
  URL : Str := []
  IP : Str := []
  Date : Time := {}
  Length : Int := 0
  Encoding : Str := []
  Copyright : Str := []
  Title : Str := []
  Description : Str := []
  Links : Slice Str := none
  deriving DecidableEq, Repr

structure DNSResponse where
  Domain : Str := []
  A : Slice Str := none
  AAAA : Slice Str := none
  MX : Slice Str := none
  NS : Slice Str := none
  deriving DecidableEq, Repr

structure RelatedDomain where
  Value : Str := []
  Count : Int := 0
  deriving DecidableEq, Repr

structure RelatedResponse where
  IP : Slice RelatedDomain := none
  Redirects : Slice RelatedDomain := none
  ASN : Slice RelatedDomain := none
  Backlinks : Slice RelatedDomain := none
  MX : Slice RelatedDomain := none
  NS : Slice RelatedDomain := none
  deriving DecidableEq, Repr

structure ASNInfo where
  ASN : Str := []
  Name : Str := []
  Domain : Str := []
  Route : Str := []
  /-- The Go field `Type` (a Lean keyword). -/
  Type_ : Str := []
  deriving DecidableEq, Repr

structure IPInfo where
  City : Str := []
  Region : Str := []
  Country : Str := []
  Loc : Str := []
  Postal : Str := []
  Timezone : Str := []
  ASN : ASNInfo := {}
  deriving DecidableEq, Repr

/-- The Go map `map[string]IPInfo` of `FullResponse` is `none` when nil, else
its entries with the keys in increasing order, each key once. -/
structure FullResponse where
  Domain : Str := []
  DNS : DNSResponse := {}
  IPInfo : Option (List (Str × IPInfo)) := none
  Web : WebResponse := {}
  Related : RelatedResponse := {}
  deriving DecidableEq, Repr

structure DomainsResponse where
  IP : Str := []
  NS : Str := []
  MX : Str := []
  ASN : Str := []
  Backlinks : Slice Str := none
  Redirects : Slice Str := none
  Adsense : Slice Str := none
  Facebook : Str := []
  Twitter : Str := []
  Instagram : Str := []
  GTM : Str := []
  GoogleAnalytics : Str := []
  Email : Str := []
  Domains : Slice Str := none
  Page : Int := 0
  Total : Int := 0
  deriving DecidableEq, Repr

/-! ## `client.go` -/

def defaultBaseURL : Str := str "https://host.io/api"

structure Pager where
  Limit : Int
  Page : Int
  deriving DecidableEq, Repr

/-- The client.  `HTTPClient` is the round trip `c.HTTPClient.Do`: the response
or the error it gives for a request. -/
structure Client where
  token : Str
  baseURL : URL
  HTTPClient : Request → Except Error Response

/-- `NewClient`, given the transport.  The error of `url.Parse` is dropped as in
the source; the default base URL parses (see `NewClient_baseURL`). -/
def NewClient (token : Str) (transport : Request → Except Error Response) : Client :=
  { token := token
    baseURL := match Parse defaultBaseURL with
      | .ok baseURL => baseURL
      | .error _ => {}
    HTTPClient := transport }

/-- The call `json.NewDecoder(resp.Body).Decode(data)`: the error and the
target as the decoder leaves it (a failed decode may have filled part of it). -/
abbrev Decoder (T : Type) := Body → T → Option Error × T

/-- What a call of `do` leaves behind: the error returned, the target behind
the `data` pointer, and the requests handed to the HTTP client. -/
structure DoResult (T : Type) where
  err : Option Error
  data : T
  sent : List Request

/-- `Client.do` (the context is not modelled). -/
def Client.do {T : Type} (c : Client) (decode : Decoder T) (endpoint : URL) (data : T) :
    DoResult T :=
  match NewRequestWithContext (str "GET") endpoint.String [] with
  | .error err => ⟨some err, data, []⟩
  | .ok req0 =>
    let req : Request :=
      { req0 with
        Header :=
          HeaderSet
            (HeaderSet (HeaderSet req0.Header (str "Content-Type") (str "application/json"))
              (str "Accept") (str "application/json"))
            (str "Authorization") (str "Bearer " ++ c.token) }
    match c.HTTPClient req with
    | .error err => ⟨some err, data, [req]⟩
    | .ok resp =>
      if resp.StatusCode ≠ 200 then
        -- data, _ := io.ReadAll(resp.Body); fmt.Errorf("%d: %s", resp.StatusCode, string(data))
        ⟨some (.errorString (Itoa resp.StatusCode ++ str ": " ++ resp.Body.data)), data, [req]⟩
      else
        ⟨(decode resp.Body data).1, (decode resp.Body data).2, [req]⟩

/-- What an operation returns: the Go pair `(result, err)`, and the requests
handed to the HTTP client. -/
structure OpResult (T : Type) where
  result : Option T
  err : Option Error
  sent : List Request

/-- The endpoint of `Web` (line 45). -/
def Client.webEndpoint (c : Client) (domain : Str) : Except Error URL :=
  c.baseURL.Parse (Join [c.baseURL.Path, str "web", domain])

/-- The endpoint of `DNS` (line 62). -/
def Client.dnsEndpoint (c : Client) (domain : Str) : Except Error URL :=
  c.baseURL.Parse (Join [c.baseURL.Path, str "dns", domain])

/-- The endpoint of `Related` (line 79). -/
def Client.relatedEndpoint (c : Client) (domain : Str) : Except Error URL :=
  c.baseURL.Parse (Join [c.baseURL.Path, str "related", domain])

/-- The endpoint of `Full` (line 96). -/
def Client.fullEndpoint (c : Client) (domain : Str) : Except Error URL :=
  c.baseURL.Parse (Join [c.baseURL.Path, str "full", domain])

/-- The endpoint of `Domains` (lines 113-123): the parsed URL, with the query
rewritten when a pager is given. -/
def Client.domainsEndpoint (c : Client) (field : Field) (value : Str) (pager : Option Pager) :
    Except Error URL :=
  match c.baseURL.Parse (Join [c.baseURL.Path, str "domains", field, value]) with
  | .error err => .error err
  | .ok endpoint =>
    match pager with
    | some pager =>
      let query := endpoint.Query
      let query1 := Values.Set query (str "limit") (Itoa pager.Limit)
      let query2 := Values.Set query1 (str "page") (Itoa pager.Page)
      .ok { endpoint with RawQuery := Values.Encode query2 }
    | none => .ok endpoint

/-- `Client.Web`. -/
def Client.Web (c : Client) (decode : Decoder WebResponse) (domain : Str) :
    OpResult WebResponse :=
  match c.webEndpoint domain with
  | .error err => ⟨none, some err, []⟩
  | .ok endpoint =>
    -- var apiResp WebResponse
    let r := c.do decode endpoint ({} : WebResponse)
    match r.err with
    | some err => ⟨none, some err, r.sent⟩
    | none => ⟨some r.data, none, r.sent⟩

/-- `Client.DNS`. -/
def Client.DNS (c : Client) (decode : Decoder DNSResponse) (domain : Str) :
    OpResult DNSResponse :=
  match c.dnsEndpoint domain with
  | .error err => ⟨none, some err, []⟩
  | .ok endpoint =>
    -- var apiResp DNSResponse
    let r := c.do decode endpoint ({} : DNSResponse)
    match r.err with
    | some err => ⟨none, some err, r.sent⟩
    | none => ⟨some r.data, none, r.sent⟩

/-- `Client.Related`. -/
def Client.Related (c : Client) (decode : Decoder RelatedResponse) (domain : Str) :
    OpResult RelatedResponse :=
  match c.relatedEndpoint domain with
  | .error err => ⟨none, some err, []⟩
  | .ok endpoint =>
    -- var apiResp RelatedResponse
    let r := c.do decode endpoint ({} : RelatedResponse)
    match r.err with
    | some err => ⟨none, some err, r.sent⟩
    | none => ⟨some r.data, none, r.sent⟩

/-- `Client.Full`. -/
def Client.Full (c : Client) (decode : Decoder FullResponse) (domain : Str) :
    OpResult FullResponse :=
  match c.fullEndpoint domain with
  | .error err => ⟨none, some err, []⟩
  | .ok endpoint =>
    -- var apiResp FullResponse
    let r := c.do decode endpoint ({} : FullResponse)
    match r.err with
    | some err => ⟨none, some err, r.sent⟩
    | none => ⟨some r.data, none, r.sent⟩

/-- `Client.Domains`. -/
def Client.Domains (c : Client) (decode : Decoder DomainsResponse) (field : Field) (value : Str)
    (pager : Option Pager) :
    OpResult DomainsResponse :=
  match c.domainsEndpoint field value pager with
  | .error err => ⟨none, some err, []⟩
  | .ok endpoint =>
    -- var apiResp DomainsResponse
    let r := c.do decode endpoint ({} : DomainsResponse)
    match r.err with
    | some err => ⟨none, some err, r.sent⟩
    | none => ⟨some r.data, none, r.sent⟩

/-! ## Vocabulary of the statements -/

/-- The segments joined by slashes. -/
def joinSegs : List Str → Str
  | [] => []
  | [s] => s
  | s :: t :: rest => s ++ 47 :: joinSegs (t :: rest)

/-- A path element that is copied as it stands: not empty, without a slash,
and neither `.` nor `..`. -/
def NormalSeg (s : Str) : Prop := s ≠ [] ∧ 47 ∉ s ∧ s ≠ [46] ∧ s ≠ [46, 46]

instance (s : Str) : Decidable (NormalSeg s) := by unfold NormalSeg; infer_instance

/-- A path element that `resolvePath` copies as it stands: without a slash, and
neither `.` nor `..` (it may be empty). -/
def ResSeg (s : Str) : Prop := 47 ∉ s ∧ s ≠ [46] ∧ s ≠ [46, 46]

instance (s : Str) : Decidable (ResSeg s) := by unfold ResSeg; infer_instance

/-- The escaped form Go gives a path `R` that holds no `%` (`EscapedPath`):
`R` itself when every byte of it is valid in a path, else `escape(R, encodePath)`. -/
def encodedPath (R : Str) : Str := if validEncoded R encodePath then R else escape R encodePath

/-- A byte that passes through `url.Parse` as part of the path: not a control
byte, and none of `#`, `%`, `?`. -/
def PlainByte (c : Nat) : Prop := 32 ≤ c ∧ c ≠ 127 ∧ c < 256 ∧ c ≠ 35 ∧ c ≠ 37 ∧ c ≠ 63

instance (c : Nat) : Decidable (PlainByte c) := by unfold PlainByte; infer_instance

/-- The base URL of `NewClient`, `url.Parse("https://host.io/api")`. -/
def defaultBase : URL := { Scheme := str "https", Host := str "host.io", Path := str "/api" }

/-- A bare origin `scheme://host`, with an empty path (the base URL of the
tests is `url.Parse(server.URL)`, of this form). -/
def bareOrigin (scheme host : Str) : URL := { Scheme := scheme, Host := host }

/-- The base URLs the claims speak of: that of a client made by `NewClient`, or
a bare origin. -/
def StdBase (b : URL) : Prop :=
  (∃ token transport, b = (NewClient token transport).baseURL) ∨
    ∃ scheme host, host ≠ [] ∧ b = bareOrigin scheme host

/-- A byte of a domain label: an ASCII letter, a digit or a hyphen. -/
def isLabelByte (c : Nat) : Bool :=
  (97 ≤ c ∧ c ≤ 122) ∨ (65 ≤ c ∧ c ≤ 90) ∨ (48 ≤ c ∧ c ≤ 57) ∨ c = 45

/-- The labels of a name: the parts between its dots. -/
def labels : Str → List Str
  | [] => [[]]
  | c :: s =>
    if c = 46 then [] :: labels s
    else
      match labels s with
      | l :: ls => (c :: l) :: ls
      | [] => [[c]]

/-- A domain: one or more dot-separated non-empty labels of ASCII letters,
digits and hyphens. -/
def IsDomain (D : Str) : Prop := ∀ l ∈ labels D, l ≠ [] ∧ ∀ c ∈ l, isLabelByte c = true

instance (D : Str) : Decidable (IsDomain D) := by unfold IsDomain; infer_instance

/-- A path segment the client passes on as it stands: a normal path element
of plain bytes. -/
def SafeSegment (D : Str) : Prop := NormalSeg D ∧ ∀ c ∈ D, PlainByte c

instance (D : Str) : Decidable (SafeSegment D) := by unfold SafeSegment; infer_instance

/-- The request `do` hands to the HTTP client for a token and a request made
by `http.NewRequestWithContext`: the three headers are set. -/
def withHeaders (token : Str) (req0 : Request) : Request :=
  { req0 with
    Header :=
      HeaderSet
        (HeaderSet (HeaderSet req0.Header (str "Content-Type") (str "application/json"))
          (str "Accept") (str "application/json"))
        (str "Authorization") (str "Bearer " ++ token) }

/-- An operation returns exactly one of a result and an error. -/
def ExactlyOne {T : Type} (r : OpResult T) : Prop :=
  (r.result.isSome = true ∧ r.err = none) ∨ (r.result = none ∧ r.err.isSome = true)

/-! ## Package `encoding/json`

JSON texts are taken as syntax trees: writing a tree out and parsing it back
is the identity.  `marshal*` is `json.Marshal` on a value of the type and
`unmarshal*` is `json.Unmarshal` into a value of the type, field by field
under the tags of `types.go`. -/

/-- A JSON value; the numbers met here are integers. -/
inductive JSON where
  | null
  | bool (b : Bool)
  | number (n : Int)
  | string (s : Str)
  | array (elems : List JSON)
  | object (members : List (Str × JSON))

/-- A continuation byte of UTF-8, `0x80`-`0xBF`. -/
def isCont (b : Nat) : Bool := 128 ≤ b ∧ b ≤ 191

/-- The size of the UTF-8 encoding at the head of `s`, or `0` when the head is
not the start of a valid encoding (Go `utf8.DecodeRuneInString` then gives
`RuneError` with width 1). -/
def runeLen : Str → Nat
  | [] => 0
  | b0 :: rest =>
    if b0 < 128 then 1
    else if 194 ≤ b0 ∧ b0 ≤ 223 then
      match rest with
      | b1 :: _ => if isCont b1 then 2 else 0
      | _ => 0
    else if 224 ≤ b0 ∧ b0 ≤ 239 then
      match rest with
      | b1 :: b2 :: _ =>
        if (if b0 = 224 then 160 else 128) ≤ b1 ∧ b1 ≤ (if b0 = 237 then 159 else 191) ∧
            isCont b2 then 3
        else 0
      | _ => 0
    else if 240 ≤ b0 ∧ b0 ≤ 244 then
      match rest with
      | b1 :: b2 :: b3 :: _ =>
        if (if b0 = 240 then 144 else 128) ≤ b1 ∧ b1 ≤ (if b0 = 244 then 143 else 191) ∧
            isCont b2 ∧ isCont b3 then 4
        else 0
      | _ => 0
    else 0

/-- The loop of the JSON encoder over a string: a valid encoding is copied, any
other byte is written as U+FFFD (`EF BF BD`). -/
def toValidUTF8Loop : Nat → Str → Str
  | 0, _ => []
  | _ + 1, [] => []
  | fuel + 1, b :: rest =>
    if runeLen (b :: rest) = 0 then 239 :: 191 :: 189 :: toValidUTF8Loop fuel rest
    else (b :: rest).take (runeLen (b :: rest)) ++
      toValidUTF8Loop fuel ((b :: rest).drop (runeLen (b :: rest)))

/-- The text of a Go string as the JSON encoder writes it: invalid UTF-8 is
coerced to U+FFFD. -/
def toValidUTF8 (s : Str) : Str := toValidUTF8Loop s.length s

/-- The error of a JSON value that does not fit the Go type. -/
def unmarshalTypeError : Error := .errorString (str "json: cannot unmarshal value into Go value")

/-- Unmarshal into a `string` holding `cur`. -/
def decodeString (v : JSON) (cur : Str) : Except Error Str :=
  match v with
  | .string s => .ok s
  | .null => .ok cur
  | _ => .error unmarshalTypeError

/-- Unmarshal into an `int` holding `cur`. -/
def decodeInt (v : JSON) (cur : Int) : Except Error Int :=
  match v with
  | .number n => .ok n
  | .null => .ok cur
  | _ => .error unmarshalTypeError

/-- Unmarshal the elements of an array, each into a fresh element. -/
def decodeElems {T : Type} (dec : JSON → Except Error T) : List JSON → Except Error (List T)
  | [] => .ok []
  | j :: js =>
    match dec j with
    | .error e => .error e
    | .ok x =>
      match decodeElems dec js with
      | .error e => .error e
      | .ok xs => .ok (x :: xs)

/-- Unmarshal into a `[]string`: an array gives a non-nil slice, `null` the nil
slice. -/
def decodeStrings (v : JSON) : Except Error (Slice Str) :=
  match v with
  | .array elems =>
    match decodeElems (fun j => decodeString j []) elems with
    | .error e => .error e
    | .ok l => .ok (some l)
  | .null => .ok none
  | _ => .error unmarshalTypeError

/-- The position of the first name that satisfies `p`. -/
def indexWhere (p : Str → Bool) : List Str → Option Nat
  | [] => none
  | n :: ns => if p n then some 0 else (indexWhere p ns).map (fun i => i + 1)

/-- The field a key of a JSON object goes to: the one with that very name,
else the first whose name matches when letter case is ignored. -/
def findField (names : List Str) (key : Str) : Option Nat :=
  match indexWhere (fun n => n = key) names with
  | some i => some i
  | none => indexWhere (fun n => ToLower n = ToLower key) names

/-- Unmarshal the members of an object into a struct, in order: a key without
a field is skipped, the first error ends the decoding. -/
def decodeMembers {T : Type} (names : List Str) (set : T → Nat → JSON → Except Error T) :
    List (Str × JSON) → T → Except Error T
  | [], r => .ok r
  | (k, v) :: ms, r =>
    match findField names k with
    | none => decodeMembers names set ms r
    | some i =>
      match set r i v with
      | .error e => .error e
      | .ok r1 => decodeMembers names set ms r1

/-- Unmarshal into a struct holding `r`. -/
def decodeStruct {T : Type} (names : List Str) (set : T → Nat → JSON → Except Error T)
    (v : JSON) (r : T) : Except Error T :=
  match v with
  | .object ms => decodeMembers names set ms r
  | .null => .ok r
  | _ => .error unmarshalTypeError

/-- A `string` field tagged `omitempty`: left out when empty. -/
def omitString (name : Str) (s : Str) : List (Str × JSON) :=
  if s = [] then [] else [(name, .string (toValidUTF8 s))]

/-- An `int` field tagged `omitempty`: left out when zero. -/
def omitInt (name : Str) (i : Int) : List (Str × JSON) :=
  if i = 0 then [] else [(name, .number i)]

/-- A `[]string` field tagged `omitempty`: left out when its length is zero,
nil or not. -/
def omitStrings (name : Str) (s : Slice Str) : List (Str × JSON) :=
  match s with
  | none => []
  | some [] => []
  | some (x :: l) => [(name, .array ((x :: l).map (fun y => .string (toValidUTF8 y))))]

/-- The JSON codec of `time.Time`, `MarshalJSON` and `UnmarshalJSON`, on the text
between the quotes. -/
structure TimeCodec where
  MarshalJSON : Time → Except Error Str
  UnmarshalJSON : Str → Except Error Time

/-- Unmarshal into a `time.Time` holding `cur`. -/
def decodeTime (tc : TimeCodec) (v : JSON) (cur : Time) : Except Error Time :=
  match v with
  | .string s => tc.UnmarshalJSON s
  | .null => .ok cur
  | _ => .error unmarshalTypeError

/-- The assignment `m[key] = x` on a `map[string]T` kept in key order. -/
def mapSet {T : Type} (key : Str) (x : T) : List (Str × T) → List (Str × T)
  | [] => [(key, x)]
  | (k, y) :: m =>
    if key = k then (k, x) :: m
    else if strLess key k then (key, x) :: (k, y) :: m
    else (k, y) :: mapSet key x m

/-- The JSON names of the fields of `RelatedDomain`, in order. -/
def RelatedDomain.names : List Str :=
  [str "value", str "count"]

/-- Unmarshal a JSON value into field `i` of a `RelatedDomain` holding `r`. -/
def RelatedDomain.set (r : RelatedDomain) (i : Nat) (v : JSON) : Except Error RelatedDomain :=
  match i with
  | 0 => (decodeString v r.Value).map (fun x => { r with Value := x })
  | 1 => (decodeInt v r.Count).map (fun x => { r with Count := x })
  | _ => .ok r

/-- `json.Unmarshal` into a `RelatedDomain` holding `r`. -/
def unmarshalRelatedDomain (v : JSON) (r : RelatedDomain) : Except Error RelatedDomain :=
  decodeStruct RelatedDomain.names (RelatedDomain.set) v r

/-- `json.Marshal` of a `RelatedDomain`. -/
def marshalRelatedDomain (v : RelatedDomain) : JSON :=
  .object
    (omitString (str "value") v.Value ++
      omitInt (str "count") v.Count)

/-- A `[]RelatedDomain` field tagged `omitempty`. -/
def omitRelatedDomains (name : Str) (s : Slice RelatedDomain) : List (Str × JSON) :=
  match s with
  | none => []
  | some [] => []
  | some (x :: l) => [(name, .array ((x :: l).map marshalRelatedDomain))]

/-- Unmarshal into a `[]RelatedDomain`. -/
def decodeRelatedDomains (v : JSON) : Except Error (Slice RelatedDomain) :=
  match v with
  | .array elems =>
    match decodeElems (fun j => unmarshalRelatedDomain j {}) elems with
    | .error e => .error e
    | .ok l => .ok (some l)
  | .null => .ok none
  | _ => .error unmarshalTypeError

/-- The JSON names of the fields of `ASNInfo`, in order. -/
def ASNInfo.names : List Str :=
  [str "asn", str "name", str "domain", str "route", str "type"]

/-- Unmarshal a JSON value into field `i` of a `ASNInfo` holding `r`. -/
def ASNInfo.set (r : ASNInfo) (i : Nat) (v : JSON) : Except Error ASNInfo :=
  match i with
  | 0 => (decodeString v r.ASN).map (fun x => { r with ASN := x })
  | 1 => (decodeString v r.Name).map (fun x => { r with Name := x })
  | 2 => (decodeString v r.Domain).map (fun x => { r with Domain := x })
  | 3 => (decodeString v r.Route).map (fun x => { r with Route := x })
  | 4 => (decodeString v r.Type_).map (fun x => { r with Type_ := x })
  | _ => .ok r

/-- `json.Unmarshal` into a `ASNInfo` holding `r`. -/
def unmarshalASNInfo (v : JSON) (r : ASNInfo) : Except Error ASNInfo :=
  decodeStruct ASNInfo.names (ASNInfo.set) v r

/-- `json.Marshal` of a `ASNInfo`. -/
def marshalASNInfo (v : ASNInfo) : JSON :=
  .object
    (omitString (str "asn") v.ASN ++
      omitString (str "name") v.Name ++
      omitString (str "domain") v.Domain ++
      omitString (str "route") v.Route ++
      omitString (str "type") v.Type_)

/-- The JSON names of the fields of `IPInfo`, in order. -/
def IPInfo.names : List Str :=
  [str "city", str "region", str "country", str "loc", str "postal", str "timezone", str "asn"]

/-- Unmarshal a JSON value into field `i` of a `IPInfo` holding `r`. -/
def IPInfo.set (r : IPInfo) (i : Nat) (v : JSON) : Except Error IPInfo :=
  match i with
  | 0 => (decodeString v r.City).map (fun x => { r with City := x })
  | 1 => (decodeString v r.Region).map (fun x => { r with Region := x })
  | 2 => (decodeString v r.Country).map (fun x => { r with Country := x })
  | 3 => (decodeString v r.Loc).map (fun x => { r with Loc := x })
  | 4 => (decodeString v r.Postal).map (fun x => { r with Postal := x })
  | 5 => (decodeString v r.Timezone).map (fun x => { r with Timezone := x })
  | 6 => (unmarshalASNInfo v r.ASN).map (fun x => { r with ASN := x })
  | _ => .ok r

/-- `json.Unmarshal` into a `IPInfo` holding `r`. -/
def unmarshalIPInfo (v : JSON) (r : IPInfo) : Except Error IPInfo :=
  decodeStruct IPInfo.names (IPInfo.set) v r

/-- `json.Marshal` of a `IPInfo`. -/
def marshalIPInfo (v : IPInfo) : JSON :=
  .object
    (omitString (str "city") v.City ++
      omitString (str "region") v.Region ++
      omitString (str "country") v.Country ++
      omitString (str "loc") v.Loc ++
      omitString (str "postal") v.Postal ++
      omitString (str "timezone") v.Timezone ++
      [((str "asn"), marshalASNInfo v.ASN)])

/-- A `map[string]IPInfo` field tagged `omitempty`: left out when it has no
entry, nil or not; else an object with the keys in order. -/
def omitIPInfoMap (name : Str) (m : Option (List (Str × IPInfo))) : List (Str × JSON) :=
  match m with
  | none => []
  | some [] => []
  | some (e :: l) =>
    [(name, .object ((e :: l).map (fun kv => (toValidUTF8 kv.1, marshalIPInfo kv.2))))]

/-- Unmarshal the members of an object into a map: each value is decoded into
a fresh `IPInfo` and stored under its key. -/
def decodeIPInfoEntries : List (Str × JSON) → List (Str × IPInfo) →
    Except Error (List (Str × IPInfo))
  | [], m => .ok m
  | (k, j) :: ms, m =>
    match unmarshalIPInfo j {} with
    | .error e => .error e
    | .ok x => decodeIPInfoEntries ms (mapSet k x m)

/-- Unmarshal into a `map[string]IPInfo` holding `cur`: an object fills the map
(made when nil), `null` gives the nil map. -/
def decodeIPInfoMap (v : JSON) (cur : Option (List (Str × IPInfo))) :
    Except Error (Option (List (Str × IPInfo))) :=
  match v with
  | .object ms =>
    match decodeIPInfoEntries ms (cur.getD []) with
    | .error e => .error e
    | .ok m => .ok (some m)
  | .null => .ok none
  | _ => .error unmarshalTypeError

/-- The JSON names of the fields of `DNSResponse`, in order. -/
def DNSResponse.names : List Str :=
  [str "domain", str "a", str "aaaa", str "mx", str "ns"]

/-- Unmarshal a JSON value into field `i` of a `DNSResponse` holding `r`. -/
def DNSResponse.set (r : DNSResponse) (i : Nat) (v : JSON) : Except Error DNSResponse :=
  match i with
  | 0 => (decodeString v r.Domain).map (fun x => { r with Domain := x })
  | 1 => (decodeStrings v).map (fun x => { r with A := x })
  | 2 => (decodeStrings v).map (fun x => { r with AAAA := x })
  | 3 => (decodeStrings v).map (fun x => { r with MX := x })
  | 4 => (decodeStrings v).map (fun x => { r with NS := x })
  | _ => .ok r

/-- `json.Unmarshal` into a `DNSResponse` holding `r`. -/
def unmarshalDNSResponse (v : JSON) (r : DNSResponse) : Except Error DNSResponse :=
  decodeStruct DNSResponse.names (DNSResponse.set) v r

/-- `json.Marshal` of a `DNSResponse`. -/
def marshalDNSResponse (v : DNSResponse) : JSON :=
  .object
    (omitString (str "domain") v.Domain ++
      omitStrings (str "a") v.A ++
      omitStrings (str "aaaa") v.AAAA ++
      omitStrings (str "mx") v.MX ++
      omitStrings (str "ns") v.NS)

/-- The JSON names of the fields of `RelatedResponse`, in order. -/
def RelatedResponse.names : List Str :=
  [str "ip", str "redirects", str "asn", str "backlinks", str "mx", str "ns"]

/-- Unmarshal a JSON value into field `i` of a `RelatedResponse` holding `r`. -/
def RelatedResponse.set (r : RelatedResponse) (i : Nat) (v : JSON) : Except Error RelatedResponse :=
  match i with
  | 0 => (decodeRelatedDomains v).map (fun x => { r with IP := x })
  | 1 => (decodeRelatedDomains v).map (fun x => { r with Redirects := x })
  | 2 => (decodeRelatedDomains v).map (fun x => { r with ASN := x })
  | 3 => (decodeRelatedDomains v).map (fun x => { r with Backlinks := x })
  | 4 => (decodeRelatedDomains v).map (fun x => { r with MX := x })
  | 5 => (decodeRelatedDomains v).map (fun x => { r with NS := x })
  | _ => .ok r

/-- `json.Unmarshal` into a `RelatedResponse` holding `r`. -/
def unmarshalRelatedResponse (v : JSON) (r : RelatedResponse) : Except Error RelatedResponse :=
  decodeStruct RelatedResponse.names (RelatedResponse.set) v r

/-- `json.Marshal` of a `RelatedResponse`. -/
def marshalRelatedResponse (v : RelatedResponse) : JSON :=
  .object
    (omitRelatedDomains (str "ip") v.IP ++
      omitRelatedDomains (str "redirects") v.Redirects ++
      omitRelatedDomains (str "asn") v.ASN ++
      omitRelatedDomains (str "backlinks") v.Backlinks ++
      omitRelatedDomains (str "mx") v.MX ++
      omitRelatedDomains (str "ns") v.NS)

/-- The JSON names of the fields of `WebResponse`, in order. -/
def WebResponse.names : List Str :=
  [str "domain", str "rank", str "url", str "ip", str "date", str "length", str "encoding", str "copyright", str "title", str "description", str "links"]

/-- Unmarshal a JSON value into field `i` of a `WebResponse` holding `r`. -/
def WebResponse.set (tc : TimeCodec) (r : WebResponse) (i : Nat) (v : JSON) : Except Error WebResponse :=
  match i with
  | 0 => (decodeString v r.Domain).map (fun x => { r with Domain := x })
  | 1 => (decodeInt v r.Rank).map (fun x => { r with Rank := x })
  | 2 => (decodeString v r.URL).map (fun x => { r with URL := x })
  | 3 => (decodeString v r.IP).map (fun x => { r with IP := x })
  | 4 => (decodeTime tc v r.Date).map (fun x => { r with Date := x })
  | 5 => (decodeInt v r.Length).map (fun x => { r with Length := x })
  | 6 => (decodeString v r.Encoding).map (fun x => { r with Encoding := x })
  | 7 => (decodeString v r.Copyright).map (fun x => { r with Copyright := x })
  | 8 => (decodeString v r.Title).map (fun x => { r with Title := x })
  | 9 => (decodeString v r.Description).map (fun x => { r with Description := x })
  | 10 => (decodeStrings v).map (fun x => { r with Links := x })
  | _ => .ok r

/-- `json.Unmarshal` into a `WebResponse` holding `r`. -/
def unmarshalWebResponse (tc : TimeCodec) (v : JSON) (r : WebResponse) : Except Error WebResponse :=
  decodeStruct WebResponse.names (WebResponse.set tc) v r

/-- `json.Marshal` of a `WebResponse`: `omitempty` does nothing for the `Date`,
a struct, which is always written by its own `MarshalJSON`. -/
def marshalWebResponse (tc : TimeCodec) (v : WebResponse) : Except Error JSON :=
  match tc.MarshalJSON v.Date with
  | .error e => .error e
  | .ok date =>
    .ok (.object
      (omitString (str "domain") v.Domain ++
      omitInt (str "rank") v.Rank ++
      omitString (str "url") v.URL ++
      omitString (str "ip") v.IP ++
      [((str "date"), .string date)] ++
      omitInt (str "length") v.Length ++
      omitString (str "encoding") v.Encoding ++
      omitString (str "copyright") v.Copyright ++
      omitString (str "title") v.Title ++
      omitString (str "description") v.Description ++
      omitStrings (str "links") v.Links))

/-- The JSON names of the fields of `DomainsResponse`, in order. -/
def DomainsResponse.names : List Str :=
  [str "ip", str "ns", str "mx", str "asn", str "backlinks", str "redirects", str "adsense", str "facebook", str "twitter", str "instagram", str "gtm", str "googleanalytics", str "email", str "domains", str "page", str "total"]

/-- Unmarshal a JSON value into field `i` of a `DomainsResponse` holding `r`. -/
def DomainsResponse.set (r : DomainsResponse) (i : Nat) (v : JSON) : Except Error DomainsResponse :=
  match i with
  | 0 => (decodeString v r.IP).map (fun x => { r with IP := x })
  | 1 => (decodeString v r.NS).map (fun x => { r with NS := x })
  | 2 => (decodeString v r.MX).map (fun x => { r with MX := x })
  | 3 => (decodeString v r.ASN).map (fun x => { r with ASN := x })
  | 4 => (decodeStrings v).map (fun x => { r with Backlinks := x })
  | 5 => (decodeStrings v).map (fun x => { r with Redirects := x })
  | 6 => (decodeStrings v).map (fun x => { r with Adsense := x })
  | 7 => (decodeString v r.Facebook).map (fun x => { r with Facebook := x })
  | 8 => (decodeString v r.Twitter).map (fun x => { r with Twitter := x })
  | 9 => (decodeString v r.Instagram).map (fun x => { r with Instagram := x })
  | 10 => (decodeString v r.GTM).map (fun x => { r with GTM := x })
  | 11 => (decodeString v r.GoogleAnalytics).map (fun x => { r with GoogleAnalytics := x })
  | 12 => (decodeString v r.Email).map (fun x => { r with Email := x })
  | 13 => (decodeStrings v).map (fun x => { r with Domains := x })
  | 14 => (decodeInt v r.Page).map (fun x => { r with Page := x })
  | 15 => (decodeInt v r.Total).map (fun x => { r with Total := x })
  | _ => .ok r

/-- `json.Unmarshal` into a `DomainsResponse` holding `r`. -/
def unmarshalDomainsResponse (v : JSON) (r : DomainsResponse) : Except Error DomainsResponse :=
  decodeStruct DomainsResponse.names (DomainsResponse.set) v r

/-- `json.Marshal` of a `DomainsResponse`. -/
def marshalDomainsResponse (v : DomainsResponse) : JSON :=
  .object
    (omitString (str "ip") v.IP ++
      omitString (str "ns") v.NS ++
      omitString (str "mx") v.MX ++
      omitString (str "asn") v.ASN ++
      omitStrings (str "backlinks") v.Backlinks ++
      omitStrings (str "redirects") v.Redirects ++
      omitStrings (str "adsense") v.Adsense ++
      omitString (str "facebook") v.Facebook ++
      omitString (str "twitter") v.Twitter ++
      omitString (str "instagram") v.Instagram ++
      omitString (str "gtm") v.GTM ++
      omitString (str "googleanalytics") v.GoogleAnalytics ++
      omitString (str "email") v.Email ++
      omitStrings (str "domains") v.Domains ++
      [((str "page"), .number v.Page)] ++
      [((str "total"), .number v.Total)])

/-- The JSON names of the fields of `FullResponse`, in order. -/
def FullResponse.names : List Str :=
  [str "domain", str "dns", str "ipinfo", str "web", str "related"]

/-- Unmarshal a JSON value into field `i` of a `FullResponse` holding `r`. -/
def FullResponse.set (tc : TimeCodec) (r : FullResponse) (i : Nat) (v : JSON) : Except Error FullResponse :=
  match i with
  | 0 => (decodeString v r.Domain).map (fun x => { r with Domain := x })
  | 1 => (unmarshalDNSResponse v r.DNS).map (fun x => { r with DNS := x })
  | 2 => (decodeIPInfoMap v r.IPInfo).map (fun x => { r with IPInfo := x })
  | 3 => (unmarshalWebResponse tc v r.Web).map (fun x => { r with Web := x })
  | 4 => (unmarshalRelatedResponse v r.Related).map (fun x => { r with Related := x })
  | _ => .ok r

/-- `json.Unmarshal` into a `FullResponse` holding `r`. -/
def unmarshalFullResponse (tc : TimeCodec) (v : JSON) (r : FullResponse) : Except Error FullResponse :=
  decodeStruct FullResponse.names (FullResponse.set tc) v r

/-- `json.Marshal` of a `FullResponse`: `omitempty` does nothing for the struct
fields, which are always written. -/
def marshalFullResponse (tc : TimeCodec) (v : FullResponse) : Except Error JSON :=
  match marshalWebResponse tc v.Web with
  | .error e => .error e
  | .ok web =>
    .ok (.object
      (omitString (str "domain") v.Domain ++
      [((str "dns"), marshalDNSResponse v.DNS)] ++
      omitIPInfoMap (str "ipinfo") v.IPInfo ++
      [((str "web"), web)] ++
      [((str "related"), marshalRelatedResponse v.Related)]))

/-! ## Values that round-trip through JSON -/

/-- A string that is valid UTF-8: the JSON encoder writes it unchanged. -/
def ValidString (s : Str) : Prop := toValidUTF8 s = s

instance (s : Str) : Decidable (ValidString s) := by unfold ValidString; infer_instance

/-- A `[]string` that is nil when empty and holds valid strings. -/
def CanonStrings (s : Slice Str) : Prop :=
  match s with
  | none => True
  | some l => l ≠ [] ∧ ∀ x ∈ l, ValidString x

/-- A time that the codec writes and reads back. -/
def TimeRoundTrips (tc : TimeCodec) (t : Time) : Prop :=
  ∃ s, tc.MarshalJSON t = .ok s ∧ tc.UnmarshalJSON s = .ok t

def RelatedDomain.Canon (v : RelatedDomain) : Prop := ValidString v.Value

/-- A `[]RelatedDomain` that is nil when empty and holds valid strings. -/
def CanonRelated (s : Slice RelatedDomain) : Prop :=
  match s with
  | none => True
  | some l => l ≠ [] ∧ ∀ x ∈ l, x.Canon

def ASNInfo.Canon (v : ASNInfo) : Prop :=
  ValidString v.ASN ∧ ValidString v.Name ∧ ValidString v.Domain ∧ ValidString v.Route ∧
    ValidString v.Type_

def IPInfo.Canon (v : IPInfo) : Prop :=
  ValidString v.City ∧ ValidString v.Region ∧ ValidString v.Country ∧ ValidString v.Loc ∧
    ValidString v.Postal ∧ ValidString v.Timezone ∧ v.ASN.Canon

/-- A `map[string]IPInfo` that is nil when empty, with valid keys and values
(the keys are in increasing order, as in every value of the model). -/
def CanonIPInfoMap (m : Option (List (Str × IPInfo))) : Prop :=
  match m with
  | none => True
  | some l => l ≠ [] ∧ (∀ kv ∈ l, ValidString kv.1 ∧ kv.2.Canon) ∧
      l.Pairwise (fun a b => strLess a.1 b.1 = true)

def DNSResponse.Canon (v : DNSResponse) : Prop :=
  ValidString v.Domain ∧ CanonStrings v.A ∧ CanonStrings v.AAAA ∧ CanonStrings v.MX ∧
    CanonStrings v.NS

def RelatedResponse.Canon (v : RelatedResponse) : Prop :=
  CanonRelated v.IP ∧ CanonRelated v.Redirects ∧ CanonRelated v.ASN ∧ CanonRelated v.Backlinks ∧
    CanonRelated v.MX ∧ CanonRelated v.NS

def WebResponse.Canon (tc : TimeCodec) (v : WebResponse) : Prop :=
  ValidString v.Domain ∧ ValidString v.URL ∧ ValidString v.IP ∧ TimeRoundTrips tc v.Date ∧
    ValidString v.Encoding ∧ ValidString v.Copyright ∧ ValidString v.Title ∧
    ValidString v.Description ∧ CanonStrings v.Links

def DomainsResponse.Canon (v : DomainsResponse) : Prop :=
  ValidString v.IP ∧ ValidString v.NS ∧ ValidString v.MX ∧ ValidString v.ASN ∧
    CanonStrings v.Backlinks ∧ CanonStrings v.Redirects ∧ CanonStrings v.Adsense ∧
    ValidString v.Facebook ∧ ValidString v.Twitter ∧ ValidString v.Instagram ∧
    ValidString v.GTM ∧ ValidString v.GoogleAnalytics ∧ ValidString v.Email ∧
    CanonStrings v.Domains

def FullResponse.Canon (tc : TimeCodec) (v : FullResponse) : Prop :=
  ValidString v.Domain ∧ v.DNS.Canon ∧ CanonIPInfoMap v.IPInfo ∧ v.Web.Canon tc ∧
    v.Related.Canon

/-- The part of the JSON codec of `time.Time` that concerns the zero time, which
is written `0001-01-01T00:00:00Z` and read back as the zero time. -/
def zeroTimeCodec : TimeCodec :=
  { MarshalJSON := fun t =>
      if t = {} then .ok (str "0001-01-01T00:00:00Z")
      else .error (.external 0)
    UnmarshalJSON := fun s =>
      if s = str "0001-01-01T00:00:00Z" then .ok {}
      else .error (.external 0) }

/-- The `DNSResponse` expected by `TestClient_DNS`. -/
def testDNSResponse : DNSResponse :=
  { Domain := str "facebook.com"
    A := some [str "157.240.3.35"]
    AAAA := some [str "2a03:2880:f101:83:face:b00c:0:25de"]
    MX := some [str "10 smtpin.vvv.facebook.com."]
    NS := some [str "a.ns.facebook.com.", str "b.ns.facebook.com."] }

/-- The `DomainsResponse` expected by `TestClient_Domains`. -/
def testDomainsResponse : DomainsResponse :=
  { NS := str "google.com"
    Domains := some [str "google.com.eg", str "google.co.th", str "google.nl",
      str "google.co.ve", str "google.co.za"]
    Page := 5
    Total := 12221 }

/-- The `RelatedResponse` expected by `TestClient_Related`. -/
def testRelatedResponse : RelatedResponse :=
  { IP := some [⟨str "172.217.14.238", 293⟩, ⟨str "216.58.193.68", 71⟩]
    Redirects := some [⟨str "google.com", 629989⟩]
    ASN := some [⟨str "AS15169", 16219992⟩]
    Backlinks := some [⟨str "google.com", 17314912⟩] }

/-- A `WebResponse` with the zero date and the other fields of the one expected
by `TestClient_Web` (the copyright sign is the two bytes `C2 A9`). -/
def testWebResponse : WebResponse :=
  { Domain := str "facebook.com"
    Rank := 2
    URL := str "https://www.facebook.com/"
    IP := str "157.240.11.35"
    Length := 160817
    Encoding := str "utf8"
    Copyright := str "Facebook " ++ [194, 169] ++ str " 2020"
    Title := str "Facebook - Log In or Sign Up"
    Links := some [str "messenger.com", str "oculus.com"] }

/-- A `FullResponse` made of the values above and one entry of IP information. -/
def testFullResponse : FullResponse :=
  { Domain := str "google.com"
    DNS := testDNSResponse
    IPInfo := some [(str "216.58.193.68",
      { City := str "Seattle", Country := str "US",
        ASN := { ASN := str "AS15169", Name := str "Google LLC" } })]
    Web := testWebResponse
    Related := testRelatedResponse }

/-! ## Vocabulary of the statements: the URL requested -/

/-- A scheme of lower-case letters, such as `http` and `https`. -/
def IsScheme (s : Str) : Prop := s ≠ [] ∧ ∀ c ∈ s, 97 ≤ c ∧ c ≤ 122

instance (s : Str) : Decidable (IsScheme s) := by unfold IsScheme; infer_instance

/-- An optional port as it follows a host: nothing, or a colon and a decimal
number of one digit at least. -/
def IsPort (p : Str) : Prop :=
  p = [] ∨ (p.head? = some 58 ∧ p.tail ≠ [] ∧ ∀ c ∈ p.tail, 48 ≤ c ∧ c ≤ 57)

instance (p : Str) : Decidable (IsPort p) := by unfold IsPort; infer_instance

/-- A host with an optional port.  Either `name` or `name:port`, where the name
(what stands before the first colon) is not empty and made of letters, digits,
hyphens and dots, as a domain name or an IPv4 address is; or `[addr]` or
`[addr]:port`, where the address between the brackets is not empty and made of
hexadecimal digits, colons and dots, as an IPv6 address is.  A port, when
there is a colon, is not empty. -/
def IsHostPort (h : Str) : Prop :=
  if h.head? = some 91 then
    h.tail.takeWhile (fun b => b ≠ 93) ≠ [] ∧
      (∀ c ∈ h.tail.takeWhile (fun b => b ≠ 93), ishex c = true ∨ c = 58 ∨ c = 46) ∧
      (h.tail.dropWhile (fun b => b ≠ 93)).head? = some 93 ∧
      IsPort (h.tail.dropWhile (fun b => b ≠ 93)).tail
  else
    h.takeWhile (fun b => b ≠ 58) ≠ [] ∧
      (∀ c ∈ h.takeWhile (fun b => b ≠ 58), isLabelByte c = true ∨ c = 46) ∧
      IsPort (h.dropWhile (fun b => b ≠ 58))

instance (h : Str) : Decidable (IsHostPort h) := by unfold IsHostPort; infer_instance

/-- The base URLs whose requests are followed to the wire: that of a client
made by `NewClient`, or a bare origin `scheme://host` or `scheme://host:port`
(the base URL of the tests, `http://127.0.0.1:port` or `http://[::1]:port`, is
one). -/
def OriginBase (b : URL) : Prop :=
  (∃ token transport, b = (NewClient token transport).baseURL) ∨
    ∃ scheme host, IsScheme scheme ∧ IsHostPort host ∧ b = bareOrigin scheme host

/-- An endpoint of the shape the five operations build: a scheme, a host with
an optional port, an absolute path of plain bytes with the raw path that
`setPath` keeps for it, a query free of control bytes and of `#`, and nothing
else (no opaque part, no user, no fragment). -/
def IsEndpoint (u : URL) : Prop :=
  IsScheme u.Scheme ∧ IsHostPort u.Host ∧ u.Path.head? = some 47 ∧
    (∀ c ∈ u.Path, PlainByte c) ∧
    u.RawPath =
      (if validEncoded u.Path encodePath = true ∧ u.Path ≠ escape u.Path encodePath then u.Path
        else []) ∧
    (∀ c ∈ u.RawQuery, 32 ≤ c ∧ c ≠ 127 ∧ c ≠ 35) ∧
    u.Opaque = [] ∧ u.User = none ∧ u.OmitHost = false ∧ u.ForceQuery = false ∧
    u.Fragment = [] ∧ u.RawFragment = []

instance (u : URL) : Decidable (IsEndpoint u) := by unfold IsEndpoint; infer_instance

/-! ## Lemmas: bytes and strings -/

theorem takeWhile_ne_of_not_mem (s : Str) (sep : Nat) (h : sep ∉ s) :
    s.takeWhile (fun b => b ≠ sep) = s := by
  induction s with
  | nil => rfl
  | cons a s ih =>
    simp only [List.mem_cons, not_or] at h
    have ha : a ≠ sep := fun e => h.1 e.symm
    rw [List.takeWhile_cons_of_pos (p := fun b => decide (b ≠ sep)) (decide_eq_true ha), ih h.2]

theorem dropWhile_ne_of_not_mem (s : Str) (sep : Nat) (h : sep ∉ s) :
    s.dropWhile (fun b => b ≠ sep) = [] := by
  induction s with
  | nil => rfl
  | cons a s ih =>
    simp only [List.mem_cons, not_or] at h
    have ha : a ≠ sep := fun e => h.1 e.symm
    rw [List.dropWhile_cons_of_pos (p := fun b => decide (b ≠ sep)) (decide_eq_true ha), ih h.2]

theorem takeWhile_append_sep (s rest : Str) (sep : Nat) (h : sep ∉ s) :
    (s ++ sep :: rest).takeWhile (fun b => b ≠ sep) = s := by
  induction s with
  | nil =>
    have : ¬ (decide (sep ≠ sep) = true) := by simp
    rw [List.nil_append, List.takeWhile_cons_of_neg (p := fun b => decide (b ≠ sep)) this]
  | cons a s ih =>
    simp only [List.mem_cons, not_or] at h
    have ha : a ≠ sep := fun e => h.1 e.symm
    rw [List.cons_append, List.takeWhile_cons_of_pos (p := fun b => decide (b ≠ sep)) (decide_eq_true ha), ih h.2]

theorem dropWhile_append_sep (s rest : Str) (sep : Nat) (h : sep ∉ s) :
    (s ++ sep :: rest).dropWhile (fun b => b ≠ sep) = sep :: rest := by
  induction s with
  | nil =>
    have : ¬ (decide (sep ≠ sep) = true) := by simp
    rw [List.nil_append, List.dropWhile_cons_of_neg (p := fun b => decide (b ≠ sep)) this]
  | cons a s ih =>
    simp only [List.mem_cons, not_or] at h
    have ha : a ≠ sep := fun e => h.1 e.symm
    rw [List.cons_append, List.dropWhile_cons_of_pos (p := fun b => decide (b ≠ sep)) (decide_eq_true ha), ih h.2]

theorem Cut_of_not_mem (s : Str) (sep : Nat) (h : sep ∉ s) : Cut s sep = (s, [], false) := by
  unfold Cut; rw [if_neg h]

theorem Cut_append_sep (s rest : Str) (sep : Nat) (h : sep ∉ s) :
    Cut (s ++ sep :: rest) sep = (s, rest, true) := by
  unfold Cut
  rw [if_pos (by simp), takeWhile_append_sep s rest sep h, dropWhile_append_sep s rest sep h]
  rfl

/-! ## Lemmas: escaping -/

theorem escape_append (a b : Str) (m : encoding) :
    escape (a ++ b) m = escape a m ++ escape b m := by
  induction a with
  | nil => rfl
  | cons c a ih =>
    simp only [List.cons_append, escape]
    split_ifs <;> simp [ih]

theorem hex_roundtrip : ∀ c, c < 256 →
    ishex (upperhex.getD (c >>> 4) 0) = true ∧ ishex (upperhex.getD (c &&& 15) 0) = true ∧
      ((unhex (upperhex.getD (c >>> 4) 0) <<< 4) ||| unhex (upperhex.getD (c &&& 15) 0)) % 256
        = c := by
  decide!

theorem shouldEscape_percent (m : encoding) : shouldEscape 37 m = true := by
  cases m <;> decide

theorem ne_percent_of_not_shouldEscape (c : Nat) (m : encoding) (h : shouldEscape c m = false) :
    c ≠ 37 := by
  intro e
  rw [e, shouldEscape_percent] at h
  exact Bool.noConfusion h

theorem unescapeCheck_cons_plain (c : Nat) (rest : Str) (h : c ≠ 37) :
    unescapeCheck encodePath (c :: rest) = unescapeCheck encodePath rest := by
  conv => lhs; unfold unescapeCheck
  simp [h]

theorem unescapeDecode_cons_plain (c : Nat) (rest : Str) (h : c ≠ 37) :
    unescapeDecode encodePath (c :: rest) = c :: unescapeDecode encodePath rest := by
  conv => lhs; unfold unescapeDecode
  by_cases h43 : c = 43
  · simp [h43]
  · simp [h, h43]

theorem unescapeCheck_pct (a b : Nat) (rest : Str) (ha : ishex a = true) (hb : ishex b = true) :
    unescapeCheck encodePath (37 :: a :: b :: rest) = unescapeCheck encodePath rest := by
  conv => lhs; unfold unescapeCheck
  simp [ha, hb]

theorem unescapeDecode_pct (a b : Nat) (rest : Str) :
    unescapeDecode encodePath (37 :: a :: b :: rest) =
      (((unhex a <<< 4) ||| unhex b) % 256) :: unescapeDecode encodePath rest := by
  conv => lhs; unfold unescapeDecode
  simp

theorem unescapeCheck_append_noPercent (a t : Str) (h : 37 ∉ a) :
    unescapeCheck encodePath (a ++ t) = unescapeCheck encodePath t := by
  induction a with
  | nil => rfl
  | cons c a ih =>
    simp only [List.mem_cons, not_or] at h
    rw [List.cons_append, unescapeCheck_cons_plain c _ (fun e => h.1 e.symm), ih h.2]

theorem unescapeDecode_append_noPercent (a t : Str) (h : 37 ∉ a) :
    unescapeDecode encodePath (a ++ t) = a ++ unescapeDecode encodePath t := by
  induction a with
  | nil => rfl
  | cons c a ih =>
    simp only [List.mem_cons, not_or] at h
    rw [List.cons_append, unescapeDecode_cons_plain c _ (fun e => h.1 e.symm), ih h.2]
    rfl

theorem unescapeCheck_escape_append (s t : Str) (hs : ∀ c ∈ s, c < 256) :
    unescapeCheck encodePath (escape s encodePath ++ t) = unescapeCheck encodePath t := by
  induction s with
  | nil => rfl
  | cons c s ih =>
    have hc : c < 256 := hs c (List.mem_cons_self _ _)
    have hs' : ∀ x ∈ s, x < 256 := fun x hx => hs x (List.mem_cons_of_mem _ hx)
    rw [escape]
    rw [if_neg (by simp)]
    by_cases he : shouldEscape c encodePath = true
    · rw [if_pos he]
      obtain ⟨h1, h2, _⟩ := hex_roundtrip c hc
      simp only [List.cons_append]
      rw [unescapeCheck_pct _ _ _ h1 h2, ih hs']
    · rw [if_neg he]
      have he' : shouldEscape c encodePath = false := by simpa using he
      rw [List.cons_append,
        unescapeCheck_cons_plain c _ (ne_percent_of_not_shouldEscape c _ he'), ih hs']

theorem unescapeDecode_escape_append (s t : Str) (hs : ∀ c ∈ s, c < 256) :
    unescapeDecode encodePath (escape s encodePath ++ t) = s ++ unescapeDecode encodePath t := by
  induction s with
  | nil => rfl
  | cons c s ih =>
    have hc : c < 256 := hs c (List.mem_cons_self _ _)
    have hs' : ∀ x ∈ s, x < 256 := fun x hx => hs x (List.mem_cons_of_mem _ hx)
    rw [escape]
    rw [if_neg (by simp)]
    by_cases he : shouldEscape c encodePath = true
    · rw [if_pos he]
      obtain ⟨_, _, h3⟩ := hex_roundtrip c hc
      simp only [List.cons_append]
      rw [unescapeDecode_pct, h3, ih hs']
    · rw [if_neg he]
      have he' : shouldEscape c encodePath = false := by simpa using he
      rw [List.cons_append,
        unescapeDecode_cons_plain c _ (ne_percent_of_not_shouldEscape c _ he'), ih hs']
      rfl

theorem unescape_escape (s : Str) (hs : ∀ c ∈ s, c < 256) :
    unescape (escape s encodePath) encodePath = .ok s := by
  have h1 := unescapeCheck_escape_append s [] hs
  have h2 := unescapeDecode_escape_append s [] hs
  rw [List.append_nil] at h1 h2
  unfold unescape
  rw [h1, h2]
  simp [unescapeCheck, unescapeDecode]

theorem unescape_noPercent (s : Str) (h : 37 ∉ s) : unescape s encodePath = .ok s := by
  have h1 := unescapeCheck_append_noPercent s [] h
  have h2 := unescapeDecode_append_noPercent s [] h
  rw [List.append_nil] at h1 h2
  unfold unescape
  rw [h1, h2]
  simp [unescapeCheck, unescapeDecode]

/-! ## Lemmas: `path.Clean` -/

theorem cleanLoop_nil (r : Bool) (f : Nat) (out : Str) (dd : Nat) :
    cleanLoop r f [] out dd = out := by
  cases f <;> rfl

theorem cleanLoop_slash (r : Bool) (f : Nat) (rest out : Str) (dd : Nat) :
    cleanLoop r (f + 1) (47 :: rest) out dd = cleanLoop r f rest out dd := by
  conv => lhs; unfold cleanLoop
  simp

theorem cleanLoop_elem (r : Bool) (f : Nat) (s tail out : Str) (dd : Nat) (hs : NormalSeg s)
    (ht : tail = [] ∨ tail.head? = some 47) :
    cleanLoop r (f + 1) (s ++ tail) out dd =
      cleanLoop r f tail
        ((if (r = true ∧ out.length ≠ 1) ∨ (r = false ∧ out.length ≠ 0) then out ++ [47]
          else out) ++ s) dd := by
  obtain ⟨hne, hslash, hdot, hdotdot⟩ := hs
  have htake : (s ++ tail).takeWhile (fun b => b ≠ 47) = s := by
    rcases ht with ht | ht
    · subst ht; rw [List.append_nil]; exact takeWhile_ne_of_not_mem s 47 hslash
    · cases tail with
      | nil => simp at ht
      | cons a tl =>
        simp only [List.head?_cons, Option.some.injEq] at ht
        subst ht; exact takeWhile_append_sep s tl 47 hslash
  have hdrop : (s ++ tail).dropWhile (fun b => b ≠ 47) = tail := by
    rcases ht with ht | ht
    · subst ht; rw [List.append_nil]; exact dropWhile_ne_of_not_mem s 47 hslash
    · cases tail with
      | nil => simp at ht
      | cons a tl =>
        simp only [List.head?_cons, Option.some.injEq] at ht
        subst ht; exact dropWhile_append_sep s tl 47 hslash
  cases s with
  | nil => exact absurd rfl hne
  | cons c s' =>
    have hc : c ≠ 47 := fun e => hslash (by simp [e])
    have h2 : ¬ (c = 46 ∧ (s' ++ tail = [] ∨ (s' ++ tail).head? = some 47)) := by
      rintro ⟨e, h | h⟩
      · simp only [List.append_eq_nil] at h
        exact hdot (by rw [e, h.1])
      · cases s' with
        | nil => exact hdot (by rw [e])
        | cons d s'' =>
          simp only [List.cons_append, List.head?_cons, Option.some.injEq] at h
          exact hslash (by simp [h])
    have h3 : ¬ (c = 46 ∧ (s' ++ tail).head? = some 46 ∧
        ((s' ++ tail).tail = [] ∨ (s' ++ tail).tail.head? = some 47)) := by
      rintro ⟨e, h46, h⟩
      cases s' with
      | nil =>
        rw [List.nil_append] at h46
        rcases ht with ht | ht
        · rw [ht] at h46; simp at h46
        · rw [ht] at h46; simp at h46
      | cons d s'' =>
        simp only [List.cons_append, List.head?_cons, Option.some.injEq] at h46
        simp only [List.cons_append, List.tail_cons] at h
        rcases h with h | h
        · simp only [List.append_eq_nil] at h
          exact hdotdot (by rw [e, h46, h.1])
        · cases s'' with
          | nil => exact hdotdot (by rw [e, h46])
          | cons x s3 =>
            simp only [List.cons_append, List.head?_cons, Option.some.injEq] at h
            exact hslash (by simp [h])
    rw [List.cons_append] at htake hdrop ⊢
    conv => lhs; unfold cleanLoop
    rw [if_neg hc, if_neg h2, if_neg h3]
    simp only [htake, hdrop]

/-- The `out` of `path.Clean` once a slash has been added where needed. -/
theorem cleanLoop_segs (r : Bool) (segs : List Str) (hne : segs ≠ [])
    (hs : ∀ s ∈ segs, NormalSeg s) (f : Nat) (out : Str) (dd : Nat)
    (hf : (joinSegs segs).length ≤ f) :
    cleanLoop r f (joinSegs segs) out dd =
      (if (r = true ∧ out.length ≠ 1) ∨ (r = false ∧ out.length ≠ 0) then out ++ [47]
        else out) ++ joinSegs segs := by
  induction segs generalizing f out with
  | nil => exact absurd rfl hne
  | cons s rest ih =>
    have hsN : NormalSeg s := hs s (List.mem_cons_self _ _)
    have hslen : 0 < s.length := List.length_pos.mpr hsN.1
    cases rest with
    | nil =>
      simp only [joinSegs] at hf ⊢
      obtain ⟨f', rfl⟩ : ∃ f', f = f' + 1 := ⟨f - 1, by omega⟩
      have := cleanLoop_elem r f' s [] out dd hsN (Or.inl rfl)
      rw [List.append_nil] at this
      rw [this, cleanLoop_nil]
    | cons t rest' =>
      simp only [joinSegs, List.length_append, List.length_cons] at hf ⊢
      obtain ⟨f', rfl⟩ : ∃ f', f = f' + 2 := ⟨f - 2, by omega⟩
      rw [cleanLoop_elem r (f' + 1) s (47 :: joinSegs (t :: rest')) out dd hsN (Or.inr rfl),
        cleanLoop_slash,
        ih (by simp) (fun x hx => hs x (List.mem_cons_of_mem _ hx)) f' _ (by omega)]
      have hcond : (r = true ∧ ((if (r = true ∧ out.length ≠ 1) ∨ (r = false ∧ out.length ≠ 0)
            then out ++ [47] else out) ++ s).length ≠ 1) ∨
          (r = false ∧ ((if (r = true ∧ out.length ≠ 1) ∨ (r = false ∧ out.length ≠ 0)
            then out ++ [47] else out) ++ s).length ≠ 0) := by
        cases r with
        | true =>
          left
          refine ⟨rfl, ?_⟩
          by_cases h1 : out.length = 1
          · have : ¬ ((true = true ∧ out.length ≠ 1) ∨ (true = false ∧ out.length ≠ 0)) := by
              simp [h1]
            rw [if_neg this, List.length_append]
            omega
          · have : (true = true ∧ out.length ≠ 1) ∨ (true = false ∧ out.length ≠ 0) := by
              simp [h1]
            rw [if_pos this, List.length_append, List.length_append]
            simp only [List.length_cons, List.length_nil]
            omega
        | false =>
          right
          refine ⟨rfl, ?_⟩
          simp only [List.length_append]; omega
      rw [if_pos hcond]
      simp

theorem joinSegs_head (s : Str) (rest : List Str) (hs : s ≠ []) :
    (joinSegs (s :: rest)).head? = s.head? := by
  cases s with
  | nil => exact absurd rfl hs
  | cons c s' => cases rest <;> simp [joinSegs]

theorem joinSegs_ne_nil (s : Str) (rest : List Str) (hs : s ≠ []) : joinSegs (s :: rest) ≠ [] := by
  cases s with
  | nil => exact absurd rfl hs
  | cons c s' => cases rest <;> simp [joinSegs]

theorem Clean_abs (segs : List Str) (hne : segs ≠ []) (hs : ∀ s ∈ segs, NormalSeg s) :
    Clean (47 :: joinSegs segs) = 47 :: joinSegs segs := by
  unfold Clean
  simp only [List.cons_ne_nil, if_false, List.head?_cons, decide_True, if_true, List.tail_cons,
    List.length_cons]
  rw [cleanLoop_segs true segs hne hs _ [47] 1 (by omega)]
  simp

theorem Clean_rel (segs : List Str) (hne : segs ≠ []) (hs : ∀ s ∈ segs, NormalSeg s) :
    Clean (joinSegs segs) = joinSegs segs := by
  cases segs with
  | nil => exact absurd rfl hne
  | cons s rest =>
    have hsN : NormalSeg s := hs s (List.mem_cons_self _ _)
    have hnn := joinSegs_ne_nil s rest hsN.1
    have hhead : (joinSegs (s :: rest)).head? ≠ some 47 := by
      rw [joinSegs_head s rest hsN.1]
      intro h
      exact hsN.2.1 (List.mem_of_mem_head? h)
    unfold Clean
    rw [if_neg hnn]
    simp only [hhead, decide_False, Bool.false_eq_true, if_false]
    rw [cleanLoop_segs false (s :: rest) hne hs _ [] 0 (le_refl _)]
    simp [hnn]

/-! ## Lemmas: `url.resolvePath` -/

theorem NormalSeg.resSeg {s : Str} (h : NormalSeg s) : ResSeg s := ⟨h.2.1, h.2.2.1, h.2.2.2⟩

theorem resolveLoop_segs (segs : List Str) (hne : segs ≠ []) (hs : ∀ s ∈ segs, ResSeg s)
    (f : Nat) (hf : segs.length ≤ f) (dst : Str) (first : Bool) :
    resolveLoop f (joinSegs segs) dst first =
      ((if first = false then dst ++ [47] else dst) ++ joinSegs segs, segs.getLast?.getD []) := by
  induction segs generalizing f dst first with
  | nil => exact absurd rfl hne
  | cons s rest ih =>
    obtain ⟨hslash, hdot, hdotdot⟩ := hs s (List.mem_cons_self _ _)
    obtain ⟨f', rfl⟩ : ∃ f', f = f' + 1 := ⟨f - 1, by simp only [List.length_cons] at hf; omega⟩
    cases rest with
    | nil =>
      simp only [joinSegs]
      conv => lhs; unfold resolveLoop
      simp only [Cut_of_not_mem s 47 hslash, if_neg hdot, if_neg hdotdot]
      simp
    | cons t rest' =>
      simp only [joinSegs]
      conv => lhs; unfold resolveLoop
      simp only [Cut_append_sep s _ 47 hslash, if_neg hdot, if_neg hdotdot, if_true]
      rw [ih (by simp) (fun x hx => hs x (List.mem_cons_of_mem _ hx)) f'
        (by simp only [List.length_cons] at hf ⊢; omega)]
      simp

theorem resolvePath_abs (base : Str) (segs : List Str) (hne : segs ≠ [])
    (hs : ∀ s ∈ segs, NormalSeg s) :
    resolvePath base (47 :: joinSegs segs) = 47 :: joinSegs segs := by
  cases segs with
  | nil => exact absurd rfl hne
  | cons t rest =>
    have hfull : (47 :: joinSegs (t :: rest)) = joinSegs ([] :: t :: rest) := by simp [joinSegs]
    have hres : ∀ s ∈ ([] :: t :: rest : List Str), ResSeg s := by
      intro s hsm
      rcases List.mem_cons.mp hsm with h | h
      · subst h; decide
      · exact (hs s h).resSeg
    have hlen : (t :: rest).length ≤ (joinSegs (t :: rest)).length := by
      clear hfull hres hne
      induction rest generalizing t with
      | nil =>
        have := List.length_pos.mpr (hs t (List.mem_cons_self _ _)).1
        simpa [joinSegs] using this
      | cons u rest' ih =>
        have h1 := List.length_pos.mpr (hs t (List.mem_cons_self _ _)).1
        have h2 := ih u (fun x hx => hs x (List.mem_cons_of_mem _ hx))
        simp only [joinSegs, List.length_cons, List.length_append] at h2 ⊢
        omega
    have hlast : (t :: rest).getLast?.getD [] ∈ (t :: rest) := by
      rw [List.getLast?_eq_getLast _ (by simp)]
      exact List.getLast_mem _
    have hl := hs _ hlast
    have hnot : ¬ ((t :: rest).getLast?.getD [] = [46] ∨ (t :: rest).getLast?.getD [] = [46, 46]) := by
      rintro (h | h)
      · exact hl.2.2.1 h
      · exact hl.2.2.2 h
    unfold resolvePath
    simp only [List.cons_ne_nil, if_false, List.head?_cons, ne_eq, not_true_eq_false]
    rw [hfull, resolveLoop_segs _ (by simp) hres _ (by
      rw [← hfull]; simp only [List.length_cons] at hlen ⊢; omega)]
    simp only [List.getLast?_cons_cons, if_true, hnot, if_false]
    simp [joinSegs]

theorem resolvePath_rel (s : Str) (rest : List Str) (hs : ∀ x ∈ s :: rest, NormalSeg x) :
    resolvePath [] (joinSegs (s :: rest)) = 47 :: joinSegs (s :: rest) := by
  have hsN := hs s (List.mem_cons_self _ _)
  have hnn := joinSegs_ne_nil s rest hsN.1
  have hhead : (joinSegs (s :: rest)).head? ≠ some 47 := by
    rw [joinSegs_head s rest hsN.1]
    intro h
    exact hsN.2.1 (List.mem_of_mem_head? h)
  have hlen : (s :: rest).length ≤ (joinSegs (s :: rest)).length := by
    clear hhead hnn hsN
    induction rest generalizing s with
    | nil =>
      have := List.length_pos.mpr (hs s (List.mem_cons_self _ _)).1
      simpa [joinSegs] using this
    | cons u rest' ih =>
      have h1 := List.length_pos.mpr (hs s (List.mem_cons_self _ _)).1
      have h2 := ih u (fun x hx => hs x (List.mem_cons_of_mem _ hx))
      simp only [joinSegs, List.length_cons, List.length_append] at h2 ⊢
      omega
  have hlast : (s :: rest).getLast?.getD [] ∈ (s :: rest) := by
    rw [List.getLast?_eq_getLast _ (by simp)]
    exact List.getLast_mem _
  have hl := hs _ hlast
  unfold resolvePath
  rw [if_neg hnn, if_pos hhead]
  simp only [LastIndexByte, List.nil_append]
  rw [if_neg hnn, resolveLoop_segs _ (by simp) (fun x hx => (hs x hx).resSeg) _ (by omega)]
  have hnot : ¬ ((s :: rest).getLast?.getD [] = [46] ∨ (s :: rest).getLast?.getD [] = [46, 46]) := by
    rintro (h | h)
    · exact hl.2.2.1 h
    · exact hl.2.2.2 h
  have htf : (true = false) = False := by simp
  simp only [if_true, hnot, if_false, htf]
  have h1 : ¬ (([47] ++ joinSegs (s :: rest)).length > 1 ∧
      ([47] ++ joinSegs (s :: rest)).getD 1 0 = 47) := by
    rintro ⟨_, h⟩
    apply hhead
    cases hj : joinSegs (s :: rest) with
    | nil => exact absurd hj hnn
    | cons a l =>
      rw [hj] at h
      simp at h
      simp [h]
  rw [if_neg h1]
  rfl

/-! ## Lemmas: `url.Parse` on a plain path -/

theorem setPath_noPercent (u : URL) (R : Str) (h : 37 ∉ R) :
    u.setPath R =
      .ok { u with Path := R, RawPath := if R = escape R encodePath then [] else R } := by
  unfold URL.setPath
  rw [unescape_noPercent R h]
  by_cases he : R = escape R encodePath
  · simp only [if_pos he]
  · simp only [if_neg he]

theorem getSchemeLoop_noColon (raw k rest : Str) (i : Nat) (h : 58 ∉ k) :
    getSchemeLoop raw i (k ++ 47 :: rest) = .ok ([], raw) := by
  induction k generalizing i with
  | nil =>
    rw [List.nil_append]
    unfold getSchemeLoop
    simp
  | cons c k ih =>
    simp only [List.mem_cons, not_or] at h
    have hc : c ≠ 58 := fun e => h.1 e.symm
    rw [List.cons_append]
    unfold getSchemeLoop
    split_ifs
    · exact ih _ h.2
    · rfl
    · exact ih _ h.2
    · rfl

theorem count_eq_zero_of_not_mem' (a : Nat) (l : Str) (h : a ∉ l) : l.count a = 0 :=
  List.count_eq_zero_of_not_mem h

theorem parse_abs (R' : Str) (hctl : stringContainsCTLByte (47 :: R') = false)
    (h63 : 63 ∉ R') (h37 : 37 ∉ R') (hhead : R'.head? ≠ some 47) :
    parse (47 :: R') false =
      .ok { Path := 47 :: R',
            RawPath := if 47 :: R' = escape (47 :: R') encodePath then [] else 47 :: R' } := by
  have h63' : 63 ∉ (47 :: R') := by simp [h63]
  have h37' : 37 ∉ (47 :: R') := by simp [h37]
  have hpre : [47, 47].isPrefixOf (47 :: R') = false := by
    cases R' with
    | nil => rfl
    | cons a l =>
      have : a ≠ 47 := by simpa using hhead
      simp [List.isPrefixOf, this.symm]
  unfold parse
  rw [if_neg (by simp [hctl]), if_neg (by simp), if_neg (by simp)]
  have hg : getScheme (47 :: R') = .ok ([], 47 :: R') := by
    unfold getScheme getSchemeLoop
    simp
  simp only [hg, Cut_of_not_mem _ 63 h63', count_eq_zero_of_not_mem' 63 _ h63']
  simp only [ToLower, List.map_nil, List.isPrefixOf, beq_self_eq_true, Bool.and_true,
    not_true_eq_false, if_false, zero_ne_one, and_false, decide_False, Bool.false_eq_true]
  unfold parseRest
  simp only [hpre, Bool.false_eq_true, and_false, if_false, ne_eq, not_true_eq_false, false_and]
  rw [setPath_noPercent _ _ h37']

theorem parse_rel (k rest : Str) (hk : k ≠ []) (hk58 : 58 ∉ k) (hk47 : 47 ∉ k)
    (hctl : stringContainsCTLByte (k ++ 47 :: rest) = false)
    (h63 : 63 ∉ k ++ 47 :: rest) (h37 : 37 ∉ k ++ 47 :: rest) :
    parse (k ++ 47 :: rest) false =
      .ok { Path := k ++ 47 :: rest,
            RawPath := if k ++ 47 :: rest = escape (k ++ 47 :: rest) encodePath then []
              else k ++ 47 :: rest } := by
  obtain ⟨c, k', rfl⟩ : ∃ c k', k = c :: k' := by
    cases k with
    | nil => exact absurd rfl hk
    | cons c k' => exact ⟨c, k', rfl⟩
  have hc : c ≠ 47 := fun e => hk47 (by simp [e])
  have hpre1 : [47].isPrefixOf (c :: k' ++ 47 :: rest) = false := by
    simp [List.isPrefixOf, hc.symm]
  have hpre2 : [47, 47].isPrefixOf (c :: k' ++ 47 :: rest) = false := by
    simp [List.isPrefixOf, hc.symm]
  unfold parse
  rw [if_neg (by rw [hctl]; simp), if_neg (by simp), if_neg (by simp)]
  have hg : getScheme (c :: k' ++ 47 :: rest) = .ok ([], c :: k' ++ 47 :: rest) := by
    unfold getScheme
    exact getSchemeLoop_noColon _ _ _ _ hk58
  simp only [hg, Cut_of_not_mem _ 63 h63, count_eq_zero_of_not_mem' 63 _ h63]
  simp only [ToLower, List.map_nil, hpre1, zero_ne_one, and_false, decide_False,
    Bool.false_eq_true, if_false, not_false_eq_true, if_true, ne_eq, not_true_eq_false,
    Cut_append_sep _ _ 47 hk47, hk58]
  unfold parseRest
  simp only [hpre2, Bool.false_eq_true, and_false, if_false, ne_eq, not_true_eq_false, false_and,
    hpre1]
  rw [setPath_noPercent _ _ h37]

theorem Parse_of_parse (R : Str) (u : URL) (h35 : 35 ∉ R) (h : parse R false = .ok u) :
    Parse R = .ok u := by
  unfold Parse
  simp only [Cut_of_not_mem R 35 h35, h, if_true]

/-! ## Lemmas: resolving a plain path against the base URL -/

theorem mem_joinSegs (segs : List Str) (c : Nat) (h : c ∈ joinSegs segs) :
    c = 47 ∨ ∃ s ∈ segs, c ∈ s := by
  induction segs with
  | nil => simp [joinSegs] at h
  | cons s rest ih =>
    cases rest with
    | nil => exact Or.inr ⟨s, List.mem_cons_self _ _, by simpa [joinSegs] using h⟩
    | cons t rest' =>
      simp only [joinSegs, List.mem_append, List.mem_cons] at h
      rcases h with h | h | h
      · exact Or.inr ⟨s, List.mem_cons_self _ _, h⟩
      · exact Or.inl h
      · rcases ih h with h' | ⟨x, hx, hc⟩
        · exact Or.inl h'
        · exact Or.inr ⟨x, List.mem_cons_of_mem _ hx, hc⟩

theorem escape_slash_cons (R : Str) : escape (47 :: R) encodePath = 47 :: escape R encodePath := by
  conv => lhs; unfold escape
  simp [shouldEscape]

theorem escape_joinSegs (segs : List Str) :
    escape (joinSegs segs) encodePath = joinSegs (segs.map (fun s => escape s encodePath)) := by
  induction segs with
  | nil => rfl
  | cons s rest ih =>
    cases rest with
    | nil => simp [joinSegs]
    | cons t rest' =>
      simp only [joinSegs, List.map_cons, escape_append, escape_slash_cons]
      rw [ih]
      simp [joinSegs]

theorem not_mem_escape_slash (s : Str) (h : 47 ∉ s) : 47 ∉ escape s encodePath := by
  induction s with
  | nil => simp [escape]
  | cons c s ih =>
    simp only [List.mem_cons, not_or] at h
    have hc : c ≠ 47 := fun e => h.1 e.symm
    have hhex : ∀ n, upperhex.getD n 0 ≠ 47 := by
      intro n
      by_cases hn : n < 16
      · revert n; decide
      · have : upperhex.length ≤ n := by simp [upperhex]; omega
        rw [List.getD_eq_default _ _ this]; decide
    rw [escape, if_neg (by simp)]
    by_cases he : shouldEscape c encodePath = true
    · rw [if_pos he]
      simp only [List.mem_cons, not_or]
      exact ⟨by decide, (hhex _).symm, (hhex _).symm, ih h.2⟩
    · rw [if_neg he]
      simp only [List.mem_cons, not_or]
      exact ⟨hc.symm, ih h.2⟩

theorem NormalSeg.escape {s : Str} (h : NormalSeg s) (hb : ∀ c ∈ s, c < 256) :
    NormalSeg (Hostio.escape s encodePath) := by
  have hdec := unescapeDecode_escape_append s [] hb
  rw [List.append_nil] at hdec
  refine ⟨?_, not_mem_escape_slash s h.2.1, ?_, ?_⟩
  · intro e
    rw [e] at hdec
    exact h.1 (by simpa [unescapeDecode] using hdec.symm)
  · intro e
    rw [e] at hdec
    exact h.2.2.1 (by simpa [unescapeDecode] using hdec.symm)
  · intro e
    rw [e] at hdec
    exact h.2.2.2 (by simpa [unescapeDecode] using hdec.symm)

theorem encodedPath_slash_cons (R : Str) : encodedPath (47 :: R) = 47 :: encodedPath R := by
  unfold encodedPath
  rw [escape_slash_cons]
  have : validEncoded (47 :: R) encodePath = validEncoded R encodePath := by
    simp [validEncoded, shouldEscape]
  rw [this]
  split_ifs <;> rfl

/-- The escaped form of a path made of normal segments is again made of
normal segments. -/
theorem encodedPath_joinSegs (segs : List Str) (hs : ∀ s ∈ segs, NormalSeg s)
    (hb : ∀ s ∈ segs, ∀ c ∈ s, c < 256) :
    ∃ segs', segs'.length = segs.length ∧ (∀ s ∈ segs', NormalSeg s) ∧
      encodedPath (joinSegs segs) = joinSegs segs' := by
  unfold encodedPath
  split_ifs
  · exact ⟨segs, rfl, hs, rfl⟩
  · refine ⟨segs.map (fun s => escape s encodePath), by simp, ?_, escape_joinSegs segs⟩
    intro s hsm
    obtain ⟨x, hx, rfl⟩ := List.mem_map.mp hsm
    exact (hs x hx).escape (hb x hx)

theorem EscapedPath_eq (u : URL) (R : Str) (hP : u.Path = R)
    (hraw : u.RawPath = [] ∨ u.RawPath = R)
    (h0 : u.RawPath = [] → validEncoded R encodePath = true → escape R encodePath = R)
    (h37 : 37 ∉ R) (h42 : R ≠ [42]) : u.EscapedPath = encodedPath R := by
  unfold URL.EscapedPath encodedPath
  rcases hraw with hraw | hraw
  · rw [hraw, hP, if_neg (by simp), if_neg h42]
    by_cases hv : validEncoded R encodePath = true
    · rw [if_pos hv, h0 hraw hv]
    · rw [if_neg hv]
  · rw [hraw, hP]
    have hu : unescapesTo R encodePath R = true := by
      unfold unescapesTo
      rw [unescape_noPercent R h37]
      simp
    by_cases hv : validEncoded R encodePath = true
    · by_cases hR : R = []
      · subst hR; simp [escape]
      · rw [if_pos ⟨hR, hv, hu⟩, if_pos hv]
    · rw [if_neg (fun h => hv h.2.1), if_neg h42, if_neg hv]

theorem setPath_encodedPath (u : URL) (R : Str) (h37 : 37 ∉ R) (hb : ∀ c ∈ R, c < 256) :
    u.setPath (encodedPath R) =
      .ok { u with
            Path := R,
            RawPath := if validEncoded R encodePath = true ∧ R ≠ escape R encodePath then R
              else [] } := by
  unfold encodedPath
  by_cases hv : validEncoded R encodePath = true
  · rw [if_pos hv, setPath_noPercent u R h37]
    by_cases he : R = escape R encodePath
    · rw [if_pos he, if_neg (fun h => h.2 he)]
    · rw [if_neg he, if_pos ⟨hv, he⟩]
  · rw [if_neg hv, if_neg (fun h => hv h.1)]
    unfold URL.setPath
    rw [unescape_escape R hb]
    simp

/-! ## The endpoint of a path made of plain, normal segments -/

theorem plain_facts (segs : List Str) (hp : ∀ s ∈ segs, ∀ c ∈ s, PlainByte c) :
    ∀ c ∈ joinSegs segs, 32 ≤ c ∧ c ≠ 127 ∧ c < 256 ∧ c ≠ 35 ∧ c ≠ 37 ∧ c ≠ 63 := by
  intro c hc
  rcases mem_joinSegs segs c hc with h | ⟨s, hs, hcs⟩
  · subst h; decide
  · exact hp s hs c hcs

theorem ctl_false_of_forall (R : Str) (h : ∀ c ∈ R, 32 ≤ c ∧ c ≠ 127) :
    stringContainsCTLByte R = false := by
  unfold stringContainsCTLByte
  rw [List.any_eq_false]
  intro c hc
  have := h c hc
  simp only [decide_eq_true_eq, not_or, not_lt]
  exact this

theorem ResolveReference_path (b : URL) (R rp : Str) (hR : R ≠ []) :
    b.ResolveReference { Path := R, RawPath := rp } =
      URL.setPathIgnoringError
        { Scheme := b.Scheme, Host := b.Host, User := b.User, Path := R, RawPath := rp }
        (resolvePath b.EscapedPath (URL.EscapedPath { Path := R, RawPath := rp })) := by
  unfold URL.ResolveReference
  simp [hR]

theorem Parse_ref_abs (b : URL) (segs : List Str) (hne : segs ≠ [])
    (hs : ∀ s ∈ segs, NormalSeg s) (hp : ∀ s ∈ segs, ∀ c ∈ s, PlainByte c) :
    b.Parse (47 :: joinSegs segs) =
      .ok { Scheme := b.Scheme, Host := b.Host, User := b.User, Path := 47 :: joinSegs segs,
            RawPath :=
              if validEncoded (47 :: joinSegs segs) encodePath = true ∧
                  47 :: joinSegs segs ≠ escape (47 :: joinSegs segs) encodePath
              then 47 :: joinSegs segs else [] } := by
  have hf := plain_facts segs hp
  have hfR : ∀ c ∈ 47 :: joinSegs segs, 32 ≤ c ∧ c ≠ 127 ∧ c < 256 ∧ c ≠ 35 ∧ c ≠ 37 ∧ c ≠ 63 := by
    intro c hc
    rcases List.mem_cons.mp hc with h | h
    · subst h; decide
    · exact hf c h
  have hctl := ctl_false_of_forall _ (fun c hc => ⟨(hfR c hc).1, (hfR c hc).2.1⟩)
  have h35 : 35 ∉ 47 :: joinSegs segs := fun h => (hfR 35 h).2.2.2.1 rfl
  have h37 : 37 ∉ 47 :: joinSegs segs := fun h => (hfR 37 h).2.2.2.2.1 rfl
  have h63 : 63 ∉ joinSegs segs := fun h => (hf 63 h).2.2.2.2.2 rfl
  have h37' : 37 ∉ joinSegs segs := fun h => (hf 37 h).2.2.2.2.1 rfl
  obtain ⟨s, rest, rfl⟩ : ∃ s rest, segs = s :: rest := by
    cases segs with
    | nil => exact absurd rfl hne
    | cons s rest => exact ⟨s, rest, rfl⟩
  have hsN := hs s (List.mem_cons_self _ _)
  have hhead : (joinSegs (s :: rest)).head? ≠ some 47 := by
    rw [joinSegs_head s rest hsN.1]
    intro h
    exact hsN.2.1 (List.mem_of_mem_head? h)
  have hparse := Parse_of_parse _ _ h35 (parse_abs _ hctl h63 h37' hhead)
  obtain ⟨segs', _, hs', hE⟩ := encodedPath_joinSegs (s :: rest) hs
    (fun x hx c hc => (hp x hx c hc).2.2.1)
  have hne' : segs' ≠ [] := by
    intro e; subst e; simp at *
  have hEP : URL.EscapedPath
      { Path := 47 :: joinSegs (s :: rest),
        RawPath := if 47 :: joinSegs (s :: rest) = escape (47 :: joinSegs (s :: rest)) encodePath
          then [] else 47 :: joinSegs (s :: rest) } = encodedPath (47 :: joinSegs (s :: rest)) := by
    apply EscapedPath_eq _ _ rfl
    · simp only; split_ifs
      · exact Or.inl rfl
      · exact Or.inr rfl
    · simp only
      intro h _
      by_contra hc
      rw [if_neg (fun e => hc e.symm)] at h
      exact List.cons_ne_nil _ _ h
    · exact h37
    · intro e
      have := congrArg List.head? e
      simp at this
  unfold URL.Parse
  rw [hparse]
  simp only
  rw [ResolveReference_path b _ _ (List.cons_ne_nil _ _), hEP, encodedPath_slash_cons, hE,
    resolvePath_abs _ segs' hne' hs', ← hE, ← encodedPath_slash_cons]
  unfold URL.setPathIgnoringError
  rw [setPath_encodedPath _ _ h37 (fun c hc => (hfR c hc).2.2.1)]

theorem Parse_ref_rel (b : URL) (hbP : b.Path = []) (hbR : b.RawPath = [])
    (k t : Str) (rest : List Str) (hk58 : 58 ∉ k)
    (hs : ∀ s ∈ k :: t :: rest, NormalSeg s) (hp : ∀ s ∈ k :: t :: rest, ∀ c ∈ s, PlainByte c) :
    b.Parse (joinSegs (k :: t :: rest)) =
      .ok { Scheme := b.Scheme, Host := b.Host, User := b.User,
            Path := 47 :: joinSegs (k :: t :: rest),
            RawPath :=
              if validEncoded (47 :: joinSegs (k :: t :: rest)) encodePath = true ∧
                  47 :: joinSegs (k :: t :: rest) ≠
                    escape (47 :: joinSegs (k :: t :: rest)) encodePath
              then 47 :: joinSegs (k :: t :: rest) else [] } := by
  have hf := plain_facts _ hp
  have hfR : ∀ c ∈ 47 :: joinSegs (k :: t :: rest),
      32 ≤ c ∧ c ≠ 127 ∧ c < 256 ∧ c ≠ 35 ∧ c ≠ 37 ∧ c ≠ 63 := by
    intro c hc
    rcases List.mem_cons.mp hc with h | h
    · subst h; decide
    · exact hf c h
  have hctl := ctl_false_of_forall _ (fun c hc => ⟨(hf c hc).1, (hf c hc).2.1⟩)
  have h35 : 35 ∉ joinSegs (k :: t :: rest) := fun h => (hf 35 h).2.2.2.1 rfl
  have h37 : 37 ∉ joinSegs (k :: t :: rest) := fun h => (hf 37 h).2.2.2.2.1 rfl
  have h63 : 63 ∉ joinSegs (k :: t :: rest) := fun h => (hf 63 h).2.2.2.2.2 rfl
  have h37R : 37 ∉ 47 :: joinSegs (k :: t :: rest) := fun h => (hfR 37 h).2.2.2.2.1 rfl
  have hkN := hs k (List.mem_cons_self _ _)
  have hjoin : joinSegs (k :: t :: rest) = k ++ 47 :: joinSegs (t :: rest) := rfl
  have hnn : joinSegs (k :: t :: rest) ≠ [] := joinSegs_ne_nil _ _ hkN.1
  have hparse : Parse (joinSegs (k :: t :: rest)) =
      .ok { Path := joinSegs (k :: t :: rest),
            RawPath := if joinSegs (k :: t :: rest) =
                escape (joinSegs (k :: t :: rest)) encodePath then []
              else joinSegs (k :: t :: rest) } :=
    Parse_of_parse _ _ h35 (parse_rel k (joinSegs (t :: rest)) hkN.1 hk58 hkN.2.1 hctl h63 h37)
  obtain ⟨segs', hlen, hs', hE⟩ := encodedPath_joinSegs (k :: t :: rest) hs
    (fun x hx c hc => (hp x hx c hc).2.2.1)
  obtain ⟨s', rest', rfl⟩ : ∃ s' rest', segs' = s' :: rest' := by
    cases segs' with
    | nil => simp at hlen
    | cons s' rest' => exact ⟨s', rest', rfl⟩
  have hbE : b.EscapedPath = [] := by
    unfold URL.EscapedPath
    rw [hbR, hbP]
    simp [escape]
  have hEP : URL.EscapedPath
      { Path := joinSegs (k :: t :: rest),
        RawPath := if joinSegs (k :: t :: rest) = escape (joinSegs (k :: t :: rest)) encodePath
          then [] else joinSegs (k :: t :: rest) } = encodedPath (joinSegs (k :: t :: rest)) := by
    apply EscapedPath_eq _ _ rfl
    · simp only; split_ifs
      · exact Or.inl rfl
      · exact Or.inr rfl
    · simp only
      intro h _
      by_contra hc
      rw [if_neg (fun e => hc e.symm)] at h
      exact hnn h
    · exact h37
    · intro e
      rw [hjoin] at e
      have := congrArg List.length e
      have hk1 := List.length_pos.mpr hkN.1
      simp only [List.length_append, List.length_cons, List.length_nil] at this
      omega
  unfold URL.Parse
  rw [hparse]
  simp only
  rw [ResolveReference_path b _ _ hnn, hEP, hE, hbE, resolvePath_rel s' rest' hs', ← hE,
    ← encodedPath_slash_cons]
  unfold URL.setPathIgnoringError
  rw [setPath_encodedPath _ _ h37R (fun c hc => (hfR c hc).2.2.1)]

/-! ## Lemmas: the base URL -/

theorem Parse_defaultBaseURL : Parse defaultBaseURL = .ok defaultBase := by decide!

theorem NewClient_baseURL (token : Str) (transport : Request → Except Error Response) :
    (NewClient token transport).baseURL = defaultBase := by
  unfold NewClient
  simp only [Parse_defaultBaseURL]

theorem StdBase.cases {b : URL} (hb : StdBase b) :
    b = defaultBase ∨ ∃ scheme host, host ≠ [] ∧ b = bareOrigin scheme host := by
  rcases hb with ⟨token, transport, hb⟩ | hb
  · exact Or.inl (hb.trans (NewClient_baseURL token transport))
  · exact Or.inr hb

/-! ## Lemmas: `path.Join` -/

theorem foldl_join_aux (rest : List Str) (buf : Str) (hbuf : buf ≠ [])
    (h : ∀ x ∈ rest, x ≠ []) :
    rest.foldl
      (fun buf e =>
        if buf.length > 0 ∨ e ≠ [] then (if buf.length > 0 then buf ++ [47] else buf) ++ e
        else buf) buf = joinSegs (buf :: rest) := by
  induction rest generalizing buf with
  | nil => rfl
  | cons x rest ih =>
    have hlen : buf.length > 0 := List.length_pos.mpr hbuf
    rw [List.foldl_cons]
    simp only [hlen, true_or, if_true]
    rw [ih (buf ++ [47] ++ x) (by simp [hbuf]) (fun y hy => h y (List.mem_cons_of_mem _ hy))]
    cases rest <;> simp [joinSegs]

theorem Join_segs (e : Str) (rest : List Str) (h : ∀ x ∈ e :: rest, x ≠ []) :
    Join (e :: rest) = Clean (joinSegs (e :: rest)) := by
  have he : e ≠ [] := h e (List.mem_cons_self _ _)
  have hlen : e.length > 0 := List.length_pos.mpr he
  unfold Join
  rw [if_neg (by simp only [List.map_cons, List.sum_cons]; omega), List.foldl_cons]
  simp only [List.length_nil, gt_iff_lt, lt_self_iff_false, false_or, he, ne_eq,
    not_false_eq_true, if_true, if_false, List.nil_append]
  have := foldl_join_aux rest e he (fun x hx => h x (List.mem_cons_of_mem _ hx))
  simp only [gt_iff_lt, ne_eq] at this
  rw [this]

theorem Join_nil_cons (e : Str) (rest : List Str) (he : e ≠ []) :
    Join ([] :: e :: rest) = Join (e :: rest) := by
  have hlen : e.length > 0 := List.length_pos.mpr he
  unfold Join
  rw [if_neg (by simp only [List.map_cons, List.sum_cons]; omega),
    if_neg (by simp only [List.map_cons, List.sum_cons]; omega)]
  simp

/-- The endpoint for a standard base URL and segments that are normal and
plain: the path is the base path followed by the segments, nothing else is
set. -/
theorem endpoint_std (b : URL) (hb : StdBase b) (k t : Str) (rest : List Str)
    (hk58 : 58 ∉ k) (hs : ∀ s ∈ k :: t :: rest, NormalSeg s)
    (hp : ∀ s ∈ k :: t :: rest, ∀ c ∈ s, PlainByte c) :
    b.Parse (Join (b.Path :: k :: t :: rest)) =
      .ok { Scheme := b.Scheme, Host := b.Host,
            Path := b.Path ++ 47 :: joinSegs (k :: t :: rest),
            RawPath :=
              if validEncoded (b.Path ++ 47 :: joinSegs (k :: t :: rest)) encodePath = true ∧
                  b.Path ++ 47 :: joinSegs (k :: t :: rest) ≠
                    escape (b.Path ++ 47 :: joinSegs (k :: t :: rest)) encodePath
              then b.Path ++ 47 :: joinSegs (k :: t :: rest) else [] } := by
  have hkN := hs k (List.mem_cons_self _ _)
  rcases hb.cases with hb | ⟨scheme, host, _, hb⟩
  · subst hb
    have hpath : defaultBase.Path = 47 :: [97, 112, 105] := by decide
    have hs' : ∀ s ∈ [97, 112, 105] :: k :: t :: rest, NormalSeg s := by
      intro s hsm
      rcases List.mem_cons.mp hsm with h | h
      · subst h; decide
      · exact hs s h
    have hp' : ∀ s ∈ [97, 112, 105] :: k :: t :: rest, ∀ c ∈ s, PlainByte c := by
      intro s hsm
      rcases List.mem_cons.mp hsm with h | h
      · subst h; decide
      · exact hp s h
    have hjoin : joinSegs ((47 :: [97, 112, 105]) :: k :: t :: rest) =
        47 :: joinSegs ([97, 112, 105] :: k :: t :: rest) := rfl
    have hR : (47 :: [97, 112, 105]) ++ 47 :: joinSegs (k :: t :: rest) =
        47 :: joinSegs ([97, 112, 105] :: k :: t :: rest) := rfl
    rw [hpath, Join_segs _ _ (by
      intro x hx
      rcases List.mem_cons.mp hx with h | h
      · subst h; simp
      · exact (hs x h).1), hjoin, Clean_abs _ (by simp) hs', hR,
      Parse_ref_abs _ _ (by simp) hs' hp']
    rfl
  · subst hb
    have hpath : (bareOrigin scheme host).Path = [] := rfl
    rw [hpath, Join_nil_cons _ _ hkN.1, Join_segs _ _ (fun x hx => (hs x hx).1),
      Clean_rel _ (by simp) hs, Parse_ref_rel _ rfl rfl k t rest hk58 hs hp]
    rfl

/-! ## Lemmas: domains -/

theorem labels_ne_nil (D : Str) : labels D ≠ [] := by
  cases D with
  | nil => simp [labels]
  | cons c s =>
    unfold labels
    split_ifs
    · simp
    · split <;> simp

theorem mem_labels (D : Str) (c : Nat) (h : c ∈ D) : c = 46 ∨ ∃ l ∈ labels D, c ∈ l := by
  induction D with
  | nil => simp at h
  | cons x s ih =>
    unfold labels
    by_cases hx : x = 46
    · rw [if_pos hx]
      rcases List.mem_cons.mp h with h | h
      · exact Or.inl (h.trans hx)
      · rcases ih h with h' | ⟨l, hl, hc⟩
        · exact Or.inl h'
        · exact Or.inr ⟨l, List.mem_cons_of_mem _ hl, hc⟩
    · rw [if_neg hx]
      cases hls : labels s with
      | nil => exact absurd hls (labels_ne_nil s)
      | cons l ls =>
        simp only
        rcases List.mem_cons.mp h with h | h
        · exact Or.inr ⟨x :: l, List.mem_cons_self _ _, by simp [h]⟩
        · rcases ih h with h' | ⟨l', hl', hc⟩
          · exact Or.inl h'
          · rw [hls] at hl'
            rcases List.mem_cons.mp hl' with e | e
            · subst e
              exact Or.inr ⟨x :: l', List.mem_cons_self _ _, List.mem_cons_of_mem _ hc⟩
            · exact Or.inr ⟨l', List.mem_cons_of_mem _ e, hc⟩

theorem IsDomain.mem {D : Str} (h : IsDomain D) (c : Nat) (hc : c ∈ D) :
    isLabelByte c = true ∨ c = 46 := by
  rcases mem_labels D c hc with h' | ⟨l, hl, hcl⟩
  · exact Or.inr h'
  · exact Or.inl ((h l hl).2 c hcl)

theorem IsDomain.ne_nil {D : Str} (h : IsDomain D) : D ≠ [] := by
  intro e
  subst e
  exact (h [] (by simp [labels])).1 rfl

theorem IsDomain.head {D : Str} (h : IsDomain D) : D.head? ≠ some 46 := by
  intro e
  cases D with
  | nil => simp at e
  | cons c s =>
    simp only [List.head?_cons, Option.some.injEq] at e
    subst e
    exact (h [] (by simp [labels])).1 rfl

theorem IsDomain.byte {D : Str} (h : IsDomain D) (c : Nat) (hc : c ∈ D) :
    (97 ≤ c ∧ c ≤ 122) ∨ (65 ≤ c ∧ c ≤ 90) ∨ (48 ≤ c ∧ c ≤ 57) ∨ c = 45 ∨ c = 46 := by
  rcases h.mem c hc with h' | h'
  · simp only [isLabelByte, decide_eq_true_eq] at h'
    omega
  · omega

theorem IsDomain.normalSeg {D : Str} (h : IsDomain D) : NormalSeg D := by
  refine ⟨h.ne_nil, ?_, ?_, ?_⟩
  · intro h47
    have := h.byte 47 h47
    omega
  · intro e
    exact h.head (by rw [e]; rfl)
  · intro e
    exact h.head (by rw [e]; rfl)

theorem IsDomain.plain {D : Str} (h : IsDomain D) : ∀ c ∈ D, PlainByte c := by
  intro c hc
  have := h.byte c hc
  unfold PlainByte
  omega

theorem IsDomain.no_colon {D : Str} (h : IsDomain D) : 58 ∉ D := by
  intro h58
  have := h.byte 58 h58
  omega

theorem IsDomain.safeSegment {D : Str} (h : IsDomain D) : SafeSegment D := ⟨h.normalSeg, h.plain⟩

/-- Bytes that `escape` leaves alone in a path: letters, digits, `-`, `.`,
`/`. -/
theorem escape_id (R : Str)
    (h : ∀ c ∈ R, (97 ≤ c ∧ c ≤ 122) ∨ (65 ≤ c ∧ c ≤ 90) ∨ (48 ≤ c ∧ c ≤ 57) ∨ c = 45 ∨ c = 46 ∨
      c = 47) : escape R encodePath = R := by
  induction R with
  | nil => rfl
  | cons c R ih =>
    have hc := h c (List.mem_cons_self _ _)
    have hse : shouldEscape c encodePath = false := by
      unfold shouldEscape
      by_cases h1 : (97 ≤ c ∧ c ≤ 122) ∨ (65 ≤ c ∧ c ≤ 90) ∨ (48 ≤ c ∧ c ≤ 57)
      · rw [if_pos h1]
      · have h2 : c = 45 ∨ c = 46 ∨ c = 47 := by omega
        rcases h2 with h2 | h2 | h2 <;> subst h2 <;> decide
    rw [escape, if_neg (by simp), hse, ih (fun x hx => h x (List.mem_cons_of_mem _ hx))]
    simp

theorem joinSegs_domain_bytes (segs : List Str) (hs : ∀ s ∈ segs, IsDomain s) :
    ∀ c ∈ joinSegs segs, (97 ≤ c ∧ c ≤ 122) ∨ (65 ≤ c ∧ c ≤ 90) ∨ (48 ≤ c ∧ c ≤ 57) ∨ c = 45 ∨
      c = 46 ∨ c = 47 := by
  intro c hc
  rcases mem_joinSegs segs c hc with h | ⟨s, hsm, hcs⟩
  · omega
  · have := (hs s hsm).byte c hcs
    omega

theorem StdBase.path_bytes {b : URL} (hb : StdBase b) :
    ∀ c ∈ b.Path, (97 ≤ c ∧ c ≤ 122) ∨ (65 ≤ c ∧ c ≤ 90) ∨ (48 ≤ c ∧ c ≤ 57) ∨ c = 45 ∨
      c = 46 ∨ c = 47 := by
  rcases hb.cases with hb | ⟨scheme, host, _, hb⟩
  · subst hb; decide
  · subst hb; intro c hc; simp [bareOrigin] at hc

/-- The endpoint for a standard base URL and segments that are domains (the
resource kinds and the `Field` constants are): base path, then the segments;
no raw path, no query, no fragment. -/
theorem endpoint_domain (b : URL) (hb : StdBase b) (k t : Str) (rest : List Str)
    (hs : ∀ s ∈ k :: t :: rest, IsDomain s) :
    b.Parse (Join (b.Path :: k :: t :: rest)) =
      .ok { Scheme := b.Scheme, Host := b.Host,
            Path := b.Path ++ 47 :: joinSegs (k :: t :: rest) } := by
  have hesc : escape (b.Path ++ 47 :: joinSegs (k :: t :: rest)) encodePath =
      b.Path ++ 47 :: joinSegs (k :: t :: rest) := by
    apply escape_id
    intro c hc
    rcases List.mem_append.mp hc with h | h
    · exact hb.path_bytes c h
    · rcases List.mem_cons.mp h with h | h
      · omega
      · exact joinSegs_domain_bytes _ hs c h
  rw [endpoint_std b hb k t rest (hs k (List.mem_cons_self _ _)).no_colon
    (fun s hsm => (hs s hsm).normalSeg) (fun s hsm => (hs s hsm).plain),
    if_neg (fun h => h.2 hesc.symm)]

/-- The string form of an endpoint under a standard base URL. -/
theorem String_std (b : URL) (hb : StdBase b) (T : Str)
    (hesc : escape (b.Path ++ 47 :: T) encodePath = b.Path ++ 47 :: T) :
    URL.String { Scheme := b.Scheme, Host := b.Host, Path := b.Path ++ 47 :: T } =
      b.String ++ 47 :: T := by
  rcases hb.cases with hb | ⟨scheme, host, hh, hb⟩
  · subst hb
    have hbs : defaultBase.String = str "https://host.io/api" := by decide
    have hP : defaultBase.Path = [47, 97, 112, 105] := by decide
    rw [hP] at hesc
    have hEP : URL.EscapedPath
        { Scheme := defaultBase.Scheme, Host := defaultBase.Host,
          Path := defaultBase.Path ++ 47 :: T } = [47, 97, 112, 105] ++ 47 :: T := by
      unfold URL.EscapedPath
      simp only [hP]
      rw [hesc]
      simp
    have hH : escape [104, 111, 115, 116, 46, 105, 111] encodeHost =
        [104, 111, 115, 116, 46, 105, 111] := by decide
    rw [hbs]
    unfold URL.String
    simp only [hEP]
    simp [defaultBase, str, hH]
  · subst hb
    have hP : (bareOrigin scheme host).Path = [] := rfl
    rw [hP, List.nil_append] at hesc
    have hEP : URL.EscapedPath { Scheme := scheme, Host := host, Path := 47 :: T } = 47 :: T := by
      unfold URL.EscapedPath
      simp only
      rw [hesc]
      simp
    have hEB : URL.EscapedPath (bareOrigin scheme host) = [] := by
      unfold URL.EscapedPath
      simp [bareOrigin, escape]
    unfold URL.String
    simp only [hEB]
    simp only [bareOrigin, List.nil_append, hEP]
    by_cases hsch : scheme = [] <;> simp [hsch, hh]

/-! ## The endpoints of the five operations -/

theorem endpoint_result (b : URL) (hb : StdBase b) (k t : Str) (rest : List Str)
    (hs : ∀ s ∈ k :: t :: rest, IsDomain s) :
    ∃ u, b.Parse (Join (b.Path :: k :: t :: rest)) = .ok u ∧
      u.String = b.String ++ 47 :: joinSegs (k :: t :: rest) ∧
      u.RawQuery = [] ∧ u.ForceQuery = false ∧ u.Fragment = [] := by
  refine ⟨_, endpoint_domain b hb k t rest hs, ?_, rfl, rfl, rfl⟩
  apply String_std b hb
  apply escape_id
  intro c hc
  rcases List.mem_append.mp hc with h | h
  · exact hb.path_bytes c h
  · rcases List.mem_cons.mp h with h | h
    · omega
    · exact joinSegs_domain_bytes _ hs c h

theorem fieldConstants_domain : ∀ F ∈ fieldConstants, IsDomain F := by decide!

theorem kinds_domain :
    IsDomain (str "web") ∧ IsDomain (str "dns") ∧ IsDomain (str "related") ∧
      IsDomain (str "full") ∧ IsDomain (str "domains") := by decide!

/-! ## Dot segments in a domain -/

theorem cleanLoop_dotdot_back (r : Bool) (f : Nat) (rest out : Str) (dd : Nat)
    (h : out.length > dd) :
    cleanLoop r (f + 1) (46 :: 46 :: 47 :: rest) out dd =
      cleanLoop r f (47 :: rest) (out.take (backtrack out dd (out.length - 1))) dd := by
  conv => lhs; unfold cleanLoop
  simp [h]

theorem cleanLoop_elem_slash (r : Bool) (f : Nat) (s rest out : Str) (dd : Nat)
    (hs : NormalSeg s) :
    cleanLoop r (f + 1) (s ++ 47 :: rest) out dd =
      cleanLoop r f (47 :: rest)
        ((if (r = true ∧ out.length ≠ 1) ∨ (r = false ∧ out.length ≠ 0) then out ++ [47]
          else out) ++ s) dd :=
  cleanLoop_elem r f s (47 :: rest) out dd hs (Or.inr rfl)

theorem Clean_default_dotdot (segs : List Str) (hne : segs ≠ [])
    (hs : ∀ s ∈ segs, NormalSeg s) :
    Clean (47 :: ([97, 112, 105] ++ 47 :: ([119, 101, 98] ++ 47 :: 46 :: 46 :: 47 ::
      joinSegs segs))) = 47 :: 97 :: 112 :: 105 :: 47 :: joinSegs segs := by
  have hlen : (47 :: ([97, 112, 105] ++ 47 :: ([119, 101, 98] ++ 47 :: 46 :: 46 :: 47 ::
      joinSegs segs))).length = (joinSegs segs).length + 6 + 6 := by
    simp only [List.length_cons, List.length_append, List.length_nil]; omega
  unfold Clean
  simp only [List.cons_ne_nil, if_false, List.head?_cons, decide_True, if_true, List.tail_cons]
  rw [hlen,
    cleanLoop_elem_slash true _ [97, 112, 105] _ [47] 1 (by decide),
    cleanLoop_slash,
    cleanLoop_elem_slash true _ [119, 101, 98] _ _ 1 (by decide),
    cleanLoop_slash,
    cleanLoop_dotdot_back true _ _ _ 1 (by simp),
    cleanLoop_slash,
    cleanLoop_segs true segs hne hs _ _ 1 (by omega)]
  simp [backtrack]

theorem Clean_bare_dotdot (segs : List Str) (hne : segs ≠ [])
    (hs : ∀ s ∈ segs, NormalSeg s) :
    Clean ([119, 101, 98] ++ 47 :: 46 :: 46 :: 47 :: joinSegs segs) = joinSegs segs := by
  have hlen : ([119, 101, 98] ++ 47 :: 46 :: 46 :: 47 :: joinSegs segs).length =
      (joinSegs segs).length + 3 + 4 := by
    simp only [List.length_cons, List.length_append, List.length_nil]; omega
  obtain ⟨s, rest, rfl⟩ : ∃ s rest, segs = s :: rest := by
    cases segs with
    | nil => exact absurd rfl hne
    | cons s rest => exact ⟨s, rest, rfl⟩
  have hnn := joinSegs_ne_nil s rest (hs s (List.mem_cons_self _ _)).1
  unfold Clean
  rw [if_neg (by simp)]
  simp only [List.cons_append, List.head?_cons, Option.some.injEq, Nat.reduceEqDiff,
    decide_False, Bool.false_eq_true, if_false]
  have hlen' : (119 :: 101 :: 98 :: ([] ++ 47 :: 46 :: 46 :: 47 :: joinSegs (s :: rest))).length =
      (joinSegs (s :: rest)).length + 3 + 4 := by
    simp only [List.length_cons, List.length_append, List.length_nil]; omega
  rw [hlen']
  have e : (119 :: 101 :: 98 :: ([] ++ 47 :: 46 :: 46 :: 47 :: joinSegs (s :: rest))) =
      [119, 101, 98] ++ 47 :: 46 :: 46 :: 47 :: joinSegs (s :: rest) := rfl
  rw [e,
    cleanLoop_elem_slash false _ [119, 101, 98] _ [] 0 (by decide),
    cleanLoop_slash,
    cleanLoop_dotdot_back false _ _ _ 0 (by simp),
    cleanLoop_slash,
    cleanLoop_segs false (s :: rest) hne hs _ _ 0 (by omega)]
  simp [backtrack, hnn]

theorem Join_web_dotdot (b : URL) (hb : StdBase b) (D : Str) (hD : IsDomain D) :
    Join [b.Path, str "web", str "../dns/" ++ D] = Join [b.Path, str "dns", D] := by
  have hs : ∀ s ∈ [[100, 110, 115], D], NormalSeg s := by
    intro s hsm
    simp only [List.mem_cons, List.mem_singleton, List.mem_nil_iff, or_false] at hsm
    rcases hsm with h | h
    · subst h; decide
    · subst h; exact hD.normalSeg
  have hweb : str "web" = [119, 101, 98] := by decide
  have hdns : str "dns" = [100, 110, 115] := by decide
  have hdd : str "../dns/" ++ D = 46 :: 46 :: 47 :: joinSegs [[100, 110, 115], D] := by
    have : str "../dns/" = [46, 46, 47, 100, 110, 115, 47] := by decide
    rw [this]; simp [joinSegs]
  rcases hb.cases with hb | ⟨scheme, host, _, hb⟩
  · subst hb
    have hpath : defaultBase.Path = 47 :: [97, 112, 105] := by decide
    rw [hpath, hweb, hdns, hdd,
      Join_segs _ _ (by simp), Join_segs _ _ (by simp [hD.ne_nil])]
    have e1 : joinSegs [47 :: [97, 112, 105], [119, 101, 98],
        46 :: 46 :: 47 :: joinSegs [[100, 110, 115], D]] =
        47 :: ([97, 112, 105] ++ 47 :: ([119, 101, 98] ++ 47 :: 46 :: 46 :: 47 ::
          joinSegs [[100, 110, 115], D])) := rfl
    have e2 : joinSegs [47 :: [97, 112, 105], [100, 110, 115], D] =
        47 :: joinSegs [[97, 112, 105], [100, 110, 115], D] := rfl
    rw [e1, e2, Clean_default_dotdot _ (by simp) hs, Clean_abs _ (by simp) (by
      intro s hsm
      rcases List.mem_cons.mp hsm with h | h
      · subst h; decide
      · exact hs s h)]
    rfl
  · subst hb
    have hpath : (bareOrigin scheme host).Path = [] := rfl
    rw [hpath, hweb, hdns, hdd, Join_nil_cons _ _ (by simp), Join_nil_cons _ _ (by simp),
      Join_segs _ _ (by simp), Join_segs _ _ (by simp [hD.ne_nil])]
    have e1 : joinSegs [[119, 101, 98], 46 :: 46 :: 47 :: joinSegs [[100, 110, 115], D]] =
        [119, 101, 98] ++ 47 :: 46 :: 46 :: 47 :: joinSegs [[100, 110, 115], D] := rfl
    rw [e1, Clean_bare_dotdot _ (by simp) hs, Clean_rel _ (by simp) hs]

/-- C10: segments are joined with path cleaning before the URL is parsed, so for
a domain `D` of dot-separated non-empty labels `Web("../dns/" + D)` builds the
URL that `DNS(D)` builds, `<base>/dns/D`. -/
theorem C10_web_dotdot_is_dns (c : Client) (D : Str) (hb : StdBase c.baseURL)
    (hD : IsDomain D) :
    c.webEndpoint (str "../dns/" ++ D) = c.dnsEndpoint D ∧
      ∃ u, c.dnsEndpoint D = .ok u ∧ u.String = c.baseURL.String ++ str "/dns/" ++ D := by
  refine ⟨?_, ?_⟩
  · unfold Client.webEndpoint Client.dnsEndpoint
    rw [Join_web_dotdot c.baseURL hb D hD]
  · have hs : ∀ s ∈ [str "dns", D], IsDomain s := by
      intro s hsm
      simp only [List.mem_cons, List.mem_singleton, List.mem_nil_iff, or_false] at hsm
      rcases hsm with h | h
      · subst h; decide
      · subst h; exact hD
    obtain ⟨u, h1, h2, _⟩ := endpoint_result c.baseURL hb (str "dns") D [] hs
    refine ⟨u, h1, ?_⟩
    rw [h2]; simp [joinSegs, str]

/-- C10 at the default client and `example.com`. -/
theorem C10_web_dotdot_is_dns_witness :
    StdBase (NewClient (str "secret") (fun _ => .error (.external 0))).baseURL ∧
      IsDomain (str "example.com") ∧
      (NewClient (str "secret") (fun _ => .error (.external 0))).webEndpoint
          (str "../dns/" ++ str "example.com") =
        (NewClient (str "secret") (fun _ => .error (.external 0))).dnsEndpoint
          (str "example.com") :=
  ⟨Or.inl ⟨_, _, rfl⟩, by decide,
    (C10_web_dotdot_is_dns (NewClient (str "secret") (fun _ => .error (.external 0)))
      (str "example.com") (Or.inl ⟨_, _, rfl⟩) (by decide)).1⟩

/-! ## The path of `Web` for a general segment -/

theorem shouldEscape_unreserved (c : Nat)
    (hc : (97 ≤ c ∧ c ≤ 122) ∨ (65 ≤ c ∧ c ≤ 90) ∨ (48 ≤ c ∧ c ≤ 57) ∨ c = 45 ∨ c = 46 ∨
      c = 47) : shouldEscape c encodePath = false := by
  unfold shouldEscape
  by_cases h1 : (97 ≤ c ∧ c ≤ 122) ∨ (65 ≤ c ∧ c ≤ 90) ∨ (48 ≤ c ∧ c ≤ 57)
  · rw [if_pos h1]
  · have h2 : c = 45 ∨ c = 46 ∨ c = 47 := by omega
    rcases h2 with h2 | h2 | h2 <;> subst h2 <;> decide

theorem validEncoded_unreserved (P : Str)
    (h : ∀ c ∈ P, (97 ≤ c ∧ c ≤ 122) ∨ (65 ≤ c ∧ c ≤ 90) ∨ (48 ≤ c ∧ c ≤ 57) ∨ c = 45 ∨ c = 46 ∨
      c = 47) : validEncoded P encodePath = true := by
  unfold validEncoded
  rw [List.all_eq_true]
  intro c hc
  rw [shouldEscape_unreserved c (h c hc)]
  split_ifs <;> rfl

theorem encodedPath_prefix (P D : Str)
    (h : ∀ c ∈ P, (97 ≤ c ∧ c ≤ 122) ∨ (65 ≤ c ∧ c ≤ 90) ∨ (48 ≤ c ∧ c ≤ 57) ∨ c = 45 ∨ c = 46 ∨
      c = 47) : encodedPath (P ++ D) = P ++ encodedPath D := by
  unfold encodedPath
  have hv : validEncoded (P ++ D) encodePath = validEncoded D encodePath := by
    unfold validEncoded
    rw [List.all_append]
    have := validEncoded_unreserved P h
    unfold validEncoded at this
    rw [this, Bool.true_and]
  rw [hv, escape_append, escape_id P h]
  split_ifs <;> rfl

/-- C6, amended: for a standard base URL and every domain `D` that is a normal
path element (not empty, without `/`, neither `.` nor `..`) of bytes other than
control bytes, `#`, `%` and `?`, the URL that `Web` builds has the path
`<base path>/web/D`, written `<base path>/web/` followed by the escaped form
of `D`, and has no query string. -/
theorem C6_web_path_of_safe_segment (c : Client) (D : Str) (hb : StdBase c.baseURL)
    (hD : SafeSegment D) :
    ∃ u, c.webEndpoint D = .ok u ∧ u.Path = c.baseURL.Path ++ str "/web/" ++ D ∧
      u.EscapedPath = c.baseURL.Path ++ str "/web/" ++ encodedPath D ∧
      u.RawQuery = [] ∧ u.ForceQuery = false := by
  have hweb : str "web" = [119, 101, 98] := by decide
  have hwebs : str "/web/" = [47, 119, 101, 98, 47] := by decide
  have hs : ∀ s ∈ [str "web", D], NormalSeg s := by
    intro s hsm
    simp only [List.mem_cons, List.mem_singleton, List.mem_nil_iff, or_false] at hsm
    rcases hsm with h | h
    · subst h; decide
    · subst h; exact hD.1
  have hp : ∀ s ∈ [str "web", D], ∀ x ∈ s, PlainByte x := by
    intro s hsm
    simp only [List.mem_cons, List.mem_singleton, List.mem_nil_iff, or_false] at hsm
    rcases hsm with h | h
    · subst h; decide
    · subst h; exact hD.2
  have hR : c.baseURL.Path ++ 47 :: joinSegs [str "web", D] =
      (c.baseURL.Path ++ str "/web/") ++ D := by
    rw [hweb, hwebs]; simp [joinSegs]
  have hP : ∀ x ∈ c.baseURL.Path ++ str "/web/",
      (97 ≤ x ∧ x ≤ 122) ∨ (65 ≤ x ∧ x ≤ 90) ∨ (48 ≤ x ∧ x ≤ 57) ∨ x = 45 ∨ x = 46 ∨ x = 47 := by
    intro x hx
    rcases List.mem_append.mp hx with h | h
    · exact hb.path_bytes x h
    · rw [hwebs] at h
      simp only [List.mem_cons, List.mem_singleton, List.mem_nil_iff, or_false] at h
      omega
  have h37 : 37 ∉ (c.baseURL.Path ++ str "/web/") ++ D := by
    intro h
    rcases List.mem_append.mp h with h | h
    · have := hP 37 h; omega
    · exact (hD.2 37 h).2.2.2.2.1 rfl
  have hnn : (c.baseURL.Path ++ str "/web/") ++ D ≠ [] := by
    rw [hwebs]; simp
  have h42 : (c.baseURL.Path ++ str "/web/") ++ D ≠ [42] := by
    intro e
    have := congrArg List.length e
    rw [hwebs] at this
    simp only [List.length_append, List.length_cons, List.length_nil] at this
    omega
  have hep := endpoint_std c.baseURL hb (str "web") D [] (by decide) hs hp
  rw [hR] at hep
  refine ⟨_, hep, ?_, ?_, rfl, rfl⟩
  · simp only [List.append_assoc]
  · rw [EscapedPath_eq _ ((c.baseURL.Path ++ str "/web/") ++ D) rfl ?_ ?_ h37 h42,
      encodedPath_prefix _ _ hP]
    · simp only
      split_ifs
      · exact Or.inr rfl
      · exact Or.inl rfl
    · simp only
      intro h hv
      by_contra hne
      rw [if_pos ⟨hv, fun e => hne e.symm⟩] at h
      exact hnn h

/-- C6, amended, at the default client and the segment `a b:c!`. -/
theorem C6_web_path_of_safe_segment_witness :
    StdBase (NewClient (str "secret") (fun _ => .error (.external 0))).baseURL ∧
      SafeSegment (str "a b") ∧
      ∃ u, (NewClient (str "secret") (fun _ => .error (.external 0))).webEndpoint (str "a b") =
          .ok u ∧ u.EscapedPath = str "/api/web/a%20b" ∧ u.RawQuery = [] :=
  ⟨Or.inl ⟨_, _, rfl⟩, by decide,
    match C6_web_path_of_safe_segment (NewClient (str "secret") (fun _ => .error (.external 0)))
        (str "a b") (Or.inl ⟨_, _, rfl⟩) (by decide) with
    | ⟨u, h1, _, h3, h4, _⟩ => ⟨u, h1, h3.trans (by rw [NewClient_baseURL]; decide), h4⟩⟩

/-- C6 as stated fails: for the domain `a?b` the URL that `Web` builds for the
default client has the query string `b`, and its path is `/api/web/a`, not
`/api/web/a%3Fb`. -/
theorem C6_counterexample :
    (NewClient (str "secret") (fun _ => .error (.external 0))).webEndpoint (str "a?b") =
      .ok { Scheme := str "https", Host := str "host.io", Path := str "/api/web/a",
            RawQuery := str "b" } := by
  decide!

/-! ## Lemmas: no `?` in, no query out -/

theorem cleanLoop_forall (Q : Nat → Prop) (h46 : Q 46) (h47 : Q 47) (r : Bool) (f : Nat)
    (p out : Str) (dd : Nat) (hp : ∀ c ∈ p, Q c) (ho : ∀ c ∈ out, Q c) :
    ∀ c ∈ cleanLoop r f p out dd, Q c := by
  induction f generalizing p out dd with
  | zero => unfold cleanLoop; exact ho
  | succ f ih =>
    cases p with
    | nil => rw [cleanLoop_nil]; exact ho
    | cons x rest =>
      have hrest : ∀ c ∈ rest, Q c := fun c hc => hp c (List.mem_cons_of_mem _ hc)
      have htail : ∀ c ∈ rest.tail, Q c := fun c hc => hrest c (List.mem_of_mem_tail hc)
      have hdrop : ∀ c ∈ (x :: rest).dropWhile (fun b => b ≠ 47), Q c :=
        fun c hc => hp c ((List.dropWhile_suffix _).mem hc)
      have htake : ∀ c ∈ (x :: rest).takeWhile (fun b => b ≠ 47), Q c :=
        fun c hc => hp c ((List.takeWhile_prefix _).subset hc)
      have hslash : ∀ c ∈ out ++ [47], Q c := by
        intro c hc
        rcases List.mem_append.mp hc with h | h
        · exact ho c h
        · rw [List.mem_singleton.mp h]; exact h47
      have hdots : ∀ l : Str, (∀ c ∈ l, Q c) → ∀ c ∈ l ++ [46, 46], Q c := by
        intro l hl c hc
        rcases List.mem_append.mp hc with h | h
        · exact hl c h
        · simp only [List.mem_cons, List.mem_singleton, List.mem_nil_iff, or_false, or_self] at h
          rw [h]; exact h46
      have happ : ∀ l : Str, (∀ c ∈ l, Q c) →
          ∀ c ∈ l ++ (x :: rest).takeWhile (fun b => b ≠ 47), Q c := by
        intro l hl c hc
        rcases List.mem_append.mp hc with h | h
        · exact hl c h
        · exact htake c h
      have htk : ∀ n, ∀ c ∈ out.take n, Q c := fun n c hc => ho c (List.mem_of_mem_take hc)
      unfold cleanLoop
      split_ifs
      · exact ih _ _ _ hrest ho
      · exact ih _ _ _ hrest ho
      · exact ih _ _ _ htail (htk _)
      · exact ih _ _ _ htail (hdots _ hslash)
      · exact ih _ _ _ htail (hdots _ ho)
      · exact ih _ _ _ htail ho
      · exact ih _ _ _ hdrop (happ _ hslash)
      · exact ih _ _ _ hdrop (happ _ ho)

theorem mem_cleanLoop (r : Bool) (f : Nat) (p out : Str) (dd : Nat) (c : Nat)
    (h : c ∈ cleanLoop r f p out dd) : c ∈ p ∨ c ∈ out ∨ c = 46 ∨ c = 47 :=
  cleanLoop_forall (fun c => c ∈ p ∨ c ∈ out ∨ c = 46 ∨ c = 47) (Or.inr (Or.inr (Or.inl rfl)))
    (Or.inr (Or.inr (Or.inr rfl))) r f p out dd (fun _ hc => Or.inl hc)
    (fun _ hc => Or.inr (Or.inl hc)) c h

theorem Clean_forall (Q : Nat → Prop) (h46 : Q 46) (h47 : Q 47) (path : Str)
    (hp : ∀ c ∈ path, Q c) : ∀ c ∈ Clean path, Q c := by
  have h1 : ∀ c ∈ ([46] : Str), Q c := by
    intro c hc; rw [List.mem_singleton.mp hc]; exact h46
  have h2 : ∀ c ∈ ([47] : Str), Q c := by
    intro c hc; rw [List.mem_singleton.mp hc]; exact h47
  have h3 : ∀ c ∈ ([] : Str), Q c := by simp
  unfold Clean
  by_cases h0 : path = []
  · rw [if_pos h0]; exact h1
  · rw [if_neg h0]
    by_cases hr : path.head? = some 47
    · simp only [hr, decide_True, if_true]
      split_ifs
      · exact h1
      · exact cleanLoop_forall Q h46 h47 _ _ _ _ _
          (fun c hc => hp c (List.mem_of_mem_tail hc)) h2
    · simp only [hr, decide_False, Bool.false_eq_true, if_false]
      split_ifs
      · exact h1
      · exact cleanLoop_forall Q h46 h47 _ _ _ _ _ hp h3

theorem Join_forall (Q : Nat → Prop) (h46 : Q 46) (h47 : Q 47) (elem : List Str)
    (hp : ∀ e ∈ elem, ∀ c ∈ e, Q c) : ∀ c ∈ Join elem, Q c := by
  have aux : ∀ (l : List Str) (buf : Str), (∀ e ∈ l, ∀ c ∈ e, Q c) → (∀ c ∈ buf, Q c) →
      ∀ c ∈ l.foldl
        (fun buf e =>
          if buf.length > 0 ∨ e ≠ [] then (if buf.length > 0 then buf ++ [47] else buf) ++ e
          else buf) buf, Q c := by
    intro l
    induction l with
    | nil => intro buf _ hb; exact hb
    | cons e l ih =>
      intro buf hl hb
      rw [List.foldl_cons]
      apply ih _ (fun e' he' => hl e' (List.mem_cons_of_mem _ he'))
      have he := hl e (List.mem_cons_self _ _)
      split_ifs
      all_goals
        intro c hc
        try simp only [List.mem_append, List.mem_singleton] at hc
        first
          | exact hb c hc
          | (rcases hc with (h | h) | h
             · exact hb c h
             · rw [h]; exact h47
             · exact he c h)
          | (rcases hc with h | h
             · exact hb c h
             · exact he c h)
  unfold Join
  split_ifs
  · simp
  · exact Clean_forall Q h46 h47 _ (aux elem [] hp (by simp))

theorem setPath_query (u u' : URL) (p : Str) (h : u.setPath p = .ok u') :
    u'.RawQuery = u.RawQuery ∧ u'.ForceQuery = u.ForceQuery := by
  unfold URL.setPath at h
  split at h
  · exact Except.noConfusion h
  · split_ifs at h <;> (injection h with h; subst h; exact ⟨rfl, rfl⟩)

theorem setPathIgnoringError_query (u : URL) (p : Str) :
    (u.setPathIgnoringError p).RawQuery = u.RawQuery ∧
      (u.setPathIgnoringError p).ForceQuery = u.ForceQuery := by
  unfold URL.setPathIgnoringError
  split
  · rename_i u1 h; exact setPath_query u u1 p h
  · exact ⟨rfl, rfl⟩

theorem setFragment_query (u u' : URL) (f : Str) (h : u.setFragment f = .ok u') :
    u'.RawQuery = u.RawQuery ∧ u'.ForceQuery = u.ForceQuery := by
  unfold URL.setFragment at h
  split at h
  · exact Except.noConfusion h
  · split_ifs at h <;> (injection h with h; subst h; exact ⟨rfl, rfl⟩)

theorem getSchemeLoop_rest (raw : Str) (i : Nat) (p scheme rest : Str)
    (h : getSchemeLoop raw i p = .ok (scheme, rest)) : ∀ c ∈ rest, c ∈ raw := by
  induction p generalizing i with
  | nil =>
    unfold getSchemeLoop at h
    injection h with h; injection h with h1 h2
    subst h2; exact fun c hc => hc
  | cons x p ih =>
    unfold getSchemeLoop at h
    split_ifs at h
    · exact ih _ h
    · injection h with h; injection h with h1 h2
      subst h2; exact fun c hc => hc
    · exact ih _ h
    · injection h with h; injection h with h1 h2
      subst h2; exact fun c hc => List.mem_of_mem_drop hc
    · injection h with h; injection h with h1 h2
      subst h2; exact fun c hc => hc

theorem parseRest_query (url u : URL) (rest : Str) (v : Bool)
    (h : parseRest url rest v = .ok u) :
    u.RawQuery = url.RawQuery ∧ u.ForceQuery = url.ForceQuery := by
  unfold parseRest at h
  split_ifs at h
  · simp only at h
    split at h
    · exact Except.noConfusion h
    · have := setPath_query _ _ _ h
      exact this
  · have := setPath_query _ _ _ h
    exact this
  · exact setPath_query _ _ _ h

theorem parse_noQuery (raw : Str) (u : URL) (h63 : 63 ∉ raw) (h : parse raw false = .ok u) :
    u.RawQuery = [] ∧ u.ForceQuery = false := by
  unfold parse at h
  by_cases hctl : stringContainsCTLByte raw = true
  · rw [if_pos hctl] at h; exact Except.noConfusion h
  · rw [if_neg hctl, if_neg (by simp)] at h
    by_cases h42 : raw = [42]
    · rw [if_pos h42] at h; injection h with h; subst h; exact ⟨rfl, rfl⟩
    · rw [if_neg h42] at h
      cases hg : getScheme raw with
      | error e => rw [hg] at h; exact Except.noConfusion h
      | ok sr =>
        obtain ⟨scheme, rest0⟩ := sr
        have hrest : 63 ∉ rest0 :=
          fun hc => h63 (getSchemeLoop_rest raw 0 raw scheme rest0 hg 63 hc)
        rw [hg] at h
        simp only [Cut_of_not_mem rest0 63 hrest, count_eq_zero_of_not_mem' 63 rest0 hrest,
          zero_ne_one, and_false, decide_False, Bool.false_eq_true, if_false] at h
        split_ifs at h
        all_goals first
          | exact (fun hq => hq) (parseRest_query _ _ _ _ h)
          | (injection h with h; subst h; exact ⟨rfl, rfl⟩)

theorem Parse_noQuery (raw : Str) (u : URL) (h63 : 63 ∉ raw) (h : Parse raw = .ok u) :
    u.RawQuery = [] ∧ u.ForceQuery = false := by
  have hcut : 63 ∉ (Cut raw 35).1 := by
    unfold Cut
    split_ifs
    · exact fun hc => h63 ((List.takeWhile_prefix _).subset hc)
    · exact h63
  unfold Parse at h
  simp only at h
  split at h
  · exact Except.noConfusion h
  · rename_i url hp
    have hq := parse_noQuery _ _ hcut hp
    split_ifs at h
    · injection h with h; subst h; exact hq
    · split at h
      · exact Except.noConfusion h
      · rename_i url1 hf
        injection h with h; subst h
        have := setFragment_query _ _ _ hf
        exact ⟨this.1.trans hq.1, this.2.trans hq.2⟩

theorem ResolveReference_noQuery (b ref : URL) (hb : b.RawQuery = [])
    (hr : ref.RawQuery = []) (hf : ref.ForceQuery = false) :
    (b.ResolveReference ref).RawQuery = [] ∧ (b.ResolveReference ref).ForceQuery = false := by
  unfold URL.ResolveReference
  simp only
  split_ifs <;>
    first
    | exact ⟨(setPathIgnoringError_query _ _).1.trans (by simp [hr, hb]),
        (setPathIgnoringError_query _ _).2.trans (by simp [hf])⟩
    | simp [hr, hb, hf]

/-- When neither the base path nor the segments hold a `?` and the base URL
has no query, a URL that `(*URL).Parse` builds from the joined path has no
query. -/
theorem endpoint_noQuery (b u : URL) (segs : List Str) (hb : b.RawQuery = [])
    (hp : 63 ∉ b.Path) (hs : ∀ s ∈ segs, 63 ∉ s)
    (h : b.Parse (Join (b.Path :: segs)) = .ok u) :
    u.RawQuery = [] ∧ u.ForceQuery = false := by
  have h63 : 63 ∉ Join (b.Path :: segs) := by
    intro hc
    refine Join_forall (fun c => c ≠ 63) (by decide) (by decide) _ ?_ 63 hc rfl
    intro e he c hce h
    subst h
    rcases List.mem_cons.mp he with e1 | e1
    · subst e1; exact hp hce
    · exact hs e e1 hce
  unfold URL.Parse at h
  split at h
  · exact Except.noConfusion h
  · rename_i refURL hP
    injection h with h; subst h
    have := Parse_noQuery _ _ h63 hP
    exact ResolveReference_noQuery b refURL hb this.1 this.2

/-! ## The query of `Domains` -/

theorem formatBits_digits (fuel u : Nat) (a : Str) (ha : ∀ c ∈ a, 48 ≤ c ∧ c ≤ 57) :
    ∀ c ∈ formatBits fuel u a, 48 ≤ c ∧ c ≤ 57 := by
  induction fuel generalizing u a with
  | zero =>
    intro c hc
    unfold formatBits at hc
    rcases List.mem_cons.mp hc with h | h
    · omega
    · exact ha c h
  | succ fuel ih =>
    intro c hc
    unfold formatBits at hc
    split_ifs at hc with h10
    · refine ih _ _ ?_ c hc
      intro x hx
      rcases List.mem_cons.mp hx with h | h
      · omega
      · exact ha x h
    · rcases List.mem_cons.mp hc with h | h
      · omega
      · exact ha c h

/-- For `i ≥ 0`, `strconv.Itoa(i)` is made of decimal digits. -/
theorem Itoa_digits (i : Int) (hi : 0 ≤ i) : ∀ c ∈ Itoa i, 48 ≤ c ∧ c ≤ 57 := by
  unfold Itoa
  rw [if_neg (by omega)]
  exact formatBits_digits _ _ [] (by simp)

theorem QueryEscape_digits (s : Str) (h : ∀ c ∈ s, 48 ≤ c ∧ c ≤ 57) : QueryEscape s = s := by
  unfold QueryEscape
  induction s with
  | nil => rfl
  | cons c s ih =>
    have hc := h c (List.mem_cons_self _ _)
    have hse : shouldEscape c encodeQueryComponent = false := by
      unfold shouldEscape
      rw [if_pos (Or.inr (Or.inr hc))]
    rw [escape, if_neg (by omega), hse, ih (fun x hx => h x (List.mem_cons_of_mem _ hx))]
    simp

/-- The query that `Domains` writes over an endpoint without a query: `limit`
then `page`, in decimal. -/
theorem pager_query (L P : Int) (hL : 0 ≤ L) (hP : 0 ≤ P) :
    Values.Encode (Values.Set (Values.Set (ParseQuery []).1 (str "limit") (Itoa L))
      (str "page") (Itoa P)) = str "limit=" ++ Itoa L ++ str "&page=" ++ Itoa P := by
  have h0 : (ParseQuery []).1 = [] := by decide
  have hl : QueryEscape (str "limit") = str "limit" := by decide
  have hp : QueryEscape (str "page") = str "page" := by decide
  have hne : ¬ (str "page" = str "limit") := by decide
  have hlt : strLess (str "page") (str "limit") = false := by decide
  rw [h0]
  unfold Values.Set
  simp only [Values.update, hne, if_false, hlt, Bool.false_eq_true]
  unfold Values.Encode
  simp only [List.foldl_cons, List.foldl_nil, List.length_nil, gt_iff_lt, lt_self_iff_false,
    if_false, List.nil_append, hl, hp, QueryEscape_digits _ (Itoa_digits L hL),
    QueryEscape_digits _ (Itoa_digits P hP)]
  have hpos : 0 < (str "limit" ++ [61] ++ Itoa L).length := by
    simp only [List.length_append, List.length_cons, List.length_nil]; omega
  rw [if_pos hpos]
  have e1 : str "limit=" = str "limit" ++ [61] := by decide
  have e2 : str "&page=" = [38] ++ str "page" ++ [61] := by decide
  rw [e1, e2]
  simp only [List.append_assoc]

/-- For a standard base URL, a `Field` constant and a safe value, the URL of
`Domains` is built. -/
theorem domains_builds (c : Client) (F : Field) (value : Str) (hb : StdBase c.baseURL)
    (hF : F ∈ fieldConstants) (hv : SafeSegment value) :
    ∃ u, c.baseURL.Parse (Join [c.baseURL.Path, str "domains", F, value]) = .ok u := by
  have hFd := fieldConstants_domain F hF
  have hs : ∀ s ∈ [str "domains", F, value], NormalSeg s := by
    intro s hsm
    simp only [List.mem_cons, List.mem_singleton, List.mem_nil_iff, or_false] at hsm
    rcases hsm with e | e | e
    · subst e; decide
    · subst e; exact hFd.normalSeg
    · subst e; exact hv.1
  have hp : ∀ s ∈ [str "domains", F, value], ∀ x ∈ s, PlainByte x := by
    intro s hsm
    simp only [List.mem_cons, List.mem_singleton, List.mem_nil_iff, or_false] at hsm
    rcases hsm with e | e | e
    · subst e; decide
    · subst e; exact hFd.plain
    · subst e; exact hv.2
  exact ⟨_, endpoint_std c.baseURL hb (str "domains") F [value] (by decide) hs hp⟩

/-- C3, amended: when the base URL has no query and neither the base path, the
field nor the value holds a `?`, then for every pager with `Limit = L ≥ 0` and
`Page = P ≥ 0` (zero included) the URL that `Domains` builds has the query
string `limit=L&page=P`, both written in decimal digits: exactly these two
parameters.  The URL is built when the base URL is a standard one, the field
a `Field` constant and the value a safe segment. -/
theorem C3_pager_query (c : Client) (field : Field) (value : Str) (L P : Int)
    (hq : c.baseURL.RawQuery = []) (hb : 63 ∉ c.baseURL.Path) (hf : 63 ∉ field)
    (hv : 63 ∉ value) (hL : 0 ≤ L) (hP : 0 ≤ P) :
    (∀ u, c.domainsEndpoint field value (some ⟨L, P⟩) = .ok u →
      u.RawQuery = str "limit=" ++ Itoa L ++ str "&page=" ++ Itoa P) ∧
    (∀ x ∈ Itoa L, 48 ≤ x ∧ x ≤ 57) ∧ (∀ x ∈ Itoa P, 48 ≤ x ∧ x ≤ 57) ∧
    (StdBase c.baseURL → field ∈ fieldConstants → SafeSegment value →
      ∃ u, c.domainsEndpoint field value (some ⟨L, P⟩) = .ok u) := by
  refine ⟨?_, Itoa_digits L hL, Itoa_digits P hP, ?_⟩
  · intro u h
    unfold Client.domainsEndpoint at h
    split at h
    · exact Except.noConfusion h
    · rename_i endpoint he
      have hs : ∀ s ∈ [str "domains", field, value], 63 ∉ s := by
        intro s hsm
        simp only [List.mem_cons, List.mem_singleton, List.mem_nil_iff, or_false] at hsm
        rcases hsm with e | e | e
        · subst e; decide
        · subst e; exact hf
        · subst e; exact hv
      have hnq := endpoint_noQuery c.baseURL endpoint _ hq hb hs he
      simp only at h
      injection h with h
      subst h
      simp only [URL.Query, hnq.1]
      exact pager_query L P hL hP
  · intro hstd hF hsafe
    obtain ⟨e, he⟩ := domains_builds c field value hstd hF hsafe
    unfold Client.domainsEndpoint
    rw [he]
    exact ⟨_, rfl⟩

/-- C3, amended, at the default client, `NS`, `google.com` and the pager (5, 0). -/
theorem C3_pager_query_witness :
    ∃ u, (NewClient (str "secret") (fun _ => .error (.external 0))).domainsEndpoint NS
        (str "google.com") (some ⟨5, 0⟩) = .ok u ∧ u.RawQuery = str "limit=5&page=0" :=
  ⟨{ Scheme := str "https", Host := str "host.io", Path := str "/api/domains/ns/google.com",
     RawQuery := str "limit=5&page=0" },
    by decide!,
    ((C3_pager_query (NewClient (str "secret") (fun _ => .error (.external 0))) NS
      (str "google.com") 5 0 (by rw [NewClient_baseURL]; decide)
      (by rw [NewClient_baseURL]; decide) (by decide) (by decide) (by decide) (by decide)).1 _
      (by decide!)).trans (by decide)⟩

/-- C3 as stated fails: for the value `x?a=b` and the pager (5, 5) the query of
the URL that `Domains` builds holds a third parameter, `a=b`. -/
theorem C3_counterexample :
    (NewClient (str "secret") (fun _ => .error (.external 0))).domainsEndpoint NS
        (str "x?a=b") (some ⟨5, 5⟩) =
      .ok { Scheme := str "https", Host := str "host.io", Path := str "/api/domains/ns/x",
            RawQuery := str "a=b&limit=5&page=5" } := by
  decide!

/-- C7, amended: when the base URL has no query and neither the base path, the
field nor the value holds a `?`, the URL that `Domains` builds without a pager
has no query at all, so neither a `limit` nor a `page` parameter.  The URL is
built when the base URL is a standard one, the field a `Field` constant and
the value a safe segment. -/
theorem C7_no_pager_no_query (c : Client) (field : Field) (value : Str)
    (hq : c.baseURL.RawQuery = []) (hb : 63 ∉ c.baseURL.Path) (hf : 63 ∉ field)
    (hv : 63 ∉ value) :
    (∀ u, c.domainsEndpoint field value none = .ok u →
      u.RawQuery = [] ∧ u.ForceQuery = false ∧ u.Query.Has (str "limit") = false ∧
        u.Query.Has (str "page") = false) ∧
    (StdBase c.baseURL → field ∈ fieldConstants → SafeSegment value →
      ∃ u, c.domainsEndpoint field value none = .ok u) := by
  refine ⟨?_, ?_⟩
  · intro u h
    unfold Client.domainsEndpoint at h
    split at h
    · exact Except.noConfusion h
    · rename_i endpoint he
      have hs : ∀ s ∈ [str "domains", field, value], 63 ∉ s := by
        intro s hsm
        simp only [List.mem_cons, List.mem_singleton, List.mem_nil_iff, or_false] at hsm
        rcases hsm with e | e | e
        · subst e; decide
        · subst e; exact hf
        · subst e; exact hv
      have hnq := endpoint_noQuery c.baseURL endpoint _ hq hb hs he
      simp only at h
      injection h with h
      subst h
      refine ⟨hnq.1, hnq.2, ?_, ?_⟩
      · simp only [URL.Query, hnq.1]; decide
      · simp only [URL.Query, hnq.1]; decide
  · intro hstd hF hsafe
    obtain ⟨e, he⟩ := domains_builds c field value hstd hF hsafe
    unfold Client.domainsEndpoint
    rw [he]
    exact ⟨_, rfl⟩

/-- C7, amended, at the default client, `NS` and `google.com`. -/
theorem C7_no_pager_no_query_witness :
    ∃ u, (NewClient (str "secret") (fun _ => .error (.external 0))).domainsEndpoint NS
        (str "google.com") none = .ok u ∧ u.RawQuery = [] ∧
      u.Query.Has (str "limit") = false :=
  ⟨{ Scheme := str "https", Host := str "host.io", Path := str "/api/domains/ns/google.com" },
    by decide!,
    ((C7_no_pager_no_query (NewClient (str "secret") (fun _ => .error (.external 0))) NS
      (str "google.com") (by rw [NewClient_baseURL]; decide)
      (by rw [NewClient_baseURL]; decide) (by decide) (by decide)).1 _ (by decide!)).1,
    ((C7_no_pager_no_query (NewClient (str "secret") (fun _ => .error (.external 0))) NS
      (str "google.com") (by rw [NewClient_baseURL]; decide)
      (by rw [NewClient_baseURL]; decide) (by decide) (by decide)).1 _ (by decide!)).2.2.1⟩

/-- C7 as stated fails: for the value `x?limit=5` the URL that `Domains` builds
without a pager has the query `limit=5`, a `limit` parameter. -/
theorem C7_counterexample :
    ((NewClient (str "secret") (fun _ => .error (.external 0))).domainsEndpoint NS
        (str "x?limit=5") none).map (fun u => (u.RawQuery, u.Query.Has (str "limit"))) =
      .ok (str "limit=5", true) := by
  decide!

/-! ## The transport executor -/

theorem do_of_request_error {T : Type} (c : Client) (decode : Decoder T) (endpoint : URL)
    (data : T) (e : Error)
    (h : NewRequestWithContext (str "GET") endpoint.String [] = .error e) :
    c.do decode endpoint data = ⟨some e, data, []⟩ := by
  unfold Client.do
  rw [h]

theorem do_sent {T : Type} (c : Client) (decode : Decoder T) (endpoint : URL) (data : T)
    (req0 : Request) (h : NewRequestWithContext (str "GET") endpoint.String [] = .ok req0) :
    (c.do decode endpoint data).sent = [withHeaders c.token req0] := by
  unfold Client.do
  rw [h]
  simp only
  split
  · rfl
  · split_ifs <;> rfl

theorem do_of_transport_error {T : Type} (c : Client) (decode : Decoder T) (endpoint : URL)
    (data : T) (req0 : Request) (e : Error)
    (h : NewRequestWithContext (str "GET") endpoint.String [] = .ok req0)
    (ht : c.HTTPClient (withHeaders c.token req0) = .error e) :
    c.do decode endpoint data = ⟨some e, data, [withHeaders c.token req0]⟩ := by
  unfold Client.do
  rw [h]
  simp only
  unfold withHeaders at ht
  rw [ht]
  rfl

theorem do_of_status {T : Type} (c : Client) (decode : Decoder T) (endpoint : URL)
    (data : T) (req0 : Request) (resp : Response)
    (h : NewRequestWithContext (str "GET") endpoint.String [] = .ok req0)
    (ht : c.HTTPClient (withHeaders c.token req0) = .ok resp) (hs : resp.StatusCode ≠ 200) :
    c.do decode endpoint data =
      ⟨some (.errorString (Itoa resp.StatusCode ++ str ": " ++ resp.Body.data)), data,
        [withHeaders c.token req0]⟩ := by
  unfold Client.do
  rw [h]
  simp only
  unfold withHeaders at ht
  rw [ht]
  simp only [hs, ne_eq, not_false_eq_true, if_true]
  rfl

theorem do_of_ok {T : Type} (c : Client) (decode : Decoder T) (endpoint : URL)
    (data : T) (req0 : Request) (resp : Response)
    (h : NewRequestWithContext (str "GET") endpoint.String [] = .ok req0)
    (ht : c.HTTPClient (withHeaders c.token req0) = .ok resp) (hs : resp.StatusCode = 200) :
    c.do decode endpoint data =
      ⟨(decode resp.Body data).1, (decode resp.Body data).2, [withHeaders c.token req0]⟩ := by
  unfold Client.do
  rw [h]
  simp only
  unfold withHeaders at ht
  rw [ht]
  simp only [hs, ne_eq, not_true_eq_false, if_false]
  rfl

/-- C2: when the HTTP client answers the request of `do` with a response whose status
`s` is not 200 and whose body reads as `b`, `do` returns the error
`fmt.Errorf("%d: %s", s, b)`, which carries the status and the raw body; the
decoder plays no part (any other decoder gives the same outcome) and the
target is left as it was. -/
theorem C2_non_200_is_error {T : Type} (c : Client) (decode : Decoder T) (endpoint : URL)
    (data : T) (req0 : Request) (resp : Response)
    (h : NewRequestWithContext (str "GET") endpoint.String [] = .ok req0)
    (ht : c.HTTPClient (withHeaders c.token req0) = .ok resp) (hs : resp.StatusCode ≠ 200) :
    (c.do decode endpoint data).err =
        some (.errorString (Itoa resp.StatusCode ++ str ": " ++ resp.Body.data)) ∧
      (c.do decode endpoint data).data = data ∧
      ∀ decode2 : Decoder T,
        (c.do decode2 endpoint data).err = (c.do decode endpoint data).err ∧
          (c.do decode2 endpoint data).data = data := by
  rw [do_of_status c decode endpoint data req0 resp h ht hs]
  refine ⟨rfl, rfl, ?_⟩
  intro decode2
  rw [do_of_status c decode2 endpoint data req0 resp h ht hs]
  exact ⟨rfl, rfl⟩

/-- C2 at status 404 with the body `not found`, and a decoder that would overwrite
the target: the error is `404: not found` and the target keeps its value. -/
theorem C2_non_200_is_error_witness :
    (Client.do { token := str "secret", baseURL := defaultBase,
                 HTTPClient := fun _ => .ok ⟨404, ⟨str "not found", none⟩⟩ }
        (fun _ (_ : Nat) => (none, 1))
        { Scheme := str "https", Host := str "host.io", Path := str "/api/web/example.com" }
        0).err = some (.errorString (str "404: not found")) ∧
    (Client.do { token := str "secret", baseURL := defaultBase,
                 HTTPClient := fun _ => .ok ⟨404, ⟨str "not found", none⟩⟩ }
        (fun _ (_ : Nat) => (none, 1))
        { Scheme := str "https", Host := str "host.io", Path := str "/api/web/example.com" }
        0).data = 0 :=
  have h := C2_non_200_is_error
    { token := str "secret", baseURL := defaultBase,
      HTTPClient := fun _ => .ok ⟨404, ⟨str "not found", none⟩⟩ }
    (fun _ (_ : Nat) => (none, 1))
    { Scheme := str "https", Host := str "host.io", Path := str "/api/web/example.com" }
    0
    { Method := str "GET",
      URL := { Scheme := str "https", Host := str "host.io",
               Path := str "/api/web/example.com" },
      Header := [], Body := [], Host := str "host.io" }
    ⟨404, ⟨str "not found", none⟩⟩ (by decide!) rfl (by decide)
  ⟨h.1.trans (by decide), h.2.1⟩

theorem NewRequest_ok (url : Str) (req0 : Request)
    (h : NewRequestWithContext (str "GET") url [] = .ok req0) :
    ∃ u, Parse url = .ok u ∧
      req0 = { Method := str "GET", URL := { u with Host := removeEmptyPort u.Host },
               Header := [], Body := [], Host := removeEmptyPort u.Host } := by
  unfold NewRequestWithContext at h
  have hm : (if str "GET" = [] then str "GET" else str "GET") = str "GET" := by decide
  have hv : validMethod (str "GET") = true := by decide
  simp only [hm, hv, not_true_eq_false, if_false] at h
  split at h
  · exact Except.noConfusion h
  · rename_i u hu
    injection h with h
    exact ⟨u, hu, h.symm⟩

theorem withHeaders_header (token : Str) (req0 : Request) (h : req0.Header = []) :
    (withHeaders token req0).Header =
      [(str "Accept", [str "application/json"]),
        (str "Authorization", [str "Bearer " ++ token]),
        (str "Content-Type", [str "application/json"])] := by
  have k1 : CanonicalMIMEHeaderKey (str "Content-Type") = str "Content-Type" := by decide
  have k2 : CanonicalMIMEHeaderKey (str "Accept") = str "Accept" := by decide
  have k3 : CanonicalMIMEHeaderKey (str "Authorization") = str "Authorization" := by decide
  have n1 : ¬ (str "Accept" = str "Content-Type") := by decide
  have n2 : ¬ (str "Authorization" = str "Accept") := by decide
  have n3 : ¬ (str "Authorization" = str "Content-Type") := by decide
  have l1 : strLess (str "Accept") (str "Content-Type") = true := by decide
  have l2 : strLess (str "Authorization") (str "Accept") = false := by decide
  have l3 : strLess (str "Authorization") (str "Content-Type") = true := by decide
  unfold withHeaders HeaderSet Values.Set
  simp only [h, k1, k2, k3, Values.update, n1, n2, n3, l1, l2, l3, if_true, if_false,
    Bool.false_eq_true]

/-! ## The five operations: a result or an error -/

theorem Web_cases (c : Client) (decode : Decoder WebResponse) (domain : Str) :
    (∀ e, c.webEndpoint domain = .error e → c.Web decode domain = ⟨none, some e, []⟩) ∧
    (∀ u e, c.webEndpoint domain = .ok u → (c.do decode u ({} : WebResponse)).err = some e →
      c.Web decode domain = ⟨none, some e, (c.do decode u ({} : WebResponse)).sent⟩) ∧
    (∀ u, c.webEndpoint domain = .ok u → (c.do decode u ({} : WebResponse)).err = none →
      c.Web decode domain =
        ⟨some (c.do decode u ({} : WebResponse)).data, none, (c.do decode u ({} : WebResponse)).sent⟩) := by
  refine ⟨?_, ?_, ?_⟩
  · intro e h
    unfold Client.Web
    rw [h]
  · intro u e h h2
    unfold Client.Web
    rw [h]
    simp only [h2]
  · intro u h h2
    unfold Client.Web
    rw [h]
    simp only [h2]

theorem Web_exactlyOne (c : Client) (decode : Decoder WebResponse) (domain : Str) :
    ExactlyOne (c.Web decode domain) := by
  obtain ⟨h1, h2, h3⟩ := Web_cases c decode domain
  cases he : c.webEndpoint domain with
  | error e => rw [h1 e he]; exact Or.inr ⟨rfl, rfl⟩
  | ok u =>
    cases hd : (c.do decode u ({} : WebResponse)).err with
    | some e => rw [h2 u e he hd]; exact Or.inr ⟨rfl, rfl⟩
    | none => rw [h3 u he hd]; exact Or.inl ⟨rfl, rfl⟩

theorem DNS_cases (c : Client) (decode : Decoder DNSResponse) (domain : Str) :
    (∀ e, c.dnsEndpoint domain = .error e → c.DNS decode domain = ⟨none, some e, []⟩) ∧
    (∀ u e, c.dnsEndpoint domain = .ok u → (c.do decode u ({} : DNSResponse)).err = some e →
      c.DNS decode domain = ⟨none, some e, (c.do decode u ({} : DNSResponse)).sent⟩) ∧
    (∀ u, c.dnsEndpoint domain = .ok u → (c.do decode u ({} : DNSResponse)).err = none →
      c.DNS decode domain =
        ⟨some (c.do decode u ({} : DNSResponse)).data, none, (c.do decode u ({} : DNSResponse)).sent⟩) := by
  refine ⟨?_, ?_, ?_⟩
  · intro e h
    unfold Client.DNS
    rw [h]
  · intro u e h h2
    unfold Client.DNS
    rw [h]
    simp only [h2]
  · intro u h h2
    unfold Client.DNS
    rw [h]
    simp only [h2]

theorem DNS_exactlyOne (c : Client) (decode : Decoder DNSResponse) (domain : Str) :
    ExactlyOne (c.DNS decode domain) := by
  obtain ⟨h1, h2, h3⟩ := DNS_cases c decode domain
  cases he : c.dnsEndpoint domain with
  | error e => rw [h1 e he]; exact Or.inr ⟨rfl, rfl⟩
  | ok u =>
    cases hd : (c.do decode u ({} : DNSResponse)).err with
    | some e => rw [h2 u e he hd]; exact Or.inr ⟨rfl, rfl⟩
    | none => rw [h3 u he hd]; exact Or.inl ⟨rfl, rfl⟩

theorem Related_cases (c : Client) (decode : Decoder RelatedResponse) (domain : Str) :
    (∀ e, c.relatedEndpoint domain = .error e → c.Related decode domain = ⟨none, some e, []⟩) ∧
    (∀ u e, c.relatedEndpoint domain = .ok u → (c.do decode u ({} : RelatedResponse)).err = some e →
      c.Related decode domain = ⟨none, some e, (c.do decode u ({} : RelatedResponse)).sent⟩) ∧
    (∀ u, c.relatedEndpoint domain = .ok u → (c.do decode u ({} : RelatedResponse)).err = none →
      c.Related decode domain =
        ⟨some (c.do decode u ({} : RelatedResponse)).data, none, (c.do decode u ({} : RelatedResponse)).sent⟩) := by
  refine ⟨?_, ?_, ?_⟩
  · intro e h
    unfold Client.Related
    rw [h]
  · intro u e h h2
    unfold Client.Related
    rw [h]
    simp only [h2]
  · intro u h h2
    unfold Client.Related
    rw [h]
    simp only [h2]

theorem Related_exactlyOne (c : Client) (decode : Decoder RelatedResponse) (domain : Str) :
    ExactlyOne (c.Related decode domain) := by
  obtain ⟨h1, h2, h3⟩ := Related_cases c decode domain
  cases he : c.relatedEndpoint domain with
  | error e => rw [h1 e he]; exact Or.inr ⟨rfl, rfl⟩
  | ok u =>
    cases hd : (c.do decode u ({} : RelatedResponse)).err with
    | some e => rw [h2 u e he hd]; exact Or.inr ⟨rfl, rfl⟩
    | none => rw [h3 u he hd]; exact Or.inl ⟨rfl, rfl⟩

theorem Full_cases (c : Client) (decode : Decoder FullResponse) (domain : Str) :
    (∀ e, c.fullEndpoint domain = .error e → c.Full decode domain = ⟨none, some e, []⟩) ∧
    (∀ u e, c.fullEndpoint domain = .ok u → (c.do decode u ({} : FullResponse)).err = some e →
      c.Full decode domain = ⟨none, some e, (c.do decode u ({} : FullResponse)).sent⟩) ∧
    (∀ u, c.fullEndpoint domain = .ok u → (c.do decode u ({} : FullResponse)).err = none →
      c.Full decode domain =
        ⟨some (c.do decode u ({} : FullResponse)).data, none, (c.do decode u ({} : FullResponse)).sent⟩) := by
  refine ⟨?_, ?_, ?_⟩
  · intro e h
    unfold Client.Full
    rw [h]
  · intro u e h h2
    unfold Client.Full
    rw [h]
    simp only [h2]
  · intro u h h2
    unfold Client.Full
    rw [h]
    simp only [h2]

theorem Full_exactlyOne (c : Client) (decode : Decoder FullResponse) (domain : Str) :
    ExactlyOne (c.Full decode domain) := by
  obtain ⟨h1, h2, h3⟩ := Full_cases c decode domain
  cases he : c.fullEndpoint domain with
  | error e => rw [h1 e he]; exact Or.inr ⟨rfl, rfl⟩
  | ok u =>
    cases hd : (c.do decode u ({} : FullResponse)).err with
    | some e => rw [h2 u e he hd]; exact Or.inr ⟨rfl, rfl⟩
    | none => rw [h3 u he hd]; exact Or.inl ⟨rfl, rfl⟩

theorem Domains_cases (c : Client) (decode : Decoder DomainsResponse) (field : Field) (value : Str) (pager : Option Pager) :
    (∀ e, c.domainsEndpoint field value pager = .error e → c.Domains decode field value pager = ⟨none, some e, []⟩) ∧
    (∀ u e, c.domainsEndpoint field value pager = .ok u → (c.do decode u ({} : DomainsResponse)).err = some e →
      c.Domains decode field value pager = ⟨none, some e, (c.do decode u ({} : DomainsResponse)).sent⟩) ∧
    (∀ u, c.domainsEndpoint field value pager = .ok u → (c.do decode u ({} : DomainsResponse)).err = none →
      c.Domains decode field value pager =
        ⟨some (c.do decode u ({} : DomainsResponse)).data, none, (c.do decode u ({} : DomainsResponse)).sent⟩) := by
  refine ⟨?_, ?_, ?_⟩
  · intro e h
    unfold Client.Domains
    rw [h]
  · intro u e h h2
    unfold Client.Domains
    rw [h]
    simp only [h2]
  · intro u h h2
    unfold Client.Domains
    rw [h]
    simp only [h2]

theorem Domains_exactlyOne (c : Client) (decode : Decoder DomainsResponse) (field : Field) (value : Str) (pager : Option Pager) :
    ExactlyOne (c.Domains decode field value pager) := by
  obtain ⟨h1, h2, h3⟩ := Domains_cases c decode field value pager
  cases he : c.domainsEndpoint field value pager with
  | error e => rw [h1 e he]; exact Or.inr ⟨rfl, rfl⟩
  | ok u =>
    cases hd : (c.do decode u ({} : DomainsResponse)).err with
    | some e => rw [h2 u e he hd]; exact Or.inr ⟨rfl, rfl⟩
    | none => rw [h3 u he hd]; exact Or.inl ⟨rfl, rfl⟩

/-- C4: each of `Web`, `DNS`, `Related`, `Full` and `Domains` returns exactly one of
a result and an error; when building the URL fails the result is nil and the
error is that failure, and when `do` fails (a decode failure that has filled
part of the target included) the result is nil and the error is the one `do`
returned. -/
theorem C4_result_or_error (c : Client) (dWeb : Decoder WebResponse)
    (dDNS : Decoder DNSResponse) (dRelated : Decoder RelatedResponse)
    (dFull : Decoder FullResponse) (dDomains : Decoder DomainsResponse) (domain : Str)
    (field : Field) (value : Str) (pager : Option Pager) :
    (ExactlyOne (c.Web dWeb domain) ∧ ExactlyOne (c.DNS dDNS domain) ∧
      ExactlyOne (c.Related dRelated domain) ∧ ExactlyOne (c.Full dFull domain) ∧
      ExactlyOne (c.Domains dDomains field value pager)) ∧
    ((∀ e, c.webEndpoint domain = .error e →
        (c.Web dWeb domain).result = none ∧ (c.Web dWeb domain).err = some e) ∧
      (∀ e, c.dnsEndpoint domain = .error e →
        (c.DNS dDNS domain).result = none ∧ (c.DNS dDNS domain).err = some e) ∧
      (∀ e, c.relatedEndpoint domain = .error e →
        (c.Related dRelated domain).result = none ∧ (c.Related dRelated domain).err = some e) ∧
      (∀ e, c.fullEndpoint domain = .error e →
        (c.Full dFull domain).result = none ∧ (c.Full dFull domain).err = some e) ∧
      (∀ e, c.domainsEndpoint field value pager = .error e →
        (c.Domains dDomains field value pager).result = none ∧
          (c.Domains dDomains field value pager).err = some e)) ∧
    ((∀ u e, c.webEndpoint domain = .ok u → (c.do dWeb u {}).err = some e →
        (c.Web dWeb domain).result = none ∧ (c.Web dWeb domain).err = some e) ∧
      (∀ u e, c.dnsEndpoint domain = .ok u → (c.do dDNS u {}).err = some e →
        (c.DNS dDNS domain).result = none ∧ (c.DNS dDNS domain).err = some e) ∧
      (∀ u e, c.relatedEndpoint domain = .ok u → (c.do dRelated u {}).err = some e →
        (c.Related dRelated domain).result = none ∧ (c.Related dRelated domain).err = some e) ∧
      (∀ u e, c.fullEndpoint domain = .ok u → (c.do dFull u {}).err = some e →
        (c.Full dFull domain).result = none ∧ (c.Full dFull domain).err = some e) ∧
      (∀ u e, c.domainsEndpoint field value pager = .ok u → (c.do dDomains u {}).err = some e →
        (c.Domains dDomains field value pager).result = none ∧
          (c.Domains dDomains field value pager).err = some e)) := by
  refine ⟨⟨Web_exactlyOne _ _ _, DNS_exactlyOne _ _ _, Related_exactlyOne _ _ _,
    Full_exactlyOne _ _ _, Domains_exactlyOne _ _ _ _ _⟩, ⟨?_, ?_, ?_, ?_, ?_⟩,
    ⟨?_, ?_, ?_, ?_, ?_⟩⟩
  · intro e h; rw [(Web_cases c dWeb domain).1 e h]; exact ⟨rfl, rfl⟩
  · intro e h; rw [(DNS_cases c dDNS domain).1 e h]; exact ⟨rfl, rfl⟩
  · intro e h; rw [(Related_cases c dRelated domain).1 e h]; exact ⟨rfl, rfl⟩
  · intro e h; rw [(Full_cases c dFull domain).1 e h]; exact ⟨rfl, rfl⟩
  · intro e h; rw [(Domains_cases c dDomains field value pager).1 e h]; exact ⟨rfl, rfl⟩
  · intro u e h h2; rw [(Web_cases c dWeb domain).2.1 u e h h2]; exact ⟨rfl, rfl⟩
  · intro u e h h2; rw [(DNS_cases c dDNS domain).2.1 u e h h2]; exact ⟨rfl, rfl⟩
  · intro u e h h2; rw [(Related_cases c dRelated domain).2.1 u e h h2]; exact ⟨rfl, rfl⟩
  · intro u e h h2; rw [(Full_cases c dFull domain).2.1 u e h h2]; exact ⟨rfl, rfl⟩
  · intro u e h h2; rw [(Domains_cases c dDomains field value pager).2.1 u e h h2]
    exact ⟨rfl, rfl⟩

/-- C4 where the decoder fills the target and then fails: `Web` returns a nil
result and the decoder's error. -/
theorem C4_result_or_error_witness :
    (Client.Web { token := str "secret", baseURL := defaultBase,
                  HTTPClient := fun _ => .ok ⟨200, ⟨str "\x7b", none⟩⟩ }
        (fun _ r => (some (.external 7), { r with Domain := str "partial" }))
        (str "example.com")).result = none ∧
      (Client.Web { token := str "secret", baseURL := defaultBase,
                    HTTPClient := fun _ => .ok ⟨200, ⟨str "\x7b", none⟩⟩ }
        (fun _ r => (some (.external 7), { r with Domain := str "partial" }))
        (str "example.com")).err = some (.external 7) :=
  (C4_result_or_error
    { token := str "secret", baseURL := defaultBase,
      HTTPClient := fun _ => .ok ⟨200, ⟨str "\x7b", none⟩⟩ }
    (fun _ r => (some (.external 7), { r with Domain := str "partial" }))
    (fun _ r => (none, r)) (fun _ r => (none, r)) (fun _ r => (none, r)) (fun _ r => (none, r))
    (str "example.com") NS (str "google.com") none).2.2.1
    { Scheme := str "https", Host := str "host.io", Path := str "/api/web/example.com" }
    (.external 7) (by decide!) (by decide!)

/-! ## Empty segments -/

theorem Web_sent (c : Client) (decode : Decoder WebResponse) (domain : Str) (u : URL)
    (req0 : Request) (h : c.webEndpoint domain = .ok u)
    (hn : NewRequestWithContext (str "GET") u.String [] = .ok req0) :
    (c.Web decode domain).sent = [withHeaders c.token req0] := by
  obtain ⟨_, h2, h3⟩ := Web_cases c decode domain
  cases hd : (c.do decode u ({} : WebResponse)).err with
  | some e => rw [h2 u e h hd]; exact do_sent c decode u _ req0 hn
  | none => rw [h3 u h hd]; exact do_sent c decode u _ req0 hn

theorem DNS_sent (c : Client) (decode : Decoder DNSResponse) (domain : Str) (u : URL)
    (req0 : Request) (h : c.dnsEndpoint domain = .ok u)
    (hn : NewRequestWithContext (str "GET") u.String [] = .ok req0) :
    (c.DNS decode domain).sent = [withHeaders c.token req0] := by
  obtain ⟨_, h2, h3⟩ := DNS_cases c decode domain
  cases hd : (c.do decode u ({} : DNSResponse)).err with
  | some e => rw [h2 u e h hd]; exact do_sent c decode u _ req0 hn
  | none => rw [h3 u h hd]; exact do_sent c decode u _ req0 hn

theorem Related_sent (c : Client) (decode : Decoder RelatedResponse) (domain : Str) (u : URL)
    (req0 : Request) (h : c.relatedEndpoint domain = .ok u)
    (hn : NewRequestWithContext (str "GET") u.String [] = .ok req0) :
    (c.Related decode domain).sent = [withHeaders c.token req0] := by
  obtain ⟨_, h2, h3⟩ := Related_cases c decode domain
  cases hd : (c.do decode u ({} : RelatedResponse)).err with
  | some e => rw [h2 u e h hd]; exact do_sent c decode u _ req0 hn
  | none => rw [h3 u h hd]; exact do_sent c decode u _ req0 hn

theorem Full_sent (c : Client) (decode : Decoder FullResponse) (domain : Str) (u : URL)
    (req0 : Request) (h : c.fullEndpoint domain = .ok u)
    (hn : NewRequestWithContext (str "GET") u.String [] = .ok req0) :
    (c.Full decode domain).sent = [withHeaders c.token req0] := by
  obtain ⟨_, h2, h3⟩ := Full_cases c decode domain
  cases hd : (c.do decode u ({} : FullResponse)).err with
  | some e => rw [h2 u e h hd]; exact do_sent c decode u _ req0 hn
  | none => rw [h3 u h hd]; exact do_sent c decode u _ req0 hn

theorem Domains_sent (c : Client) (decode : Decoder DomainsResponse) (field : Field) (value : Str) (pager : Option Pager) (u : URL)
    (req0 : Request) (h : c.domainsEndpoint field value pager = .ok u)
    (hn : NewRequestWithContext (str "GET") u.String [] = .ok req0) :
    (c.Domains decode field value pager).sent = [withHeaders c.token req0] := by
  obtain ⟨_, h2, h3⟩ := Domains_cases c decode field value pager
  cases hd : (c.do decode u ({} : DomainsResponse)).err with
  | some e => rw [h2 u e h hd]; exact do_sent c decode u _ req0 hn
  | none => rw [h3 u h hd]; exact do_sent c decode u _ req0 hn

theorem domains_empty_value_endpoint : ∀ F ∈ fieldConstants,
    defaultBase.Parse (Join [defaultBase.Path, str "domains", F, []]) =
      .ok { Scheme := str "https", Host := str "host.io", Path := str "/api/domains/" ++ F } := by
  decide!

theorem domains_empty_value_request : ∀ F ∈ fieldConstants,
    NewRequestWithContext (str "GET")
        (URL.String { Scheme := str "https", Host := str "host.io",
                      Path := str "/api/domains/" ++ F }) [] =
      .ok { Method := str "GET",
            URL := { Scheme := str "https", Host := str "host.io",
                     Path := str "/api/domains/" ++ F },
            Header := [], Body := [], Host := str "host.io" } := by
  decide!

theorem domains_empty_value_string : ∀ F ∈ fieldConstants,
    URL.String { Scheme := str "https", Host := str "host.io",
                 Path := str "/api/domains/" ++ F } = str "https://host.io/api/domains/" ++ F := by
  decide!

/-- C8, amended: an empty segment is not rejected; no operation checks its
arguments and no `InvalidArgument` error exists.  `path.Join` drops the empty
segment: for a client made by `NewClient`, the operations `Web`, `DNS`,
`Related` and `Full` with an empty domain build `https://host.io/api/web`,
`.../dns`, `.../related` and `.../full`, `Domains` with an empty value builds
`https://host.io/api/domains/F` for every `Field` constant `F` (and with an
empty field and the value `google.com`, `.../domains/google.com`), and each
call hands one request for that URL to the HTTP client. -/
theorem C8_empty_segment_accepted (token : Str) (transport : Request → Except Error Response)
    (dWeb : Decoder WebResponse) (dDNS : Decoder DNSResponse)
    (dRelated : Decoder RelatedResponse) (dFull : Decoder FullResponse)
    (dDomains : Decoder DomainsResponse) :
    ((NewClient token transport).Web dWeb []).sent.map (fun r => r.URL.String) =
        [str "https://host.io/api/web"] ∧
    ((NewClient token transport).DNS dDNS []).sent.map (fun r => r.URL.String) =
        [str "https://host.io/api/dns"] ∧
    ((NewClient token transport).Related dRelated []).sent.map (fun r => r.URL.String) =
        [str "https://host.io/api/related"] ∧
    ((NewClient token transport).Full dFull []).sent.map (fun r => r.URL.String) =
        [str "https://host.io/api/full"] ∧
    (∀ F ∈ fieldConstants,
      ((NewClient token transport).Domains dDomains F [] none).sent.map
          (fun r => r.URL.String) = [str "https://host.io/api/domains/" ++ F]) ∧
    ((NewClient token transport).Domains dDomains [] (str "google.com") none).sent.map
        (fun r => r.URL.String) = [str "https://host.io/api/domains/google.com"] := by
  refine ⟨?_, ?_, ?_, ?_, ?_, ?_⟩
  · have he : (NewClient token transport).webEndpoint [] =
        .ok { Scheme := str "https", Host := str "host.io", Path := str "/api/web" } := by
      unfold Client.webEndpoint
      rw [NewClient_baseURL]
      decide!
    rw [Web_sent _ _ _ _
      { Method := str "GET",
          URL := { Scheme := str "https", Host := str "host.io", Path := str "/api/web" },
          Header := [], Body := [], Host := str "host.io" } he (by decide!)]
    simp only [List.map_cons, List.map_nil, withHeaders]
    decide!
  · have he : (NewClient token transport).dnsEndpoint [] =
        .ok { Scheme := str "https", Host := str "host.io", Path := str "/api/dns" } := by
      unfold Client.dnsEndpoint
      rw [NewClient_baseURL]
      decide!
    rw [DNS_sent _ _ _ _
      { Method := str "GET",
          URL := { Scheme := str "https", Host := str "host.io", Path := str "/api/dns" },
          Header := [], Body := [], Host := str "host.io" } he (by decide!)]
    simp only [List.map_cons, List.map_nil, withHeaders]
    decide!
  · have he : (NewClient token transport).relatedEndpoint [] =
        .ok { Scheme := str "https", Host := str "host.io", Path := str "/api/related" } := by
      unfold Client.relatedEndpoint
      rw [NewClient_baseURL]
      decide!
    rw [Related_sent _ _ _ _
      { Method := str "GET",
          URL := { Scheme := str "https", Host := str "host.io", Path := str "/api/related" },
          Header := [], Body := [], Host := str "host.io" } he (by decide!)]
    simp only [List.map_cons, List.map_nil, withHeaders]
    decide!
  · have he : (NewClient token transport).fullEndpoint [] =
        .ok { Scheme := str "https", Host := str "host.io", Path := str "/api/full" } := by
      unfold Client.fullEndpoint
      rw [NewClient_baseURL]
      decide!
    rw [Full_sent _ _ _ _
      { Method := str "GET",
          URL := { Scheme := str "https", Host := str "host.io", Path := str "/api/full" },
          Header := [], Body := [], Host := str "host.io" } he (by decide!)]
    simp only [List.map_cons, List.map_nil, withHeaders]
    decide!
  · intro F hF
    have he : (NewClient token transport).domainsEndpoint F [] none =
        .ok { Scheme := str "https", Host := str "host.io",
              Path := str "/api/domains/" ++ F } := by
      unfold Client.domainsEndpoint
      rw [NewClient_baseURL, domains_empty_value_endpoint F hF]
    rw [Domains_sent _ _ _ _ _ _ _ he (domains_empty_value_request F hF)]
    simp only [List.map_cons, List.map_nil, withHeaders, domains_empty_value_string F hF]
  · have he : (NewClient token transport).domainsEndpoint [] (str "google.com") none =
        .ok { Scheme := str "https", Host := str "host.io", Path := str "/api/domains/google.com" } := by
      unfold Client.domainsEndpoint
      rw [NewClient_baseURL]
      decide!
    rw [Domains_sent _ _ _ _ _ _
      { Method := str "GET",
          URL := { Scheme := str "https", Host := str "host.io", Path := str "/api/domains/google.com" },
          Header := [], Body := [], Host := str "host.io" } he (by decide!)]
    simp only [List.map_cons, List.map_nil, withHeaders]
    decide!

/-- C8 as stated fails: with the default client, a server that answers 200 with
the body `{}` and the decoder's outcome on that body (no member to store, so
the target is left as it is and the error is nil), `Web` with an empty domain
returns a result and no error, and has handed one request to the HTTP client. -/
theorem C8_counterexample :
    (Client.Web (NewClient (str "secret") (fun _ => .ok ⟨200, ⟨str "\x7b\x7d", none⟩⟩))
        (fun _ r => (none, r)) []).err = none ∧
      (Client.Web (NewClient (str "secret") (fun _ => .ok ⟨200, ⟨str "\x7b\x7d", none⟩⟩))
        (fun _ r => (none, r)) []).result.isSome = true ∧
      ((Client.Web (NewClient (str "secret") (fun _ => .ok ⟨200, ⟨str "\x7b\x7d", none⟩⟩))
        (fun _ r => (none, r)) []).sent.map (fun r => r.URL.String)) =
        [str "https://host.io/api/web"] := by
  decide!

/-! ## Lemmas: the JSON codec -/

theorem decodeMembers_append_ok {T : Type} (names : List Str)
    (set : T → Nat → JSON → Except Error T) (a b : List (Str × JSON)) (r r1 : T)
    (h : decodeMembers names set a r = .ok r1) :
    decodeMembers names set (a ++ b) r = decodeMembers names set b r1 := by
  induction a generalizing r with
  | nil =>
    unfold decodeMembers at h
    injection h with h
    rw [h, List.nil_append]
  | cons kv a ih =>
    obtain ⟨k, v⟩ := kv
    rw [List.cons_append]
    unfold decodeMembers at h
    conv => lhs; unfold decodeMembers
    cases hf : findField names k with
    | none =>
      rw [hf] at h
      simp only at h ⊢
      exact ih r h
    | some i =>
      rw [hf] at h
      simp only at h ⊢
      cases hs : set r i v with
      | error e => rw [hs] at h; exact Except.noConfusion h
      | ok r2 =>
        rw [hs] at h
        simp only at h ⊢
        exact ih r2 h

theorem members_single {T : Type} (names : List Str) (set : T → Nat → JSON → Except Error T)
    (name : Str) (j : JSON) (i : Nat) (r r1 : T) (hf : findField names name = some i)
    (hs : set r i j = .ok r1) : decodeMembers names set [(name, j)] r = .ok r1 := by
  unfold decodeMembers
  simp only [hf, hs]
  unfold decodeMembers
  rfl

theorem members_decoded {T A : Type} (names : List Str) (set : T → Nat → JSON → Except Error T)
    (name : Str) (j : JSON) (i : Nat) (r : T) (dec : JSON → Except Error A) (upd : A → T)
    (x : A) (hf : findField names name = some i) (hset : ∀ j, set r i j = (dec j).map upd)
    (hrt : dec j = .ok x) : decodeMembers names set [(name, j)] r = .ok (upd x) := by
  apply members_single names set name j i r _ hf
  rw [hset, hrt]
  rfl

theorem members_omitString {T : Type} (names : List Str)
    (set : T → Nat → JSON → Except Error T) (name : Str) (i : Nat) (r : T) (upd : Str → T)
    (s : Str) (hf : findField names name = some i)
    (hset : ∀ j, set r i j = (decodeString j []).map upd) (hid : upd [] = r)
    (hv : ValidString s) : decodeMembers names set (omitString name s) r = .ok (upd s) := by
  unfold omitString
  by_cases hs : s = []
  · rw [if_pos hs, hs, hid]
    rfl
  · rw [if_neg hs]
    apply members_decoded names set name _ i r _ upd s hf hset
    rw [hv]
    rfl

theorem members_omitInt {T : Type} (names : List Str)
    (set : T → Nat → JSON → Except Error T) (name : Str) (i : Nat) (r : T) (upd : Int → T)
    (n : Int) (hf : findField names name = some i)
    (hset : ∀ j, set r i j = (decodeInt j 0).map upd) (hid : upd 0 = r) :
    decodeMembers names set (omitInt name n) r = .ok (upd n) := by
  unfold omitInt
  by_cases hn : n = 0
  · rw [if_pos hn, hn, hid]
    rfl
  · rw [if_neg hn]
    exact members_decoded names set name _ i r _ upd n hf hset rfl

theorem decodeElems_map {A : Type} (dec : JSON → Except Error A) (enc : A → JSON)
    (l : List A) (h : ∀ x ∈ l, dec (enc x) = .ok x) : decodeElems dec (l.map enc) = .ok l := by
  induction l with
  | nil => rfl
  | cons x l ih =>
    rw [List.map_cons]
    unfold decodeElems
    rw [h x (List.mem_cons_self _ _), ih (fun y hy => h y (List.mem_cons_of_mem _ hy))]

theorem members_omitStrings {T : Type} (names : List Str)
    (set : T → Nat → JSON → Except Error T) (name : Str) (i : Nat) (r : T)
    (upd : Slice Str → T) (s : Slice Str) (hf : findField names name = some i)
    (hset : ∀ j, set r i j = (decodeStrings j).map upd) (hid : upd none = r)
    (hc : CanonStrings s) : decodeMembers names set (omitStrings name s) r = .ok (upd s) := by
  cases s with
  | none =>
    unfold omitStrings
    rw [hid]
    rfl
  | some l =>
    cases l with
    | nil => exact absurd rfl hc.1
    | cons x l =>
      unfold omitStrings
      apply members_decoded names set name _ i r _ upd _ hf hset
      unfold decodeStrings
      simp only
      rw [decodeElems_map (fun j => decodeString j []) (fun y => JSON.string (toValidUTF8 y))
        (x :: l) (by
          intro y hy
          have hy' : toValidUTF8 y = y := hc.2 y hy
          simp only [hy']
          rfl)]

theorem RelatedDomain_roundtrip (v : RelatedDomain) (hc : RelatedDomain.Canon v) :
    unmarshalRelatedDomain (marshalRelatedDomain v) {} = .ok v := by
  have hValue := hc
  unfold unmarshalRelatedDomain marshalRelatedDomain decodeStruct
  simp only [List.append_assoc]
  rw [decodeMembers_append_ok _ _ _ _ _ _
    (members_omitString RelatedDomain.names (RelatedDomain.set) (str "value") 0
      ({} : RelatedDomain)
      (fun x => ({ Value := x } : RelatedDomain))
      v.Value (by decide!) (fun _ => rfl) rfl hValue)]
  rw [members_omitInt RelatedDomain.names (RelatedDomain.set) (str "count") 1
      ({ Value := v.Value } : RelatedDomain)
      (fun x => ({ Value := v.Value, Count := x } : RelatedDomain))
      v.Count (by decide!) (fun _ => rfl) rfl]

theorem ASNInfo_roundtrip (v : ASNInfo) (hc : ASNInfo.Canon v) :
    unmarshalASNInfo (marshalASNInfo v) {} = .ok v := by
  obtain ⟨hASN, hName, hDomain, hRoute, hType_⟩ := hc
  unfold unmarshalASNInfo marshalASNInfo decodeStruct
  simp only [List.append_assoc]
  rw [decodeMembers_append_ok _ _ _ _ _ _
    (members_omitString ASNInfo.names (ASNInfo.set) (str "asn") 0
      ({} : ASNInfo)
      (fun x => ({ ASN := x } : ASNInfo))
      v.ASN (by decide!) (fun _ => rfl) rfl hASN)]
  rw [decodeMembers_append_ok _ _ _ _ _ _
    (members_omitString ASNInfo.names (ASNInfo.set) (str "name") 1
      ({ ASN := v.ASN } : ASNInfo)
      (fun x => ({ ASN := v.ASN, Name := x } : ASNInfo))
      v.Name (by decide!) (fun _ => rfl) rfl hName)]
  rw [decodeMembers_append_ok _ _ _ _ _ _
    (members_omitString ASNInfo.names (ASNInfo.set) (str "domain") 2
      ({ ASN := v.ASN, Name := v.Name } : ASNInfo)
      (fun x => ({ ASN := v.ASN, Name := v.Name, Domain := x } : ASNInfo))
      v.Domain (by decide!) (fun _ => rfl) rfl hDomain)]
  rw [decodeMembers_append_ok _ _ _ _ _ _
    (members_omitString ASNInfo.names (ASNInfo.set) (str "route") 3
      ({ ASN := v.ASN, Name := v.Name, Domain := v.Domain } : ASNInfo)
      (fun x => ({ ASN := v.ASN, Name := v.Name, Domain := v.Domain, Route := x } : ASNInfo))
      v.Route (by decide!) (fun _ => rfl) rfl hRoute)]
  rw [members_omitString ASNInfo.names (ASNInfo.set) (str "type") 4
      ({ ASN := v.ASN, Name := v.Name, Domain := v.Domain, Route := v.Route } : ASNInfo)
      (fun x => ({ ASN := v.ASN, Name := v.Name, Domain := v.Domain, Route := v.Route, Type_ := x } : ASNInfo))
      v.Type_ (by decide!) (fun _ => rfl) rfl hType_]

theorem members_omitRelated {T : Type} (names : List Str)
    (set : T → Nat → JSON → Except Error T) (name : Str) (i : Nat) (r : T)
    (upd : Slice RelatedDomain → T) (s : Slice RelatedDomain)
    (hf : findField names name = some i)
    (hset : ∀ j, set r i j = (decodeRelatedDomains j).map upd) (hid : upd none = r)
    (hc : CanonRelated s) :
    decodeMembers names set (omitRelatedDomains name s) r = .ok (upd s) := by
  cases s with
  | none =>
    unfold omitRelatedDomains
    rw [hid]
    rfl
  | some l =>
    cases l with
    | nil => exact absurd rfl hc.1
    | cons x l =>
      unfold omitRelatedDomains
      apply members_decoded names set name _ i r _ upd _ hf hset
      unfold decodeRelatedDomains
      simp only
      rw [decodeElems_map (fun j => unmarshalRelatedDomain j {}) marshalRelatedDomain (x :: l)
        (fun y hy => RelatedDomain_roundtrip y (hc.2 y hy))]

theorem strLess_irrefl (a : Str) : strLess a a = false := by
  induction a with
  | nil => rfl
  | cons x a ih =>
    unfold strLess
    simp [ih]

theorem strLess_asymm (a b : Str) (h : strLess a b = true) : strLess b a = false := by
  induction a generalizing b with
  | nil =>
    cases b with
    | nil => exact absurd h (by decide)
    | cons y b => rfl
  | cons x a ih =>
    cases b with
    | nil => exact absurd h (by unfold strLess; decide)
    | cons y b =>
      unfold strLess at h ⊢
      by_cases h1 : x < y
      · have h2 : ¬ y < x := by omega
        simp only [h2, if_false, h1, if_true]
      · by_cases h2 : y < x
        · simp only [h1, h2, if_false, if_true] at h
          exact absurd h (by decide)
        · simp only [h1, h2, if_false] at h ⊢
          exact ih b h

theorem mapSet_append {T : Type} (k : Str) (x : T) (acc : List (Str × T))
    (h : ∀ kv ∈ acc, strLess kv.1 k = true) : mapSet k x acc = acc ++ [(k, x)] := by
  induction acc with
  | nil => rfl
  | cons e acc ih =>
    obtain ⟨k0, y⟩ := e
    have h0 : strLess k0 k = true := h (k0, y) (List.mem_cons_self _ _)
    have hne : ¬ (k = k0) := by
      intro e
      rw [e, strLess_irrefl] at h0
      exact Bool.noConfusion h0
    have hlt : strLess k k0 = false := strLess_asymm k0 k h0
    unfold mapSet
    rw [if_neg hne, hlt]
    simp only [Bool.false_eq_true, if_false, List.cons_append]
    rw [ih (fun kv hkv => h kv (List.mem_cons_of_mem _ hkv))]

theorem decodeIPInfoEntries_roundtrip (l acc : List (Str × IPInfo))
    (hv : ∀ kv ∈ l, ValidString kv.1 ∧ kv.2.Canon)
    (hp : (acc ++ l).Pairwise (fun a b => strLess a.1 b.1 = true))
    (hrt : ∀ x : IPInfo, x.Canon → unmarshalIPInfo (marshalIPInfo x) {} = .ok x) :
    decodeIPInfoEntries (l.map (fun kv => (toValidUTF8 kv.1, marshalIPInfo kv.2))) acc =
      .ok (acc ++ l) := by
  induction l generalizing acc with
  | nil => simp [decodeIPInfoEntries]
  | cons e l ih =>
    obtain ⟨k, x⟩ := e
    have hk := hv (k, x) (List.mem_cons_self _ _)
    have hkv : toValidUTF8 k = k := hk.1
    rw [List.map_cons]
    unfold decodeIPInfoEntries
    simp only [hkv, hrt x hk.2]
    have hless : ∀ kv ∈ acc, strLess kv.1 k = true := by
      intro kv hkv'
      have := List.pairwise_append.mp hp
      exact this.2.2 kv hkv' (k, x) (List.mem_cons_self _ _)
    rw [mapSet_append k x acc hless,
      ih (acc ++ [(k, x)]) (fun kv hkv' => hv kv (List.mem_cons_of_mem _ hkv'))
        (by simpa [List.append_assoc] using hp)]
    simp

theorem IPInfo_roundtrip (v : IPInfo) (hc : IPInfo.Canon v) :
    unmarshalIPInfo (marshalIPInfo v) {} = .ok v := by
  obtain ⟨hCity, hRegion, hCountry, hLoc, hPostal, hTimezone, hASN⟩ := hc
  unfold unmarshalIPInfo marshalIPInfo decodeStruct
  simp only [List.append_assoc]
  rw [decodeMembers_append_ok _ _ _ _ _ _
    (members_omitString IPInfo.names (IPInfo.set) (str "city") 0
      ({} : IPInfo)
      (fun x => ({ City := x } : IPInfo))
      v.City (by decide!) (fun _ => rfl) rfl hCity)]
  rw [decodeMembers_append_ok _ _ _ _ _ _
    (members_omitString IPInfo.names (IPInfo.set) (str "region") 1
      ({ City := v.City } : IPInfo)
      (fun x => ({ City := v.City, Region := x } : IPInfo))
      v.Region (by decide!) (fun _ => rfl) rfl hRegion)]
  rw [decodeMembers_append_ok _ _ _ _ _ _
    (members_omitString IPInfo.names (IPInfo.set) (str "country") 2
      ({ City := v.City, Region := v.Region } : IPInfo)
      (fun x => ({ City := v.City, Region := v.Region, Country := x } : IPInfo))
      v.Country (by decide!) (fun _ => rfl) rfl hCountry)]
  rw [decodeMembers_append_ok _ _ _ _ _ _
    (members_omitString IPInfo.names (IPInfo.set) (str "loc") 3
      ({ City := v.City, Region := v.Region, Country := v.Country } : IPInfo)
      (fun x => ({ City := v.City, Region := v.Region, Country := v.Country, Loc := x } : IPInfo))
      v.Loc (by decide!) (fun _ => rfl) rfl hLoc)]
  rw [decodeMembers_append_ok _ _ _ _ _ _
    (members_omitString IPInfo.names (IPInfo.set) (str "postal") 4
      ({ City := v.City, Region := v.Region, Country := v.Country, Loc := v.Loc } : IPInfo)
      (fun x => ({ City := v.City, Region := v.Region, Country := v.Country, Loc := v.Loc, Postal := x } : IPInfo))
      v.Postal (by decide!) (fun _ => rfl) rfl hPostal)]
  rw [decodeMembers_append_ok _ _ _ _ _ _
    (members_omitString IPInfo.names (IPInfo.set) (str "timezone") 5
      ({ City := v.City, Region := v.Region, Country := v.Country, Loc := v.Loc, Postal := v.Postal } : IPInfo)
      (fun x => ({ City := v.City, Region := v.Region, Country := v.Country, Loc := v.Loc, Postal := v.Postal, Timezone := x } : IPInfo))
      v.Timezone (by decide!) (fun _ => rfl) rfl hTimezone)]
  rw [members_decoded IPInfo.names (IPInfo.set) (str "asn") (marshalASNInfo v.ASN) 6
      ({ City := v.City, Region := v.Region, Country := v.Country, Loc := v.Loc, Postal := v.Postal, Timezone := v.Timezone } : IPInfo)
      (fun j => unmarshalASNInfo j {})
      (fun x => ({ City := v.City, Region := v.Region, Country := v.Country, Loc := v.Loc, Postal := v.Postal, Timezone := v.Timezone, ASN := x } : IPInfo))
      v.ASN (by decide!) (fun _ => rfl) (ASNInfo_roundtrip v.ASN hASN)]


theorem members_omitIPInfoMap {T : Type} (names : List Str)
    (set : T → Nat → JSON → Except Error T) (name : Str) (i : Nat) (r : T)
    (upd : Option (List (Str × IPInfo)) → T) (m : Option (List (Str × IPInfo)))
    (hf : findField names name = some i)
    (hset : ∀ j, set r i j = (decodeIPInfoMap j none).map upd) (hid : upd none = r)
    (hc : CanonIPInfoMap m) :
    decodeMembers names set (omitIPInfoMap name m) r = .ok (upd m) := by
  cases m with
  | none =>
    unfold omitIPInfoMap
    rw [hid]
    rfl
  | some l =>
    cases l with
    | nil => exact absurd rfl hc.1
    | cons e l =>
      unfold omitIPInfoMap
      apply members_decoded names set name _ i r _ upd _ hf hset
      unfold decodeIPInfoMap
      simp only [Option.getD_none]
      rw [decodeIPInfoEntries_roundtrip (e :: l) [] hc.2.1 (by simpa using hc.2.2)
        IPInfo_roundtrip]
      rfl

theorem DNSResponse_roundtrip (v : DNSResponse) (hc : DNSResponse.Canon v) :
    unmarshalDNSResponse (marshalDNSResponse v) {} = .ok v := by
  obtain ⟨hDomain, hA, hAAAA, hMX, hNS⟩ := hc
  unfold unmarshalDNSResponse marshalDNSResponse decodeStruct
  simp only [List.append_assoc]
  rw [decodeMembers_append_ok _ _ _ _ _ _
    (members_omitString DNSResponse.names (DNSResponse.set) (str "domain") 0
      ({} : DNSResponse)
      (fun x => ({ Domain := x } : DNSResponse))
      v.Domain (by decide!) (fun _ => rfl) rfl hDomain)]
  rw [decodeMembers_append_ok _ _ _ _ _ _
    (members_omitStrings DNSResponse.names (DNSResponse.set) (str "a") 1
      ({ Domain := v.Domain } : DNSResponse)
      (fun x => ({ Domain := v.Domain, A := x } : DNSResponse))
      v.A (by decide!) (fun _ => rfl) rfl hA)]
  rw [decodeMembers_append_ok _ _ _ _ _ _
    (members_omitStrings DNSResponse.names (DNSResponse.set) (str "aaaa") 2
      ({ Domain := v.Domain, A := v.A } : DNSResponse)
      (fun x => ({ Domain := v.Domain, A := v.A, AAAA := x } : DNSResponse))
      v.AAAA (by decide!) (fun _ => rfl) rfl hAAAA)]
  rw [decodeMembers_append_ok _ _ _ _ _ _
    (members_omitStrings DNSResponse.names (DNSResponse.set) (str "mx") 3
      ({ Domain := v.Domain, A := v.A, AAAA := v.AAAA } : DNSResponse)
      (fun x => ({ Domain := v.Domain, A := v.A, AAAA := v.AAAA, MX := x } : DNSResponse))
      v.MX (by decide!) (fun _ => rfl) rfl hMX)]
  rw [members_omitStrings DNSResponse.names (DNSResponse.set) (str "ns") 4
      ({ Domain := v.Domain, A := v.A, AAAA := v.AAAA, MX := v.MX } : DNSResponse)
      (fun x => ({ Domain := v.Domain, A := v.A, AAAA := v.AAAA, MX := v.MX, NS := x } : DNSResponse))
      v.NS (by decide!) (fun _ => rfl) rfl hNS]

theorem RelatedResponse_roundtrip (v : RelatedResponse) (hc : RelatedResponse.Canon v) :
    unmarshalRelatedResponse (marshalRelatedResponse v) {} = .ok v := by
  obtain ⟨hIP, hRedirects, hASN, hBacklinks, hMX, hNS⟩ := hc
  unfold unmarshalRelatedResponse marshalRelatedResponse decodeStruct
  simp only [List.append_assoc]
  rw [decodeMembers_append_ok _ _ _ _ _ _
    (members_omitRelated RelatedResponse.names (RelatedResponse.set) (str "ip") 0
      ({} : RelatedResponse)
      (fun x => ({ IP := x } : RelatedResponse))
      v.IP (by decide!) (fun _ => rfl) rfl hIP)]
  rw [decodeMembers_append_ok _ _ _ _ _ _
    (members_omitRelated RelatedResponse.names (RelatedResponse.set) (str "redirects") 1
      ({ IP := v.IP } : RelatedResponse)
      (fun x => ({ IP := v.IP, Redirects := x } : RelatedResponse))
      v.Redirects (by decide!) (fun _ => rfl) rfl hRedirects)]
  rw [decodeMembers_append_ok _ _ _ _ _ _
    (members_omitRelated RelatedResponse.names (RelatedResponse.set) (str "asn") 2
      ({ IP := v.IP, Redirects := v.Redirects } : RelatedResponse)
      (fun x => ({ IP := v.IP, Redirects := v.Redirects, ASN := x } : RelatedResponse))
      v.ASN (by decide!) (fun _ => rfl) rfl hASN)]
  rw [decodeMembers_append_ok _ _ _ _ _ _
    (members_omitRelated RelatedResponse.names (RelatedResponse.set) (str "backlinks") 3
      ({ IP := v.IP, Redirects := v.Redirects, ASN := v.ASN } : RelatedResponse)
      (fun x => ({ IP := v.IP, Redirects := v.Redirects, ASN := v.ASN, Backlinks := x } : RelatedResponse))
      v.Backlinks (by decide!) (fun _ => rfl) rfl hBacklinks)]
  rw [decodeMembers_append_ok _ _ _ _ _ _
    (members_omitRelated RelatedResponse.names (RelatedResponse.set) (str "mx") 4
      ({ IP := v.IP, Redirects := v.Redirects, ASN := v.ASN, Backlinks := v.Backlinks } : RelatedResponse)
      (fun x => ({ IP := v.IP, Redirects := v.Redirects, ASN := v.ASN, Backlinks := v.Backlinks, MX := x } : RelatedResponse))
      v.MX (by decide!) (fun _ => rfl) rfl hMX)]
  rw [members_omitRelated RelatedResponse.names (RelatedResponse.set) (str "ns") 5
      ({ IP := v.IP, Redirects := v.Redirects, ASN := v.ASN, Backlinks := v.Backlinks, MX := v.MX } : RelatedResponse)
      (fun x => ({ IP := v.IP, Redirects := v.Redirects, ASN := v.ASN, Backlinks := v.Backlinks, MX := v.MX, NS := x } : RelatedResponse))
      v.NS (by decide!) (fun _ => rfl) rfl hNS]

theorem WebResponse_roundtrip (tc : TimeCodec) (v : WebResponse) (hc : WebResponse.Canon tc v) :
    ∃ j, marshalWebResponse tc v = .ok j ∧ unmarshalWebResponse tc j {} = .ok v := by
  obtain ⟨hDomain, hURL, hIP, hDate, hEncoding, hCopyright, hTitle, hDescription, hLinks⟩ := hc
  obtain ⟨date, hm, hu⟩ := hDate
  unfold marshalWebResponse
  rw [hm]
  refine ⟨_, rfl, ?_⟩
  unfold unmarshalWebResponse decodeStruct
  simp only [List.append_assoc]
  rw [decodeMembers_append_ok _ _ _ _ _ _
    (members_omitString WebResponse.names (WebResponse.set tc) (str "domain") 0
      ({} : WebResponse)
      (fun x => ({ Domain := x } : WebResponse))
      v.Domain (by decide!) (fun _ => rfl) rfl hDomain)]
  rw [decodeMembers_append_ok _ _ _ _ _ _
    (members_omitInt WebResponse.names (WebResponse.set tc) (str "rank") 1
      ({ Domain := v.Domain } : WebResponse)
      (fun x => ({ Domain := v.Domain, Rank := x } : WebResponse))
      v.Rank (by decide!) (fun _ => rfl) rfl)]
  rw [decodeMembers_append_ok _ _ _ _ _ _
    (members_omitString WebResponse.names (WebResponse.set tc) (str "url") 2
      ({ Domain := v.Domain, Rank := v.Rank } : WebResponse)
      (fun x => ({ Domain := v.Domain, Rank := v.Rank, URL := x } : WebResponse))
      v.URL (by decide!) (fun _ => rfl) rfl hURL)]
  rw [decodeMembers_append_ok _ _ _ _ _ _
    (members_omitString WebResponse.names (WebResponse.set tc) (str "ip") 3
      ({ Domain := v.Domain, Rank := v.Rank, URL := v.URL } : WebResponse)
      (fun x => ({ Domain := v.Domain, Rank := v.Rank, URL := v.URL, IP := x } : WebResponse))
      v.IP (by decide!) (fun _ => rfl) rfl hIP)]
  rw [decodeMembers_append_ok _ _ _ _ _ _
    (members_decoded WebResponse.names (WebResponse.set tc) (str "date") (.string date) 4
      ({ Domain := v.Domain, Rank := v.Rank, URL := v.URL, IP := v.IP } : WebResponse)
      (fun j => decodeTime tc j {})
      (fun x => ({ Domain := v.Domain, Rank := v.Rank, URL := v.URL, IP := v.IP, Date := x } : WebResponse))
      v.Date (by decide!) (fun _ => rfl) hu)]
  rw [decodeMembers_append_ok _ _ _ _ _ _
    (members_omitInt WebResponse.names (WebResponse.set tc) (str "length") 5
      ({ Domain := v.Domain, Rank := v.Rank, URL := v.URL, IP := v.IP, Date := v.Date } : WebResponse)
      (fun x => ({ Domain := v.Domain, Rank := v.Rank, URL := v.URL, IP := v.IP, Date := v.Date, Length := x } : WebResponse))
      v.Length (by decide!) (fun _ => rfl) rfl)]
  rw [decodeMembers_append_ok _ _ _ _ _ _
    (members_omitString WebResponse.names (WebResponse.set tc) (str "encoding") 6
      ({ Domain := v.Domain, Rank := v.Rank, URL := v.URL, IP := v.IP, Date := v.Date, Length := v.Length } : WebResponse)
      (fun x => ({ Domain := v.Domain, Rank := v.Rank, URL := v.URL, IP := v.IP, Date := v.Date, Length := v.Length, Encoding := x } : WebResponse))
      v.Encoding (by decide!) (fun _ => rfl) rfl hEncoding)]
  rw [decodeMembers_append_ok _ _ _ _ _ _
    (members_omitString WebResponse.names (WebResponse.set tc) (str "copyright") 7
      ({ Domain := v.Domain, Rank := v.Rank, URL := v.URL, IP := v.IP, Date := v.Date, Length := v.Length, Encoding := v.Encoding } : WebResponse)
      (fun x => ({ Domain := v.Domain, Rank := v.Rank, URL := v.URL, IP := v.IP, Date := v.Date, Length := v.Length, Encoding := v.Encoding, Copyright := x } : WebResponse))
      v.Copyright (by decide!) (fun _ => rfl) rfl hCopyright)]
  rw [decodeMembers_append_ok _ _ _ _ _ _
    (members_omitString WebResponse.names (WebResponse.set tc) (str "title") 8
      ({ Domain := v.Domain, Rank := v.Rank, URL := v.URL, IP := v.IP, Date := v.Date, Length := v.Length, Encoding := v.Encoding, Copyright := v.Copyright } : WebResponse)
      (fun x => ({ Domain := v.Domain, Rank := v.Rank, URL := v.URL, IP := v.IP, Date := v.Date, Length := v.Length, Encoding := v.Encoding, Copyright := v.Copyright, Title := x } : WebResponse))
      v.Title (by decide!) (fun _ => rfl) rfl hTitle)]
  rw [decodeMembers_append_ok _ _ _ _ _ _
    (members_omitString WebResponse.names (WebResponse.set tc) (str "description") 9
      ({ Domain := v.Domain, Rank := v.Rank, URL := v.URL, IP := v.IP, Date := v.Date, Length := v.Length, Encoding := v.Encoding, Copyright := v.Copyright, Title := v.Title } : WebResponse)
      (fun x => ({ Domain := v.Domain, Rank := v.Rank, URL := v.URL, IP := v.IP, Date := v.Date, Length := v.Length, Encoding := v.Encoding, Copyright := v.Copyright, Title := v.Title, Description := x } : WebResponse))
      v.Description (by decide!) (fun _ => rfl) rfl hDescription)]
  rw [members_omitStrings WebResponse.names (WebResponse.set tc) (str "links") 10
      ({ Domain := v.Domain, Rank := v.Rank, URL := v.URL, IP := v.IP, Date := v.Date, Length := v.Length, Encoding := v.Encoding, Copyright := v.Copyright, Title := v.Title, Description := v.Description } : WebResponse)
      (fun x => ({ Domain := v.Domain, Rank := v.Rank, URL := v.URL, IP := v.IP, Date := v.Date, Length := v.Length, Encoding := v.Encoding, Copyright := v.Copyright, Title := v.Title, Description := v.Description, Links := x } : WebResponse))
      v.Links (by decide!) (fun _ => rfl) rfl hLinks]

theorem DomainsResponse_roundtrip (v : DomainsResponse) (hc : DomainsResponse.Canon v) :
    unmarshalDomainsResponse (marshalDomainsResponse v) {} = .ok v := by
  obtain ⟨hIP, hNS, hMX, hASN, hBacklinks, hRedirects, hAdsense, hFacebook, hTwitter, hInstagram, hGTM, hGoogleAnalytics, hEmail, hDomains⟩ := hc
  unfold unmarshalDomainsResponse marshalDomainsResponse decodeStruct
  simp only [List.append_assoc]
  rw [decodeMembers_append_ok _ _ _ _ _ _
    (members_omitString DomainsResponse.names (DomainsResponse.set) (str "ip") 0
      ({} : DomainsResponse)
      (fun x => ({ IP := x } : DomainsResponse))
      v.IP (by decide!) (fun _ => rfl) rfl hIP)]
  rw [decodeMembers_append_ok _ _ _ _ _ _
    (members_omitString DomainsResponse.names (DomainsResponse.set) (str "ns") 1
      ({ IP := v.IP } : DomainsResponse)
      (fun x => ({ IP := v.IP, NS := x } : DomainsResponse))
      v.NS (by decide!) (fun _ => rfl) rfl hNS)]
  rw [decodeMembers_append_ok _ _ _ _ _ _
    (members_omitString DomainsResponse.names (DomainsResponse.set) (str "mx") 2
      ({ IP := v.IP, NS := v.NS } : DomainsResponse)
      (fun x => ({ IP := v.IP, NS := v.NS, MX := x } : DomainsResponse))
      v.MX (by decide!) (fun _ => rfl) rfl hMX)]
  rw [decodeMembers_append_ok _ _ _ _ _ _
    (members_omitString DomainsResponse.names (DomainsResponse.set) (str "asn") 3
      ({ IP := v.IP, NS := v.NS, MX := v.MX } : DomainsResponse)
      (fun x => ({ IP := v.IP, NS := v.NS, MX := v.MX, ASN := x } : DomainsResponse))
      v.ASN (by decide!) (fun _ => rfl) rfl hASN)]
  rw [decodeMembers_append_ok _ _ _ _ _ _
    (members_omitStrings DomainsResponse.names (DomainsResponse.set) (str "backlinks") 4
      ({ IP := v.IP, NS := v.NS, MX := v.MX, ASN := v.ASN } : DomainsResponse)
      (fun x => ({ IP := v.IP, NS := v.NS, MX := v.MX, ASN := v.ASN, Backlinks := x } : DomainsResponse))
      v.Backlinks (by decide!) (fun _ => rfl) rfl hBacklinks)]
  rw [decodeMembers_append_ok _ _ _ _ _ _
    (members_omitStrings DomainsResponse.names (DomainsResponse.set) (str "redirects") 5
      ({ IP := v.IP, NS := v.NS, MX := v.MX, ASN := v.ASN, Backlinks := v.Backlinks } : DomainsResponse)
      (fun x => ({ IP := v.IP, NS := v.NS, MX := v.MX, ASN := v.ASN, Backlinks := v.Backlinks, Redirects := x } : DomainsResponse))
      v.Redirects (by decide!) (fun _ => rfl) rfl hRedirects)]
  rw [decodeMembers_append_ok _ _ _ _ _ _
    (members_omitStrings DomainsResponse.names (DomainsResponse.set) (str "adsense") 6
      ({ IP := v.IP, NS := v.NS, MX := v.MX, ASN := v.ASN, Backlinks := v.Backlinks, Redirects := v.Redirects } : DomainsResponse)
      (fun x => ({ IP := v.IP, NS := v.NS, MX := v.MX, ASN := v.ASN, Backlinks := v.Backlinks, Redirects := v.Redirects, Adsense := x } : DomainsResponse))
      v.Adsense (by decide!) (fun _ => rfl) rfl hAdsense)]
  rw [decodeMembers_append_ok _ _ _ _ _ _
    (members_omitString DomainsResponse.names (DomainsResponse.set) (str "facebook") 7
      ({ IP := v.IP, NS := v.NS, MX := v.MX, ASN := v.ASN, Backlinks := v.Backlinks, Redirects := v.Redirects, Adsense := v.Adsense } : DomainsResponse)
      (fun x => ({ IP := v.IP, NS := v.NS, MX := v.MX, ASN := v.ASN, Backlinks := v.Backlinks, Redirects := v.Redirects, Adsense := v.Adsense, Facebook := x } : DomainsResponse))
      v.Facebook (by decide!) (fun _ => rfl) rfl hFacebook)]
  rw [decodeMembers_append_ok _ _ _ _ _ _
    (members_omitString DomainsResponse.names (DomainsResponse.set) (str "twitter") 8
      ({ IP := v.IP, NS := v.NS, MX := v.MX, ASN := v.ASN, Backlinks := v.Backlinks, Redirects := v.Redirects, Adsense := v.Adsense, Facebook := v.Facebook } : DomainsResponse)
      (fun x => ({ IP := v.IP, NS := v.NS, MX := v.MX, ASN := v.ASN, Backlinks := v.Backlinks, Redirects := v.Redirects, Adsense := v.Adsense, Facebook := v.Facebook, Twitter := x } : DomainsResponse))
      v.Twitter (by decide!) (fun _ => rfl) rfl hTwitter)]
  rw [decodeMembers_append_ok _ _ _ _ _ _
    (members_omitString DomainsResponse.names (DomainsResponse.set) (str "instagram") 9
      ({ IP := v.IP, NS := v.NS, MX := v.MX, ASN := v.ASN, Backlinks := v.Backlinks, Redirects := v.Redirects, Adsense := v.Adsense, Facebook := v.Facebook, Twitter := v.Twitter } : DomainsResponse)
      (fun x => ({ IP := v.IP, NS := v.NS, MX := v.MX, ASN := v.ASN, Backlinks := v.Backlinks, Redirects := v.Redirects, Adsense := v.Adsense, Facebook := v.Facebook, Twitter := v.Twitter, Instagram := x } : DomainsResponse))
      v.Instagram (by decide!) (fun _ => rfl) rfl hInstagram)]
  rw [decodeMembers_append_ok _ _ _ _ _ _
    (members_omitString DomainsResponse.names (DomainsResponse.set) (str "gtm") 10
      ({ IP := v.IP, NS := v.NS, MX := v.MX, ASN := v.ASN, Backlinks := v.Backlinks, Redirects := v.Redirects, Adsense := v.Adsense, Facebook := v.Facebook, Twitter := v.Twitter, Instagram := v.Instagram } : DomainsResponse)
      (fun x => ({ IP := v.IP, NS := v.NS, MX := v.MX, ASN := v.ASN, Backlinks := v.Backlinks, Redirects := v.Redirects, Adsense := v.Adsense, Facebook := v.Facebook, Twitter := v.Twitter, Instagram := v.Instagram, GTM := x } : DomainsResponse))
      v.GTM (by decide!) (fun _ => rfl) rfl hGTM)]
  rw [decodeMembers_append_ok _ _ _ _ _ _
    (members_omitString DomainsResponse.names (DomainsResponse.set) (str "googleanalytics") 11
      ({ IP := v.IP, NS := v.NS, MX := v.MX, ASN := v.ASN, Backlinks := v.Backlinks, Redirects := v.Redirects, Adsense := v.Adsense, Facebook := v.Facebook, Twitter := v.Twitter, Instagram := v.Instagram, GTM := v.GTM } : DomainsResponse)
      (fun x => ({ IP := v.IP, NS := v.NS, MX := v.MX, ASN := v.ASN, Backlinks := v.Backlinks, Redirects := v.Redirects, Adsense := v.Adsense, Facebook := v.Facebook, Twitter := v.Twitter, Instagram := v.Instagram, GTM := v.GTM, GoogleAnalytics := x } : DomainsResponse))
      v.GoogleAnalytics (by decide!) (fun _ => rfl) rfl hGoogleAnalytics)]
  rw [decodeMembers_append_ok _ _ _ _ _ _
    (members_omitString DomainsResponse.names (DomainsResponse.set) (str "email") 12
      ({ IP := v.IP, NS := v.NS, MX := v.MX, ASN := v.ASN, Backlinks := v.Backlinks, Redirects := v.Redirects, Adsense := v.Adsense, Facebook := v.Facebook, Twitter := v.Twitter, Instagram := v.Instagram, GTM := v.GTM, GoogleAnalytics := v.GoogleAnalytics } : DomainsResponse)
      (fun x => ({ IP := v.IP, NS := v.NS, MX := v.MX, ASN := v.ASN, Backlinks := v.Backlinks, Redirects := v.Redirects, Adsense := v.Adsense, Facebook := v.Facebook, Twitter := v.Twitter, Instagram := v.Instagram, GTM := v.GTM, GoogleAnalytics := v.GoogleAnalytics, Email := x } : DomainsResponse))
      v.Email (by decide!) (fun _ => rfl) rfl hEmail)]
  rw [decodeMembers_append_ok _ _ _ _ _ _
    (members_omitStrings DomainsResponse.names (DomainsResponse.set) (str "domains") 13
      ({ IP := v.IP, NS := v.NS, MX := v.MX, ASN := v.ASN, Backlinks := v.Backlinks, Redirects := v.Redirects, Adsense := v.Adsense, Facebook := v.Facebook, Twitter := v.Twitter, Instagram := v.Instagram, GTM := v.GTM, GoogleAnalytics := v.GoogleAnalytics, Email := v.Email } : DomainsResponse)
      (fun x => ({ IP := v.IP, NS := v.NS, MX := v.MX, ASN := v.ASN, Backlinks := v.Backlinks, Redirects := v.Redirects, Adsense := v.Adsense, Facebook := v.Facebook, Twitter := v.Twitter, Instagram := v.Instagram, GTM := v.GTM, GoogleAnalytics := v.GoogleAnalytics, Email := v.Email, Domains := x } : DomainsResponse))
      v.Domains (by decide!) (fun _ => rfl) rfl hDomains)]
  rw [decodeMembers_append_ok _ _ _ _ _ _
    (members_decoded DomainsResponse.names (DomainsResponse.set) (str "page") (.number v.Page) 14
      ({ IP := v.IP, NS := v.NS, MX := v.MX, ASN := v.ASN, Backlinks := v.Backlinks, Redirects := v.Redirects, Adsense := v.Adsense, Facebook := v.Facebook, Twitter := v.Twitter, Instagram := v.Instagram, GTM := v.GTM, GoogleAnalytics := v.GoogleAnalytics, Email := v.Email, Domains := v.Domains } : DomainsResponse)
      (fun j => decodeInt j 0)
      (fun x => ({ IP := v.IP, NS := v.NS, MX := v.MX, ASN := v.ASN, Backlinks := v.Backlinks, Redirects := v.Redirects, Adsense := v.Adsense, Facebook := v.Facebook, Twitter := v.Twitter, Instagram := v.Instagram, GTM := v.GTM, GoogleAnalytics := v.GoogleAnalytics, Email := v.Email, Domains := v.Domains, Page := x } : DomainsResponse))
      v.Page (by decide!) (fun _ => rfl) rfl)]
  rw [members_decoded DomainsResponse.names (DomainsResponse.set) (str "total") (.number v.Total) 15
      ({ IP := v.IP, NS := v.NS, MX := v.MX, ASN := v.ASN, Backlinks := v.Backlinks, Redirects := v.Redirects, Adsense := v.Adsense, Facebook := v.Facebook, Twitter := v.Twitter, Instagram := v.Instagram, GTM := v.GTM, GoogleAnalytics := v.GoogleAnalytics, Email := v.Email, Domains := v.Domains, Page := v.Page } : DomainsResponse)
      (fun j => decodeInt j 0)
      (fun x => ({ IP := v.IP, NS := v.NS, MX := v.MX, ASN := v.ASN, Backlinks := v.Backlinks, Redirects := v.Redirects, Adsense := v.Adsense, Facebook := v.Facebook, Twitter := v.Twitter, Instagram := v.Instagram, GTM := v.GTM, GoogleAnalytics := v.GoogleAnalytics, Email := v.Email, Domains := v.Domains, Page := v.Page, Total := x } : DomainsResponse))
      v.Total (by decide!) (fun _ => rfl) rfl]

theorem FullResponse_roundtrip (tc : TimeCodec) (v : FullResponse) (hc : FullResponse.Canon tc v) :
    ∃ j, marshalFullResponse tc v = .ok j ∧ unmarshalFullResponse tc j {} = .ok v := by
  obtain ⟨hDomain, hDNS, hIPInfo, hWeb, hRelated⟩ := hc
  obtain ⟨web, hw, hwr⟩ := WebResponse_roundtrip tc v.Web hWeb
  unfold marshalFullResponse
  rw [hw]
  refine ⟨_, rfl, ?_⟩
  unfold unmarshalFullResponse decodeStruct
  simp only [List.append_assoc]
  rw [decodeMembers_append_ok _ _ _ _ _ _
    (members_omitString FullResponse.names (FullResponse.set tc) (str "domain") 0
      ({} : FullResponse)
      (fun x => ({ Domain := x } : FullResponse))
      v.Domain (by decide!) (fun _ => rfl) rfl hDomain)]
  rw [decodeMembers_append_ok _ _ _ _ _ _
    (members_decoded FullResponse.names (FullResponse.set tc) (str "dns") (marshalDNSResponse v.DNS) 1
      ({ Domain := v.Domain } : FullResponse)
      (fun j => unmarshalDNSResponse j {})
      (fun x => ({ Domain := v.Domain, DNS := x } : FullResponse))
      v.DNS (by decide!) (fun _ => rfl) (DNSResponse_roundtrip v.DNS hDNS))]
  rw [decodeMembers_append_ok _ _ _ _ _ _
    (members_omitIPInfoMap FullResponse.names (FullResponse.set tc) (str "ipinfo") 2
      ({ Domain := v.Domain, DNS := v.DNS } : FullResponse)
      (fun x => ({ Domain := v.Domain, DNS := v.DNS, IPInfo := x } : FullResponse))
      v.IPInfo (by decide!) (fun _ => rfl) rfl hIPInfo)]
  rw [decodeMembers_append_ok _ _ _ _ _ _
    (members_decoded FullResponse.names (FullResponse.set tc) (str "web") web 3
      ({ Domain := v.Domain, DNS := v.DNS, IPInfo := v.IPInfo } : FullResponse)
      (fun j => unmarshalWebResponse tc j {})
      (fun x => ({ Domain := v.Domain, DNS := v.DNS, IPInfo := v.IPInfo, Web := x } : FullResponse))
      v.Web (by decide!) (fun _ => rfl) hwr)]
  rw [members_decoded FullResponse.names (FullResponse.set tc) (str "related") (marshalRelatedResponse v.Related) 4
      ({ Domain := v.Domain, DNS := v.DNS, IPInfo := v.IPInfo, Web := v.Web } : FullResponse)
      (fun j => unmarshalRelatedResponse j {})
      (fun x => ({ Domain := v.Domain, DNS := v.DNS, IPInfo := v.IPInfo, Web := v.Web, Related := x } : FullResponse))
      v.Related (by decide!) (fun _ => rfl) (RelatedResponse_roundtrip v.Related hRelated)]

/-- C9, amended: for every value of each result type whose strings are valid UTF-8,
whose slices and map are nil whenever they are empty, and whose dates the JSON
codec of `time.Time` writes and reads back, encoding the value to JSON under
the tags of `types.go` succeeds and decoding that JSON into a fresh value of
the same type yields the value, field for field. -/
theorem C9_roundtrip_of_canonical (tc : TimeCodec) (w : WebResponse) (d : DNSResponse)
    (r : RelatedResponse) (f : FullResponse) (s : DomainsResponse) (hw : w.Canon tc)
    (hd : d.Canon) (hr : r.Canon) (hf : f.Canon tc) (hs : s.Canon) :
    (∃ j, marshalWebResponse tc w = .ok j ∧ unmarshalWebResponse tc j {} = .ok w) ∧
      unmarshalDNSResponse (marshalDNSResponse d) {} = .ok d ∧
      unmarshalRelatedResponse (marshalRelatedResponse r) {} = .ok r ∧
      (∃ j, marshalFullResponse tc f = .ok j ∧ unmarshalFullResponse tc j {} = .ok f) ∧
      unmarshalDomainsResponse (marshalDomainsResponse s) {} = .ok s :=
  ⟨WebResponse_roundtrip tc w hw, DNSResponse_roundtrip d hd, RelatedResponse_roundtrip r hr,
    FullResponse_roundtrip tc f hf, DomainsResponse_roundtrip s hs⟩

theorem testDNSResponse_canon : testDNSResponse.Canon := by
  refine ⟨by decide!, ⟨by decide, ?_⟩, ⟨by decide, ?_⟩, ⟨by decide, ?_⟩, ⟨by decide, ?_⟩⟩ <;>
    decide!

theorem testRelatedResponse_canon : testRelatedResponse.Canon := by
  refine ⟨⟨by decide, ?_⟩, ⟨by decide, ?_⟩, ⟨by decide, ?_⟩, ⟨by decide, ?_⟩, trivial, trivial⟩ <;>
    (unfold RelatedDomain.Canon; decide!)

theorem testWebResponse_canon : testWebResponse.Canon zeroTimeCodec := by
  refine ⟨by decide!, by decide!, by decide!, ⟨str "0001-01-01T00:00:00Z", by decide!, by decide!⟩,
    by decide!, by decide!, by decide!, by decide!, ⟨by decide, ?_⟩⟩
  decide!

theorem testDomainsResponse_canon : testDomainsResponse.Canon := by
  refine ⟨by decide!, by decide!, by decide!, by decide!, trivial, trivial, trivial, by decide!,
    by decide!, by decide!, by decide!, by decide!, by decide!, ⟨by decide, ?_⟩⟩
  decide!

theorem testFullResponse_canon : testFullResponse.Canon zeroTimeCodec := by
  refine ⟨by decide!, testDNSResponse_canon, ⟨by decide, ?_, ?_⟩, testWebResponse_canon,
    testRelatedResponse_canon⟩
  · unfold IPInfo.Canon ASNInfo.Canon
    decide!
  · decide!

/-- C9, amended, at the values the tests of the repository expect (with the zero
date). -/
theorem C9_roundtrip_of_canonical_witness :
    (∃ j, marshalWebResponse zeroTimeCodec testWebResponse = .ok j ∧
        unmarshalWebResponse zeroTimeCodec j {} = .ok testWebResponse) ∧
      unmarshalDNSResponse (marshalDNSResponse testDNSResponse) {} = .ok testDNSResponse ∧
      unmarshalRelatedResponse (marshalRelatedResponse testRelatedResponse) {} =
        .ok testRelatedResponse ∧
      (∃ j, marshalFullResponse zeroTimeCodec testFullResponse = .ok j ∧
        unmarshalFullResponse zeroTimeCodec j {} = .ok testFullResponse) ∧
      unmarshalDomainsResponse (marshalDomainsResponse testDomainsResponse) {} =
        .ok testDomainsResponse :=
  C9_roundtrip_of_canonical zeroTimeCodec testWebResponse testDNSResponse testRelatedResponse
    testFullResponse testDomainsResponse testWebResponse_canon testDNSResponse_canon
    testRelatedResponse_canon testFullResponse_canon testDomainsResponse_canon

/-- C9 as stated fails.  A `DNSResponse` whose `A` is an empty slice that is not nil
is encoded without `a` and decodes to a value whose `A` is nil; a
`DomainsResponse` whose `IP` is the byte `FF`, not valid UTF-8, decodes to one
whose `IP` is U+FFFD. -/
theorem C9_counterexample :
    (unmarshalDNSResponse (marshalDNSResponse { A := some [] }) {} = .ok { A := none } ∧
      ({ A := none } : DNSResponse) ≠ { A := some [] }) ∧
    (unmarshalDomainsResponse (marshalDomainsResponse { IP := [255] }) {} =
        .ok { IP := [239, 191, 189] } ∧
      ({ IP := [239, 191, 189] } : DomainsResponse) ≠ { IP := [255] }) := by
  decide!

/-! ## The model on the inputs of the repository's tests -/

theorem test_Join :
    Join [str "/api", str "web", str "example.com"] = str "/api/web/example.com" ∧
      Join [str "", str "web", str "example.com"] = str "web/example.com" ∧
      Join [str "", str "web", str "../../a//b/./c/.."] = str "../a/b" ∧
      Clean (str "/../a/../..") = str "/" ∧ Clean (str "abc/def/../../..") = str ".." ∧
      Clean (str "") = str "." := by
  decide!

theorem test_Itoa :
    Itoa 12221 = str "12221" ∧ Itoa 0 = str "0" ∧ Itoa (-404) = str "-404" ∧
      Itoa 100 = str "100" := by
  decide!

theorem test_IsDomain :
    IsDomain (str "example.com") ∧ IsDomain (str "xn--d1acufc.xn--p1ai") ∧
      ¬ IsDomain (str "example..com") ∧ ¬ IsDomain (str ".") ∧ ¬ IsDomain (str "..") ∧
      ¬ IsDomain (str "") ∧ ¬ IsDomain (str "a/b") ∧ ¬ IsDomain (str "example.com.") := by
  decide!

/-- `TestClient_Web`, `TestClient_DNS`, `TestClient_Related` and `TestClient_Full`
register their handlers at `/web/example.com`, `/dns/example.com`,
`/related/example.com` and `/full/example.com` of the test server; these are
the URLs the client builds for the server's origin. -/
theorem test_endpoints :
    (Client.webEndpoint ⟨str "secret", bareOrigin (str "http") (str "127.0.0.1:8080"),
        fun _ => .error (.external 0)⟩ (str "example.com")).map URL.String =
      .ok (str "http://127.0.0.1:8080/web/example.com") ∧
    (Client.dnsEndpoint ⟨str "secret", bareOrigin (str "http") (str "127.0.0.1:8080"),
        fun _ => .error (.external 0)⟩ (str "example.com")).map URL.String =
      .ok (str "http://127.0.0.1:8080/dns/example.com") ∧
    (Client.relatedEndpoint ⟨str "secret", bareOrigin (str "http") (str "127.0.0.1:8080"),
        fun _ => .error (.external 0)⟩ (str "example.com")).map URL.String =
      .ok (str "http://127.0.0.1:8080/related/example.com") ∧
    (Client.fullEndpoint ⟨str "secret", bareOrigin (str "http") (str "127.0.0.1:8080"),
        fun _ => .error (.external 0)⟩ (str "example.com")).map URL.String =
      .ok (str "http://127.0.0.1:8080/full/example.com") ∧
    Parse (str "http://127.0.0.1:8080") = .ok (bareOrigin (str "http") (str "127.0.0.1:8080")) := by
  decide!

/-- `TestClient_Domains` calls `Domains(NS, "google.com", &Pager{5, 5})` and serves
`/domains/ns/google.com`. -/
theorem test_Domains :
    (Client.domainsEndpoint ⟨str "secret", bareOrigin (str "http") (str "127.0.0.1:8080"),
        fun _ => .error (.external 0)⟩ NS (str "google.com") (some ⟨5, 5⟩)).map URL.String =
      .ok (str "http://127.0.0.1:8080/domains/ns/google.com?limit=5&page=5") := by
  decide!

/-- A segment with a space, a query and a fragment. -/
theorem test_reserved :
    (Client.webEndpoint ⟨str "secret", bareOrigin (str "http") (str "127.0.0.1:8080"),
        fun _ => .error (.external 0)⟩ (str "a b?c#d")).map URL.String =
      .ok (str "http://127.0.0.1:8080/web/a%20b?c#d") := by
  decide!

/-! ## The fuel of the loops is enough

Each loop of the model carries a bound on its number of turns.  With the
bound the callers give, the loop ends by itself: giving it one more turn
changes nothing. -/

theorem dropWhile_length_le (p : Nat → Bool) (l : Str) : (l.dropWhile p).length ≤ l.length :=
  (List.dropWhile_sublist p).length_le

theorem cleanLoop_fuel (r : Bool) (f : Nat) (p out : Str) (dd : Nat) (h : p.length ≤ f) :
    cleanLoop r (f + 1) p out dd = cleanLoop r f p out dd := by
  induction f generalizing p out dd with
  | zero =>
    have : p = [] := List.length_eq_zero.mp (Nat.le_zero.mp h)
    subst this
    rw [cleanLoop_nil, cleanLoop_nil]
  | succ f ih =>
    cases p with
    | nil => rw [cleanLoop_nil, cleanLoop_nil]
    | cons c rest =>
      have hrest : rest.length ≤ f := by simp only [List.length_cons] at h; omega
      have htail : rest.tail.length ≤ f := by
        have := List.length_tail rest
        omega
      by_cases hc : c = 47
      · conv => lhs; unfold cleanLoop
        conv => rhs; unfold cleanLoop
        simp only [hc, if_true]
        exact ih _ _ _ hrest
      · have hdrop : ((c :: rest).dropWhile (fun b => b ≠ 47)).length ≤ f := by
          rw [List.dropWhile_cons_of_pos (p := fun b => decide (b ≠ 47)) (decide_eq_true hc)]
          exact le_trans (dropWhile_length_le _ rest) hrest
        conv => lhs; unfold cleanLoop
        conv => rhs; unfold cleanLoop
        simp only [hc, if_false]
        split_ifs
        all_goals first
          | exact ih _ _ _ hrest
          | exact ih _ _ _ htail
          | exact ih _ _ _ hdrop

/-- `path.Clean` with any larger bound on the turns of its loop. -/
theorem cleanLoop_fuel_le (r : Bool) (f g : Nat) (p out : Str) (dd : Nat) (h : p.length ≤ f)
    (hg : f ≤ g) : cleanLoop r g p out dd = cleanLoop r f p out dd := by
  induction g with
  | zero =>
    have : f = 0 := Nat.le_zero.mp hg
    rw [this]
  | succ g ih =>
    by_cases hfg : f = g + 1
    · rw [hfg]
    · rw [cleanLoop_fuel r g p out dd (by omega), ih (by omega)]

theorem Cut_after_length (s : Str) (sep : Nat) (h : (Cut s sep).2.2 = true) :
    (Cut s sep).2.1.length + 1 ≤ s.length := by
  unfold Cut at h ⊢
  by_cases hm : sep ∈ s
  · simp only [hm, if_true]
    have h1 : (s.dropWhile (fun b => b ≠ sep)).length ≤ s.length := dropWhile_length_le _ s
    have h2 : s.dropWhile (fun b => b ≠ sep) ≠ [] := by
      intro e
      have hall := List.dropWhile_eq_nil_iff.mp e
      have := hall sep hm
      simp at this
    have h3 := List.length_tail (s.dropWhile (fun b => b ≠ sep))
    have h4 := List.length_pos.mpr h2
    omega
  · simp only [hm, if_false] at h
    exact absurd h (by decide)

theorem resolveLoop_fuel (f : Nat) (remaining dst : Str) (first : Bool)
    (h : remaining.length + 1 ≤ f) :
    resolveLoop (f + 1) remaining dst first = resolveLoop f remaining dst first := by
  induction f generalizing remaining dst first with
  | zero => omega
  | succ f ih =>
    conv => lhs; unfold resolveLoop
    conv => rhs; unfold resolveLoop
    simp only
    by_cases hfound : (Cut remaining 47).2.2 = true
    · have := Cut_after_length remaining 47 hfound
      simp only [hfound, if_true]
      exact ih _ _ _ (by omega)
    · simp only [hfound, Bool.false_eq_true, if_false]

theorem parseQueryLoop_fuel (f : Nat) (query : Str) (m : Values) (err : Option Error)
    (h : query.length + 1 ≤ f) :
    parseQueryLoop (f + 1) query m err = parseQueryLoop f query m err := by
  induction f generalizing query m err with
  | zero => omega
  | succ f ih =>
    conv => lhs; unfold parseQueryLoop
    conv => rhs; unfold parseQueryLoop
    by_cases hnil : query = []
    · simp only [hnil, if_true]
    · simp only [hnil, if_false]
      have hlen : 0 < query.length := List.length_pos.mpr hnil
      have hq' : (Cut query 38).2.1.length + 1 ≤ f := by
        by_cases hfound : (Cut query 38).2.2 = true
        · have := Cut_after_length query 38 hfound
          omega
        · have : (Cut query 38).2.1 = [] := by
            unfold Cut at hfound ⊢
            by_cases hm : 38 ∈ query
            · simp [hm] at hfound
            · simp [hm]
          rw [this]
          simp only [List.length_nil]
          omega
      split_ifs
      all_goals first
        | exact ih _ _ _ hq'
        | (split <;> first | exact ih _ _ _ hq' | (split <;> exact ih _ _ _ hq'))

theorem formatBits_fuel (f u : Nat) (a : Str) (h : u ≤ f) :
    formatBits (f + 1) u a = formatBits f u a := by
  induction f generalizing u a with
  | zero =>
    have : u = 0 := Nat.le_zero.mp h
    subst this
    rfl
  | succ f ih =>
    conv => lhs; unfold formatBits
    conv => rhs; unfold formatBits
    split_ifs
    · exact ih _ _ (by omega)
    · rfl

theorem toValidUTF8Loop_fuel (f : Nat) (s : Str) (h : s.length ≤ f) :
    toValidUTF8Loop (f + 1) s = toValidUTF8Loop f s := by
  induction f generalizing s with
  | zero =>
    have : s = [] := List.length_eq_zero.mp (Nat.le_zero.mp h)
    subst this
    rfl
  | succ f ih =>
    cases s with
    | nil => rfl
    | cons b rest =>
      have hrest : rest.length ≤ f := by simp only [List.length_cons] at h; omega
      conv => lhs; unfold toValidUTF8Loop
      conv => rhs; unfold toValidUTF8Loop
      by_cases h0 : runeLen (b :: rest) = 0
      · rw [if_pos h0, if_pos h0, ih rest hrest]
      · rw [if_neg h0, if_neg h0, ih _ ?_]
        rw [List.length_drop, List.length_cons]
        omega

/-! ## Lemmas: the text of an endpoint, parsed again -/

theorem getSchemeLoop_letters (raw s rest : Str) (i : Nat) (hs : ∀ c ∈ s, 97 ≤ c ∧ c ≤ 122)
    (hi : 0 < i + s.length) :
    getSchemeLoop raw i (s ++ 58 :: rest) =
      .ok (raw.take (i + s.length), raw.drop (i + s.length + 1)) := by
  induction s generalizing i with
  | nil =>
    simp only [List.nil_append, List.length_nil, Nat.add_zero] at hi ⊢
    have h0 : i ≠ 0 := by omega
    unfold getSchemeLoop
    simp [h0]
  | cons c s ih =>
    have hc := hs c (List.mem_cons_self _ _)
    rw [List.cons_append]
    unfold getSchemeLoop
    rw [if_pos (Or.inl hc), ih (i + 1) (fun x hx => hs x (List.mem_cons_of_mem _ hx)) (by omega)]
    simp only [List.length_cons]
    have e : i + 1 + s.length = i + (s.length + 1) := by omega
    rw [e]

theorem getScheme_scheme (s rest : Str) (hs : IsScheme s) :
    getScheme (s ++ 58 :: rest) = .ok (s, rest) := by
  have hlen : 0 < 0 + s.length := by
    have := List.length_pos.mpr hs.1
    omega
  unfold getScheme
  rw [getSchemeLoop_letters _ s rest 0 hs.2 hlen]
  simp

theorem ToLower_scheme (s : Str) (hs : IsScheme s) : ToLower s = s := by
  unfold ToLower
  conv => rhs; rw [← List.map_id s]
  apply List.map_congr_left
  intro c hc
  have := hs.2 c hc
  rw [if_neg (by omega)]
  rfl

theorem takeWhile_not_mem (s : Str) (sep : Nat) : sep ∉ s.takeWhile (fun b => b ≠ sep) := by
  intro h
  have := List.mem_takeWhile_imp h
  simp at this

theorem IsPort.port_cases {p : Str} (hp : IsPort p) :
    p = [] ∨ ∃ port, p = 58 :: port ∧ port ≠ [] ∧ ∀ c ∈ port, 48 ≤ c ∧ c ≤ 57 := by
  rcases hp with hp | ⟨h1, h2, h3⟩
  · exact Or.inl hp
  · right
    cases p with
    | nil => simp at h1
    | cons a t =>
      simp only [List.head?_cons, Option.some.injEq] at h1
      subst h1
      exact ⟨t, rfl, h2, h3⟩

theorem IsPort.port_byte {p : Str} (hp : IsPort p) (c : Nat) (hc : c ∈ p) :
    (48 ≤ c ∧ c ≤ 57) ∨ c = 58 := by
  rcases hp.port_cases with e | ⟨port, e, _, h⟩
  · subst e; simp at hc
  · subst e
    rcases List.mem_cons.mp hc with h' | h'
    · exact Or.inr h'
    · exact Or.inl (h c h')

theorem IsPort.port_last {p : Str} (hp : IsPort p) (hne : p ≠ []) : p.getLast? ≠ some 58 := by
  rcases hp.port_cases with e | ⟨port, e, hpne, h⟩
  · exact absurd e hne
  · subst e
    intro hl
    cases port with
    | nil => exact hpne rfl
    | cons q qs =>
      rw [List.getLast?_cons_cons] at hl
      have := h 58 (List.mem_of_mem_getLast? hl)
      omega

/-- A host with an optional port is a name free of colons or an address between
brackets, alone or followed by a colon and a port of digits. -/
theorem IsHostPort.host_cases {h : Str} (hh : IsHostPort h) :
    ∃ pre cp, h = pre ++ cp ∧ IsPort cp ∧
      ((pre ≠ [] ∧ 58 ∉ pre ∧ ∀ c ∈ pre, isLabelByte c = true ∨ c = 46) ∨
        ∃ body, pre = 91 :: (body ++ [93]) ∧ 93 ∉ body ∧
          ∀ c ∈ body, ishex c = true ∨ c = 58 ∨ c = 46) := by
  unfold IsHostPort at hh
  by_cases hb : h.head? = some 91
  · rw [if_pos hb] at hh
    obtain ⟨_, h2, h3, h4⟩ := hh
    cases h with
    | nil => simp at hb
    | cons a t =>
      simp only [List.head?_cons, Option.some.injEq] at hb
      subst hb
      simp only [List.tail_cons] at h2 h3 h4
      have hsplit := List.takeWhile_append_dropWhile (fun b => decide (b ≠ 93)) t
      cases hd : t.dropWhile (fun b => b ≠ 93) with
      | nil => rw [hd] at h3; simp at h3
      | cons x rest =>
        rw [hd] at h3 h4 hsplit
        simp only [List.head?_cons, Option.some.injEq] at h3
        subst h3
        simp only [List.tail_cons] at h4
        refine ⟨91 :: (t.takeWhile (fun b => b ≠ 93) ++ [93]), rest, ?_, h4,
          Or.inr ⟨_, rfl, takeWhile_not_mem t 93, h2⟩⟩
        rw [List.cons_append, List.append_assoc]
        simp only [List.singleton_append]
        rw [hsplit]
  · rw [if_neg hb] at hh
    obtain ⟨h1, h2, h3⟩ := hh
    have hsplit := List.takeWhile_append_dropWhile (fun b => decide (b ≠ 58)) h
    exact ⟨_, _, hsplit.symm, h3, Or.inl ⟨h1, takeWhile_not_mem h 58, h2⟩⟩

theorem IsHostPort.host_byte {h : Str} (hh : IsHostPort h) (c : Nat) (hc : c ∈ h) :
    (97 ≤ c ∧ c ≤ 122) ∨ (65 ≤ c ∧ c ≤ 90) ∨ (48 ≤ c ∧ c ≤ 57) ∨ c = 45 ∨ c = 46 ∨ c = 58 ∨
      c = 91 ∨ c = 93 := by
  obtain ⟨pre, cp, e, hcp, hpre⟩ := hh.host_cases
  subst e
  rcases List.mem_append.mp hc with h' | h'
  · rcases hpre with ⟨_, _, hn⟩ | ⟨body, e, _, hbody⟩
    · rcases hn c h' with h'' | h''
      · simp only [isLabelByte, decide_eq_true_eq] at h''
        omega
      · omega
    · subst e
      simp only [List.mem_cons, List.mem_append, List.mem_singleton, List.mem_nil_iff,
        or_false] at h'
      rcases h' with h'' | h'' | h''
      · omega
      · rcases hbody c h'' with h3 | h3 | h3
        · unfold ishex at h3
          split_ifs at h3 <;> omega
        · omega
        · omega
      · omega
  · have := hcp.port_byte c h'
    omega

theorem IsHostPort.host_ne_nil {h : Str} (hh : IsHostPort h) : h ≠ [] := by
  obtain ⟨pre, cp, e, _, hpre⟩ := hh.host_cases
  subst e
  rcases hpre with ⟨hne, _, _⟩ | ⟨body, e, _, _⟩
  · simp [hne]
  · subst e; simp

theorem LastIndexByte_of_not_mem (s : Str) (c : Nat) (h : c ∉ s) : LastIndexByte s c = none := by
  induction s with
  | nil => rfl
  | cons b s ih =>
    simp only [List.mem_cons, not_or] at h
    unfold LastIndexByte
    rw [ih h.2]
    simp only
    rw [if_neg (fun e => h.1 e.symm)]

theorem LastIndexByte_append_sep (a t : Str) (c : Nat) (h : c ∉ t) :
    LastIndexByte (a ++ c :: t) c = some a.length := by
  induction a with
  | nil =>
    rw [List.nil_append]
    unfold LastIndexByte
    rw [LastIndexByte_of_not_mem t c h]
    simp
  | cons b a ih =>
    rw [List.cons_append]
    unfold LastIndexByte
    rw [ih]
    simp

theorem IndexByte_append_sep (a t : Str) (c : Nat) (h : c ∉ a) :
    IndexByte (a ++ c :: t) c = some a.length := by
  induction a with
  | nil =>
    rw [List.nil_append]
    unfold IndexByte
    simp
  | cons b a ih =>
    simp only [List.mem_cons, not_or] at h
    rw [List.cons_append]
    unfold IndexByte
    rw [if_neg (fun e => h.1 e.symm), ih h.2]
    simp

theorem Index_of_not_mem (s : Str) (c : Nat) (rest : Str) (h : c ∉ s) :
    Index s (c :: rest) = none := by
  induction s with
  | nil => simp [Index]
  | cons b s ih =>
    simp only [List.mem_cons, not_or] at h
    unfold Index
    have hp : (c :: rest).isPrefixOf (b :: s) = false := by
      simp [List.isPrefixOf, h.1]
    rw [hp, ih h.2]
    simp

theorem shouldEscape_host (c : Nat)
    (h : (97 ≤ c ∧ c ≤ 122) ∨ (65 ≤ c ∧ c ≤ 90) ∨ (48 ≤ c ∧ c ≤ 57) ∨ c = 45 ∨ c = 46 ∨ c = 58 ∨
      c = 91 ∨ c = 93) :
    shouldEscape c encodeHost = false := by
  unfold shouldEscape
  by_cases h1 : (97 ≤ c ∧ c ≤ 122) ∨ (65 ≤ c ∧ c ≤ 90) ∨ (48 ≤ c ∧ c ≤ 57)
  · rw [if_pos h1]
  · have h2 : c = 45 ∨ c = 46 ∨ c = 58 ∨ c = 91 ∨ c = 93 := by omega
    rcases h2 with h2 | h2 | h2 | h2 | h2 <;> subst h2 <;> decide

theorem unescapeCheck_host (s : Str)
    (h : ∀ c ∈ s, (97 ≤ c ∧ c ≤ 122) ∨ (65 ≤ c ∧ c ≤ 90) ∨ (48 ≤ c ∧ c ≤ 57) ∨ c = 45 ∨ c = 46 ∨
      c = 58 ∨ c = 91 ∨ c = 93) : unescapeCheck encodeHost s = .ok () := by
  induction s with
  | nil => rfl
  | cons c s ih =>
    have hb := h c (List.mem_cons_self _ _)
    unfold unescapeCheck
    rw [if_neg (by omega), if_neg (by omega),
      if_neg (by rw [shouldEscape_host c hb]; simp)]
    exact ih (fun x hx => h x (List.mem_cons_of_mem _ hx))

theorem unescapeDecode_host (s : Str)
    (h : ∀ c ∈ s, (97 ≤ c ∧ c ≤ 122) ∨ (65 ≤ c ∧ c ≤ 90) ∨ (48 ≤ c ∧ c ≤ 57) ∨ c = 45 ∨ c = 46 ∨
      c = 58 ∨ c = 91 ∨ c = 93) : unescapeDecode encodeHost s = s := by
  induction s with
  | nil => rfl
  | cons c s ih =>
    have hb := h c (List.mem_cons_self _ _)
    unfold unescapeDecode
    rw [if_neg (by omega), if_neg (by omega), ih (fun x hx => h x (List.mem_cons_of_mem _ hx))]

theorem unescape_host (s : Str)
    (h : ∀ c ∈ s, (97 ≤ c ∧ c ≤ 122) ∨ (65 ≤ c ∧ c ≤ 90) ∨ (48 ≤ c ∧ c ≤ 57) ∨ c = 45 ∨ c = 46 ∨
      c = 58 ∨ c = 91 ∨ c = 93) : unescape s encodeHost = .ok s := by
  unfold unescape
  rw [unescapeCheck_host s h, unescapeDecode_host s h]

theorem escape_host (s : Str)
    (h : ∀ c ∈ s, (97 ≤ c ∧ c ≤ 122) ∨ (65 ≤ c ∧ c ≤ 90) ∨ (48 ≤ c ∧ c ≤ 57) ∨ c = 45 ∨ c = 46 ∨
      c = 58 ∨ c = 91 ∨ c = 93) : escape s encodeHost = s := by
  induction s with
  | nil => rfl
  | cons c s ih =>
    have hb := h c (List.mem_cons_self _ _)
    rw [escape, if_neg (by simp), shouldEscape_host c hb,
      ih (fun x hx => h x (List.mem_cons_of_mem _ hx))]
    simp

theorem validOptionalPort_port (p : Str) (hp : IsPort p) : validOptionalPort p = true := by
  rcases hp.port_cases with e | ⟨port, e, _, h⟩
  · subst e; rfl
  · subst e
    unfold validOptionalPort
    simp only [ne_eq, not_true_eq_false, if_false, List.all_eq_true, decide_eq_true_eq]
    intro x hx
    have := h x hx
    omega

theorem parseHost_hostPort (h : Str) (hh : IsHostPort h) : parseHost h = .ok h := by
  have hu := unescape_host h hh.host_byte
  obtain ⟨pre, cp, e, hcp, hpre⟩ := hh.host_cases
  have hv := validOptionalPort_port cp hcp
  rcases hpre with ⟨hne, h58, hn⟩ | ⟨body, e2, h93, hbody⟩
  · have hhead : h.head? ≠ some 91 := by
      intro hc
      rw [e] at hc
      cases pre with
      | nil => exact hne rfl
      | cons a t =>
        simp only [List.cons_append, List.head?_cons, Option.some.injEq] at hc
        subst hc
        rcases hn 91 (List.mem_cons_self _ _) with h' | h'
        · revert h'; decide
        · omega
    unfold parseHost
    rw [if_neg hhead]
    rcases hcp.port_cases with e3 | ⟨port, e3, _, hp⟩
    · subst e3
      rw [List.append_nil] at e
      rw [LastIndexByte_of_not_mem h 58 (by rw [e]; exact h58)]
      exact hu
    · have hp58 : 58 ∉ port := by
        intro hm
        have := hp 58 hm
        omega
      have hl : LastIndexByte h 58 = some pre.length := by
        rw [e, e3]; exact LastIndexByte_append_sep pre port 58 hp58
      have hd : h.drop pre.length = cp := by rw [e, List.drop_left]
      rw [hl]
      simp only [hd, hv, not_true_eq_false, if_false]
      exact hu
  · have hhead : h.head? = some 91 := by rw [e, e2]; rfl
    have hcp93 : 93 ∉ cp := by
      intro hm
      have := hcp.port_byte 93 hm
      omega
    have hform : h = (91 :: body) ++ 93 :: cp := by
      rw [e, e2]
      simp
    have hl : LastIndexByte h 93 = some (body.length + 1) := by
      rw [hform]
      exact LastIndexByte_append_sep (91 :: body) cp 93 hcp93
    have hd : h.drop (body.length + 1 + 1) = cp := by
      rw [hform]
      have : (91 :: body) ++ 93 :: cp = ((91 :: body) ++ [93]) ++ cp := by simp
      rw [this]
      have hlen : ((91 :: body) ++ [93]).length = body.length + 1 + 1 := by simp
      rw [← hlen, List.drop_left]
    have ht : h.take (body.length + 1) = 91 :: body := by
      rw [hform]
      have hlen : (91 :: body).length = body.length + 1 := by simp
      rw [← hlen, List.take_left]
    have h37 : 37 ∉ 91 :: body := by
      intro hm
      rcases List.mem_cons.mp hm with h' | h'
      · omega
      · rcases hbody 37 h' with h3 | h3 | h3
        · revert h3; decide
        · omega
        · omega
    unfold parseHost
    rw [if_pos hhead, hl]
    simp only [hd, hv, not_true_eq_false, if_false, ht, Index_of_not_mem _ 37 [50, 53] h37]
    exact hu

theorem parseAuthority_hostPort (h : Str) (hh : IsHostPort h) :
    parseAuthority h = .ok (none, h) := by
  have h64 : 64 ∉ h := by
    intro hm
    have := hh.host_byte 64 hm
    omega
  unfold parseAuthority
  rw [LastIndexByte_of_not_mem h 64 h64, parseHost_hostPort h hh]

theorem removeEmptyPort_hostPort (h : Str) (hh : IsHostPort h) : removeEmptyPort h = h := by
  have hlast : h.getLast? ≠ some 58 := by
    obtain ⟨pre, cp, e, hcp, hpre⟩ := hh.host_cases
    by_cases hcpn : cp = []
    · subst hcpn
      rw [List.append_nil] at e
      rcases hpre with ⟨_, h58, _⟩ | ⟨body, e2, _, _⟩
      · intro hl
        exact h58 (by rw [← e]; exact List.mem_of_mem_getLast? hl)
      · rw [e, e2]
        have : 91 :: (body ++ [93]) = (91 :: body) ++ [93] := by simp
        rw [this, List.getLast?_append_of_ne_nil _ (List.cons_ne_nil _ _)]
        decide
    · rw [e, List.getLast?_append_of_ne_nil _ hcpn]
      exact hcp.port_last hcpn
  unfold removeEmptyPort
  rw [if_neg (fun hc => hlast hc.2)]

theorem escape_path_bytes (s : Str) (hs : ∀ c ∈ s, PlainByte c) :
    ∀ c ∈ escape s encodePath, 32 ≤ c ∧ c ≠ 127 ∧ c ≠ 35 ∧ c ≠ 63 := by
  induction s with
  | nil => intro c hc; simp [escape] at hc
  | cons x s ih =>
    have hx := hs x (List.mem_cons_self _ _)
    have ih' := ih (fun y hy => hs y (List.mem_cons_of_mem _ hy))
    have hhex : ∀ n, n < 16 → 32 ≤ upperhex.getD n 0 ∧ upperhex.getD n 0 ≠ 127 ∧
        upperhex.getD n 0 ≠ 35 ∧ upperhex.getD n 0 ≠ 63 := by decide
    have hhi : x >>> 4 < 16 := by
      rw [Nat.shiftRight_eq_div_pow]
      have := hx.2.2.1
      omega
    have hlo : x &&& 15 < 16 := by
      have := Nat.and_le_right (n := x) (m := 15)
      omega
    intro c hc
    rw [escape, if_neg (by simp)] at hc
    by_cases he : shouldEscape x encodePath = true
    · rw [if_pos he] at hc
      simp only [List.mem_cons] at hc
      rcases hc with h | h | h | h
      · subst h; decide
      · subst h; exact hhex _ hhi
      · subst h; exact hhex _ hlo
      · exact ih' c h
    · rw [if_neg he] at hc
      rcases List.mem_cons.mp hc with h | h
      · subst h
        exact ⟨hx.1, hx.2.1, hx.2.2.2.1, hx.2.2.2.2.2⟩
      · exact ih' c h

theorem encodedPath_bytes (P : Str) (hP : ∀ c ∈ P, PlainByte c) :
    ∀ c ∈ encodedPath P, 32 ≤ c ∧ c ≠ 127 ∧ c ≠ 35 ∧ c ≠ 63 := by
  unfold encodedPath
  split_ifs
  · intro c hc
    have := hP c hc
    exact ⟨this.1, this.2.1, this.2.2.2.1, this.2.2.2.2.2⟩
  · exact escape_path_bytes P hP

theorem count_append_sep_pos (A q : Str) (c : Nat) (hq : q ≠ [])
    (hl : (A ++ c :: q).getLast? = some c) : (A ++ c :: q).count c ≠ 1 := by
  rw [List.getLast?_append_of_ne_nil _ (List.cons_ne_nil _ _)] at hl
  cases q with
  | nil => exact absurd rfl hq
  | cons p ps =>
    rw [List.getLast?_cons_cons] at hl
    have hm : c ∈ p :: ps := List.mem_of_mem_getLast? hl
    have hpos : 0 < (p :: ps).count c := List.count_pos_iff.mpr hm
    rw [List.count_append, List.count_cons_self]
    omega

/-- The text `scheme://host<path>[?query]` parses into its parts; the path goes
through `setPath`. -/
theorem parse_origin_text (scheme host EP' q : Str) (hs : IsScheme scheme)
    (hh : IsHostPort host)
    (hEP : ∀ c ∈ EP', 32 ≤ c ∧ c ≠ 127 ∧ c ≠ 35 ∧ c ≠ 63)
    (hq : ∀ c ∈ q, 32 ≤ c ∧ c ≠ 127 ∧ c ≠ 35) :
    parse (scheme ++ 58 :: (47 :: 47 :: (host ++ 47 :: EP') ++ (if q = [] then [] else 63 :: q)))
        false =
      URL.setPath { Scheme := scheme, Host := host, RawQuery := q } (47 :: EP') := by
  have hA63 : 63 ∉ 47 :: 47 :: (host ++ 47 :: EP') := by
    intro hm
    simp only [List.mem_cons, List.mem_append] at hm
    rcases hm with h | h | h | h | h
    · omega
    · omega
    · have := hh.host_byte 63 h; omega
    · omega
    · exact (hEP 63 h).2.2.2 rfl
  have h47 : 47 ∉ host := by
    intro hm
    have := hh.host_byte 47 hm
    omega
  have hbytes : ∀ c ∈ scheme ++ 58 :: (47 :: 47 :: (host ++ 47 :: EP') ++
      (if q = [] then [] else 63 :: q)), 32 ≤ c ∧ c ≠ 127 := by
    intro c hc
    rcases List.mem_append.mp hc with h | h
    · have := hs.2 c h; omega
    · rcases List.mem_cons.mp h with h | h
      · omega
      · rcases List.mem_append.mp h with h | h
        · simp only [List.mem_cons, List.mem_append] at h
          rcases h with h | h | h | h | h
          · omega
          · omega
          · have := hh.host_byte c h; omega
          · omega
          · exact ⟨(hEP c h).1, (hEP c h).2.1⟩
        · by_cases hqn : q = []
          · rw [if_pos hqn] at h; simp at h
          · rw [if_neg hqn] at h
            rcases List.mem_cons.mp h with h | h
            · omega
            · exact ⟨(hq c h).1, (hq c h).2.1⟩
  have hctl := ctl_false_of_forall _ hbytes
  obtain ⟨s0, stail, hsch⟩ : ∃ s0 stail, scheme = s0 :: stail := by
    cases scheme with
    | nil => exact absurd rfl hs.1
    | cons a l => exact ⟨a, l, rfl⟩
  have hs0 : 97 ≤ s0 ∧ s0 ≤ 122 := hs.2 s0 (by rw [hsch]; exact List.mem_cons_self _ _)
  have hne : ¬ (scheme ++ 58 :: (47 :: 47 :: (host ++ 47 :: EP') ++
      (if q = [] then [] else 63 :: q)) = [] ∧ false = true) := by simp
  have h42 : scheme ++ 58 :: (47 :: 47 :: (host ++ 47 :: EP') ++
      (if q = [] then [] else 63 :: q)) ≠ [42] := by
    rw [hsch]
    intro e
    injection e with e1 _
    omega
  have hlow := ToLower_scheme scheme hs
  have hauth := parseAuthority_hostPort host hh
  have hidx := IndexByte_append_sep host EP' 47 h47
  unfold parse
  rw [if_neg (by rw [hctl]; simp), if_neg hne, if_neg h42, getScheme_scheme _ _ hs]
  simp only [hlow]
  by_cases hqn : q = []
  · subst hqn
    simp only [if_true, List.append_nil, Cut_of_not_mem _ 63 hA63,
      count_eq_zero_of_not_mem' 63 _ hA63, zero_ne_one, and_false, decide_False,
      Bool.false_eq_true, if_false, List.isPrefixOf, beq_self_eq_true, Bool.true_and,
      not_true_eq_false]
    unfold parseRest
    simp only [hs.1, ne_eq, not_false_eq_true, true_or, List.isPrefixOf, beq_self_eq_true,
      Bool.true_and, and_self, if_true, List.drop_succ_cons, List.drop_zero, hidx,
      List.take_left, List.drop_left, hauth]
  · have hcnt : ¬ ((47 :: 47 :: (host ++ 47 :: EP') ++ 63 :: q).getLast? = some 63 ∧
        (47 :: 47 :: (host ++ 47 :: EP') ++ 63 :: q).count 63 = 1) := by
      intro hc
      exact count_append_sep_pos _ q 63 hqn hc.1 hc.2
    simp only [hqn, if_false, Cut_append_sep _ q 63 hA63, hcnt, decide_False,
      Bool.false_eq_true, List.isPrefixOf, beq_self_eq_true, Bool.true_and,
      not_true_eq_false]
    unfold parseRest
    simp only [hs.1, ne_eq, not_false_eq_true, true_or, List.isPrefixOf, beq_self_eq_true,
      Bool.true_and, and_self, if_true, List.drop_succ_cons, List.drop_zero, hidx,
      List.take_left, List.drop_left, hauth]

/-- The text of an endpoint: scheme, `://`, host, the escaped path, and the
query after a `?` when there is one. -/
theorem String_endpoint (u : URL) (hu : IsEndpoint u) :
    u.String = u.Scheme ++ 58 :: (47 :: 47 :: (u.Host ++ encodedPath u.Path) ++
      (if u.RawQuery = [] then [] else 63 :: u.RawQuery)) := by
  obtain ⟨hs, hh, hhead, hP, hraw, hq, hop, hus, hom, hfq, hfr, hrf⟩ := hu
  have h37 : 37 ∉ u.Path := fun hm => (hP 37 hm).2.2.2.2.1 rfl
  have h42 : u.Path ≠ [42] := by
    intro e
    rw [e] at hhead
    simp at hhead
  have hEP : u.EscapedPath = encodedPath u.Path := by
    apply EscapedPath_eq u u.Path rfl
    · rw [hraw]
      split_ifs
      · exact Or.inr rfl
      · exact Or.inl rfl
    · intro h0 hv
      by_contra hc
      rw [hraw, if_pos ⟨hv, fun e => hc e.symm⟩] at h0
      rw [h0] at hhead
      simp at hhead
    · exact h37
    · exact h42
  obtain ⟨P', hP'⟩ : ∃ P', u.Path = 47 :: P' := by
    cases hp : u.Path with
    | nil => rw [hp] at hhead; simp at hhead
    | cons a l =>
      rw [hp] at hhead
      simp only [List.head?_cons, Option.some.injEq] at hhead
      exact ⟨l, by rw [hhead]⟩
  have hEhead : (encodedPath u.Path).head? = some 47 := by
    rw [hP', encodedPath_slash_cons]
    rfl
  have hEne : encodedPath u.Path ≠ [] := by
    intro e
    rw [e] at hEhead
    simp at hEhead
  have hesc := escape_host u.Host hh.host_byte
  unfold URL.String
  simp only [hEP, hop, hus, hom, hfq, hfr, hesc, hs.1, hh.host_ne_nil, ne_eq, not_false_eq_true,
    not_true_eq_false, if_true, if_false, true_or, false_and, Bool.false_eq_true, false_or,
    hEhead, and_false, List.append_eq_nil, List.cons_ne_nil, and_self]
  by_cases hqn : u.RawQuery = []
  · simp [hqn]
  · simp [hqn]

/-- The text of an endpoint parses back into the endpoint. -/
theorem Parse_String_endpoint (u : URL) (hu : IsEndpoint u) : Parse u.String = .ok u := by
  have hS := String_endpoint u hu
  obtain ⟨hs, hh, hhead, hP, hraw, hq, hop, hus, hom, hfq, hfr, hrf⟩ := hu
  have h37 : 37 ∉ u.Path := fun hm => (hP 37 hm).2.2.2.2.1 rfl
  obtain ⟨P', hP'⟩ : ∃ P', u.Path = 47 :: P' := by
    cases hp : u.Path with
    | nil => rw [hp] at hhead; simp at hhead
    | cons a l =>
      rw [hp] at hhead
      simp only [List.head?_cons, Option.some.injEq] at hhead
      exact ⟨l, by rw [hhead]⟩
  have hPl' : ∀ c ∈ P', PlainByte c := fun c hc => hP c (by rw [hP']; exact List.mem_cons_of_mem _ hc)
  have hEb := encodedPath_bytes P' hPl'
  have h35 : 35 ∉ u.String := by
    rw [hS]
    intro hm
    simp only [List.mem_append, List.mem_cons] at hm
    rcases hm with h | h | (h | h | h | h) | h
    · have := hs.2 35 h; omega
    · omega
    · omega
    · omega
    · have := hh.host_byte 35 h; omega
    · rw [hP', encodedPath_slash_cons] at h
      rcases List.mem_cons.mp h with h | h
      · omega
      · exact (hEb 35 h).2.2.1 rfl
    · by_cases hqn : u.RawQuery = []
      · rw [if_pos hqn] at h; simp at h
      · rw [if_neg hqn] at h
        rcases List.mem_cons.mp h with h | h
        · omega
        · exact (hq 35 h).2.2 rfl
  apply Parse_of_parse _ _ h35
  rw [hS, hP', encodedPath_slash_cons, parse_origin_text _ _ _ _ hs hh hEb hq,
    ← encodedPath_slash_cons, ← hP', setPath_encodedPath _ _ h37 (fun c hc => (hP c hc).2.2.1)]
  congr 1
  cases u
  simp only at hraw hop hus hom hfq hfr hrf ⊢
  subst hop hus hom hfq hfr hrf
  rw [hraw]

theorem NewRequest_endpoint (u : URL) (hu : IsEndpoint u) :
    NewRequestWithContext (str "GET") u.String [] =
      .ok { Method := str "GET", URL := u, Header := [], Body := [], Host := u.Host } := by
  have hm : (if str "GET" = [] then str "GET" else str "GET") = str "GET" := by decide
  have hv : validMethod (str "GET") = true := by decide
  unfold NewRequestWithContext
  simp only [hm, hv, not_true_eq_false, if_false, Parse_String_endpoint u hu,
    removeEmptyPort_hostPort u.Host hu.2.1]

/-- For an endpoint of the shape the operations build, `do` hands one request
to the HTTP client, for that very endpoint. -/
theorem do_endpoint {T : Type} (c : Client) (decode : Decoder T) (u : URL) (data : T)
    (hu : IsEndpoint u) :
    (c.do decode u data).sent =
      [withHeaders c.token
        { Method := str "GET", URL := u, Header := [], Body := [], Host := u.Host }] :=
  do_sent c decode u data _ (NewRequest_endpoint u hu)

/-! ## The URL requested by the five operations -/

theorem OriginBase.stdBase {b : URL} (hb : OriginBase b) : StdBase b := by
  rcases hb with h | ⟨scheme, host, _, hh, e⟩
  · exact Or.inl h
  · exact Or.inr ⟨scheme, host, hh.host_ne_nil, e⟩

theorem OriginBase.scheme_host {b : URL} (hb : OriginBase b) :
    IsScheme b.Scheme ∧ IsHostPort b.Host := by
  rcases hb with ⟨token, transport, e⟩ | ⟨scheme, host, hs, hh, e⟩
  · rw [e, NewClient_baseURL]
    decide
  · rw [e]
    exact ⟨hs, hh⟩

theorem StdBase.path_head {b : URL} (hb : StdBase b) (T : Str) :
    (b.Path ++ 47 :: T).head? = some 47 := by
  rcases hb.cases with hb | ⟨scheme, host, _, hb⟩
  · subst hb; rfl
  · subst hb; rfl

/-- The endpoint built from plain, normal segments under a base URL followed to
the wire has the shape `IsEndpoint`. -/
theorem isEndpoint_std (b : URL) (hb : OriginBase b) (k t : Str) (rest : List Str)
    (hp : ∀ s ∈ k :: t :: rest, ∀ c ∈ s, PlainByte c) :
    IsEndpoint
      { Scheme := b.Scheme, Host := b.Host,
        Path := b.Path ++ 47 :: joinSegs (k :: t :: rest),
        RawPath :=
          if validEncoded (b.Path ++ 47 :: joinSegs (k :: t :: rest)) encodePath = true ∧
              b.Path ++ 47 :: joinSegs (k :: t :: rest) ≠
                escape (b.Path ++ 47 :: joinSegs (k :: t :: rest)) encodePath
          then b.Path ++ 47 :: joinSegs (k :: t :: rest) else [] } := by
  refine ⟨hb.scheme_host.1, hb.scheme_host.2, hb.stdBase.path_head _, ?_, rfl, ?_,
    rfl, rfl, rfl, rfl, rfl, rfl⟩
  · intro c hc
    rcases List.mem_append.mp hc with h | h
    · have := hb.stdBase.path_bytes c h
      unfold PlainByte
      omega
    · rcases List.mem_cons.mp h with h | h
      · subst h; decide
      · have := plain_facts _ hp c h
        exact this
  · intro c hc
    simp at hc

/-- For a base URL followed to the wire and segments that are domains: the
endpoint is built, has the shape `IsEndpoint`, prints as the base followed by
the segments, and has no query and no fragment. -/
theorem requested_domain (b : URL) (hb : OriginBase b) (k t : Str) (rest : List Str)
    (hs : ∀ s ∈ k :: t :: rest, IsDomain s) :
    ∃ u, b.Parse (Join (b.Path :: k :: t :: rest)) = .ok u ∧ IsEndpoint u ∧
      u.String = b.String ++ 47 :: joinSegs (k :: t :: rest) ∧
      u.RawQuery = [] ∧ u.ForceQuery = false ∧ u.Fragment = [] := by
  have h1 := endpoint_std b hb.stdBase k t rest (hs k (List.mem_cons_self _ _)).no_colon
    (fun s hsm => (hs s hsm).normalSeg) (fun s hsm => (hs s hsm).plain)
  have h2 := isEndpoint_std b hb k t rest (fun s hsm => (hs s hsm).plain)
  obtain ⟨u, h3, h4, h5⟩ := endpoint_result b hb.stdBase k t rest hs
  rw [h1] at h3
  injection h3 with h3
  rw [h3] at h1 h2
  exact ⟨u, h1, h2, h4, h5⟩

theorem sent_urls (token : Str) (u : URL) :
    [withHeaders token
      { Method := str "GET", URL := u, Header := [], Body := [], Host := u.Host }].map
        (fun r => r.URL) = [u] := rfl

/-- C1, amended: for a client whose base URL is the default one or a bare origin
`scheme://host` or `scheme://host:port` (the host a name, an IPv4 address or
an IPv6 address between brackets; the port, when there is one, not empty),
and for a domain `D` of dot-separated non-empty labels of letters,
digits and hyphens, each of `Web`, `DNS`, `Related` and `Full` builds its
endpoint and hands the HTTP client one request, whose URL is that endpoint and
prints as `<base>/web/D`, `<base>/dns/D`, `<base>/related/D` and
`<base>/full/D`; `Domains(F, D, nil)` does so with `<base>/domains/F/D` for
every `Field` constant `F`.  The URL has no query and no fragment.  The base
URL of `NewClient` is one of these and prints as `https://host.io/api`. -/
theorem C1_requested_urls (c : Client) (dWeb : Decoder WebResponse)
    (dDNS : Decoder DNSResponse) (dRelated : Decoder RelatedResponse)
    (dFull : Decoder FullResponse) (dDomains : Decoder DomainsResponse) (D : Str)
    (hb : OriginBase c.baseURL) (hD : IsDomain D) :
    (∃ u, c.webEndpoint D = .ok u ∧ (c.Web dWeb D).sent.map (fun r => r.URL) = [u] ∧
        u.String = c.baseURL.String ++ str "/web/" ++ D ∧
        u.RawQuery = [] ∧ u.ForceQuery = false ∧ u.Fragment = []) ∧
    (∃ u, c.dnsEndpoint D = .ok u ∧ (c.DNS dDNS D).sent.map (fun r => r.URL) = [u] ∧
        u.String = c.baseURL.String ++ str "/dns/" ++ D ∧
        u.RawQuery = [] ∧ u.ForceQuery = false ∧ u.Fragment = []) ∧
    (∃ u, c.relatedEndpoint D = .ok u ∧
        (c.Related dRelated D).sent.map (fun r => r.URL) = [u] ∧
        u.String = c.baseURL.String ++ str "/related/" ++ D ∧
        u.RawQuery = [] ∧ u.ForceQuery = false ∧ u.Fragment = []) ∧
    (∃ u, c.fullEndpoint D = .ok u ∧ (c.Full dFull D).sent.map (fun r => r.URL) = [u] ∧
        u.String = c.baseURL.String ++ str "/full/" ++ D ∧
        u.RawQuery = [] ∧ u.ForceQuery = false ∧ u.Fragment = []) ∧
    (∀ F ∈ fieldConstants, ∃ u, c.domainsEndpoint F D none = .ok u ∧
        (c.Domains dDomains F D none).sent.map (fun r => r.URL) = [u] ∧
        u.String = c.baseURL.String ++ str "/domains/" ++ F ++ str "/" ++ D ∧
        u.RawQuery = [] ∧ u.ForceQuery = false ∧ u.Fragment = []) ∧
    (∀ token transport, OriginBase (NewClient token transport).baseURL ∧
        (NewClient token transport).baseURL.String = defaultBaseURL) := by
  obtain ⟨hweb, hdns, hrel, hfull, hdom⟩ := kinds_domain
  have two : ∀ k, IsDomain k → ∀ s ∈ [k, D], IsDomain s := by
    intro k hk s hsm
    simp only [List.mem_cons, List.mem_singleton, List.mem_nil_iff, or_false] at hsm
    rcases hsm with h | h <;> subst h <;> assumption
  refine ⟨?_, ?_, ?_, ?_, ?_, ?_⟩
  · obtain ⟨u, h1, hu, h2, h3⟩ := requested_domain c.baseURL hb (str "web") D [] (two _ hweb)
    refine ⟨u, h1, ?_, ?_, h3⟩
    · rw [Web_sent c dWeb D u _ h1 (NewRequest_endpoint u hu)]
      exact sent_urls c.token u
    · rw [h2]; simp [joinSegs, str]
  · obtain ⟨u, h1, hu, h2, h3⟩ := requested_domain c.baseURL hb (str "dns") D [] (two _ hdns)
    refine ⟨u, h1, ?_, ?_, h3⟩
    · rw [DNS_sent c dDNS D u _ h1 (NewRequest_endpoint u hu)]
      exact sent_urls c.token u
    · rw [h2]; simp [joinSegs, str]
  · obtain ⟨u, h1, hu, h2, h3⟩ :=
      requested_domain c.baseURL hb (str "related") D [] (two _ hrel)
    refine ⟨u, h1, ?_, ?_, h3⟩
    · rw [Related_sent c dRelated D u _ h1 (NewRequest_endpoint u hu)]
      exact sent_urls c.token u
    · rw [h2]; simp [joinSegs, str]
  · obtain ⟨u, h1, hu, h2, h3⟩ := requested_domain c.baseURL hb (str "full") D [] (two _ hfull)
    refine ⟨u, h1, ?_, ?_, h3⟩
    · rw [Full_sent c dFull D u _ h1 (NewRequest_endpoint u hu)]
      exact sent_urls c.token u
    · rw [h2]; simp [joinSegs, str]
  · intro F hF
    have hs : ∀ s ∈ [str "domains", F, D], IsDomain s := by
      intro s hsm
      simp only [List.mem_cons, List.mem_singleton, List.mem_nil_iff, or_false] at hsm
      rcases hsm with h | h | h
      · subst h; exact hdom
      · subst h; exact fieldConstants_domain _ hF
      · subst h; exact hD
    obtain ⟨u, h1, hu, h2, h3⟩ := requested_domain c.baseURL hb (str "domains") F [D] hs
    have he : c.domainsEndpoint F D none = .ok u := by
      unfold Client.domainsEndpoint
      rw [h1]
    refine ⟨u, he, ?_, ?_, h3⟩
    · rw [Domains_sent c dDomains F D none u _ he (NewRequest_endpoint u hu)]
      exact sent_urls c.token u
    · rw [h2]; simp [joinSegs, str]
  · intro token transport
    refine ⟨Or.inl ⟨token, transport, rfl⟩, ?_⟩
    rw [NewClient_baseURL]
    decide

/-- C1 at the default client and `example.com`: `Web` requests
`https://host.io/api/web/example.com`. -/
theorem C1_requested_urls_witness :
    OriginBase (NewClient (str "secret") (fun _ => .error (.external 0))).baseURL ∧
      IsDomain (str "example.com") ∧
      ∃ u, ((NewClient (str "secret") (fun _ => .error (.external 0))).Web
            (fun _ r => (none, r)) (str "example.com")).sent.map (fun r => r.URL) = [u] ∧
        u.String = str "https://host.io/api/web/example.com" :=
  ⟨Or.inl ⟨_, _, rfl⟩, by decide,
    match (C1_requested_urls (NewClient (str "secret") (fun _ => .error (.external 0)))
        (fun _ r => (none, r)) (fun _ r => (none, r)) (fun _ r => (none, r))
        (fun _ r => (none, r)) (fun _ r => (none, r))
        (str "example.com") (Or.inl ⟨_, _, rfl⟩) (by decide)).1 with
    | ⟨u, _, h1, h2, _⟩ => ⟨u, h1, h2.trans (by rw [NewClient_baseURL]; decide)⟩⟩

/-- C1 as stated fails for a bare origin with an empty port: `http://example.com:`
is a base URL that `url.Parse` accepts, with an empty path; for it, `Web` with
the domain `example.com` builds the endpoint
`http://example.com:/web/example.com`, which is `<base>/web/D`, but the request
goes to `http://example.com/web/example.com`, the empty port removed. -/
theorem C1_counterexample :
    Parse (str "http://example.com:") =
        .ok (bareOrigin (str "http") (str "example.com:")) ∧
      (Client.webEndpoint
          { token := str "secret", baseURL := bareOrigin (str "http") (str "example.com:"),
            HTTPClient := fun _ => .error (.external 0) }
          (str "example.com")).map (fun u => u.String) =
        .ok ((bareOrigin (str "http") (str "example.com:")).String ++ str "/web/example.com") ∧
      (bareOrigin (str "http") (str "example.com:")).String ++ str "/web/example.com" =
        str "http://example.com:/web/example.com" ∧
      (Client.Web
          { token := str "secret", baseURL := bareOrigin (str "http") (str "example.com:"),
            HTTPClient := fun _ => .error (.external 0) }
          (fun _ r => (none, r)) (str "example.com")).sent.map (fun r => r.URL.String) =
        [str "http://example.com/web/example.com"] ∧
      str "http://example.com/web/example.com" ≠
        (bareOrigin (str "http") (str "example.com:")).String ++ str "/web/example.com" := by
  decide!

/-! ## The request of `do` -/

/-- Every request that `do` hands to the HTTP client: method, body, URL and
headers. -/
theorem do_request_shape {T : Type} (c : Client) (decode : Decoder T) (endpoint : URL)
    (data : T) (req : Request) (hreq : req ∈ (c.do decode endpoint data).sent) :
    req.Method = str "GET" ∧ req.Body = [] ∧
      (∃ u, Parse endpoint.String = .ok u ∧ req.URL = { u with Host := removeEmptyPort u.Host }) ∧
      req.Header =
        [(str "Accept", [str "application/json"]),
          (str "Authorization", [str "Bearer " ++ c.token]),
          (str "Content-Type", [str "application/json"])] ∧
      ∀ (token2 : Str) (transport2 : Request → Except Error Response),
        ∀ req2 ∈ (Client.do { c with token := token2, HTTPClient := transport2 } decode
            endpoint data).sent, req2.URL = req.URL := by
  cases hn : NewRequestWithContext (str "GET") endpoint.String [] with
  | error e =>
    rw [do_of_request_error c decode endpoint data e hn] at hreq
    simp at hreq
  | ok req0 =>
    rw [do_sent c decode endpoint data req0 hn, List.mem_singleton] at hreq
    obtain ⟨u, hu, hr0⟩ := NewRequest_ok _ _ hn
    subst hreq
    refine ⟨?_, ?_, ⟨u, hu, ?_⟩, ?_, ?_⟩
    · rw [hr0]; rfl
    · rw [hr0]; rfl
    · rw [hr0]; rfl
    · exact withHeaders_header _ _ (by rw [hr0])
    · intro token2 transport2 req2 h2
      rw [do_sent _ decode endpoint data req0 hn, List.mem_singleton] at h2
      rw [h2]
      rfl


theorem isEndpoint_query (u : URL) (hu : IsEndpoint u) (q : Str)
    (hq : ∀ c ∈ q, 32 ≤ c ∧ c ≠ 127 ∧ c ≠ 35) : IsEndpoint { u with RawQuery := q } := by
  obtain ⟨h1, h2, h3, h4, h5, _, h7, h8, h9, h10, h11, h12⟩ := hu
  exact ⟨h1, h2, h3, h4, h5, hq, h7, h8, h9, h10, h11, h12⟩

/-- The endpoint that an operation builds from a resource kind (or `domains` and
a `Field` constant) and a safe segment, under a base URL followed to the wire,
has the shape `IsEndpoint` and no query. -/
theorem endpoint_isEndpoint (b : URL) (hb : OriginBase b) (k t : Str) (rest : List Str)
    (hk58 : 58 ∉ k) (hs : ∀ s ∈ k :: t :: rest, NormalSeg s)
    (hp : ∀ s ∈ k :: t :: rest, ∀ c ∈ s, PlainByte c) :
    ∃ u, b.Parse (Join (b.Path :: k :: t :: rest)) = .ok u ∧ IsEndpoint u ∧
      u.RawQuery = [] :=
  ⟨_, endpoint_std b hb.stdBase k t rest hk58 hs hp, isEndpoint_std b hb k t rest hp, rfl⟩

theorem kinds_safe :
    SafeSegment (str "web") ∧ SafeSegment (str "dns") ∧ SafeSegment (str "related") ∧
      SafeSegment (str "full") ∧ SafeSegment (str "domains") := by decide

theorem pair_safe (k D : Str) (hk : SafeSegment k) (hD : SafeSegment D) :
    (∀ s ∈ [k, D], NormalSeg s) ∧ ∀ s ∈ [k, D], ∀ c ∈ s, PlainByte c := by
  constructor
  · intro s hsm
    simp only [List.mem_cons, List.mem_singleton, List.mem_nil_iff, or_false] at hsm
    rcases hsm with h | h <;> subst h
    · exact hk.1
    · exact hD.1
  · intro s hsm
    simp only [List.mem_cons, List.mem_singleton, List.mem_nil_iff, or_false] at hsm
    rcases hsm with h | h <;> subst h
    · exact hk.2
    · exact hD.2

/-- The endpoints of the five operations, for a base URL followed to the wire,
a safe segment and a pager that is nil or has a limit and a page that are not
negative, have the shape `IsEndpoint`. -/
theorem operations_endpoints (c : Client) (D : Str) (hb : OriginBase c.baseURL)
    (hD : SafeSegment D) :
    (∃ u, c.webEndpoint D = .ok u ∧ IsEndpoint u) ∧
    (∃ u, c.dnsEndpoint D = .ok u ∧ IsEndpoint u) ∧
    (∃ u, c.relatedEndpoint D = .ok u ∧ IsEndpoint u) ∧
    (∃ u, c.fullEndpoint D = .ok u ∧ IsEndpoint u) ∧
    (∀ F ∈ fieldConstants, ∀ pager : Option Pager,
      (∀ p, pager = some p → 0 ≤ p.Limit ∧ 0 ≤ p.Page) →
        ∃ u, c.domainsEndpoint F D pager = .ok u ∧ IsEndpoint u) := by
  obtain ⟨hweb, hdns, hrel, hfull, hdom⟩ := kinds_safe
  refine ⟨?_, ?_, ?_, ?_, ?_⟩
  · obtain ⟨u, h1, h2, _⟩ := endpoint_isEndpoint c.baseURL hb (str "web") D [] (by decide)
      (pair_safe _ D hweb hD).1 (pair_safe _ D hweb hD).2
    exact ⟨u, h1, h2⟩
  · obtain ⟨u, h1, h2, _⟩ := endpoint_isEndpoint c.baseURL hb (str "dns") D [] (by decide)
      (pair_safe _ D hdns hD).1 (pair_safe _ D hdns hD).2
    exact ⟨u, h1, h2⟩
  · obtain ⟨u, h1, h2, _⟩ := endpoint_isEndpoint c.baseURL hb (str "related") D [] (by decide)
      (pair_safe _ D hrel hD).1 (pair_safe _ D hrel hD).2
    exact ⟨u, h1, h2⟩
  · obtain ⟨u, h1, h2, _⟩ := endpoint_isEndpoint c.baseURL hb (str "full") D [] (by decide)
      (pair_safe _ D hfull hD).1 (pair_safe _ D hfull hD).2
    exact ⟨u, h1, h2⟩
  · intro F hF pager hpg
    have hFd := (fieldConstants_domain F hF).safeSegment
    have hs : ∀ s ∈ [str "domains", F, D], NormalSeg s := by
      intro s hsm
      simp only [List.mem_cons, List.mem_singleton, List.mem_nil_iff, or_false] at hsm
      rcases hsm with e | e | e
      · subst e; exact hdom.1
      · subst e; exact hFd.1
      · subst e; exact hD.1
    have hp : ∀ s ∈ [str "domains", F, D], ∀ x ∈ s, PlainByte x := by
      intro s hsm
      simp only [List.mem_cons, List.mem_singleton, List.mem_nil_iff, or_false] at hsm
      rcases hsm with e | e | e
      · subst e; exact hdom.2
      · subst e; exact hFd.2
      · subst e; exact hD.2
    obtain ⟨u, h1, h2, h3⟩ := endpoint_isEndpoint c.baseURL hb (str "domains") F [D]
      (by decide) hs hp
    cases pager with
    | none =>
      refine ⟨u, ?_, h2⟩
      unfold Client.domainsEndpoint
      rw [h1]
    | some p =>
      obtain ⟨hL, hP⟩ := hpg p rfl
      refine ⟨_, ?_, isEndpoint_query u h2
        (str "limit=" ++ Itoa p.Limit ++ str "&page=" ++ Itoa p.Page) ?_⟩
      · unfold Client.domainsEndpoint
        rw [h1]
        simp only
        unfold URL.Query
        rw [h3, pager_query p.Limit p.Page hL hP]
      · intro x hx
        simp only [List.mem_append] at hx
        rcases hx with ((hx | hx) | hx) | hx
        · revert x; decide
        · have := Itoa_digits p.Limit hL x hx; omega
        · revert x; decide
        · have := Itoa_digits p.Page hP x hx; omega

/-- C5, amended: every request that `do` hands to the HTTP client uses the method
`GET`, has an empty body, has for URL the parse of the given endpoint's text
with an empty port removed, and carries exactly the headers
`Accept: application/json`, `Authorization: Bearer <token>` and
`Content-Type: application/json`; the URL is the same whatever the token,
which is nowhere put into it.  When the endpoint has the shape `IsEndpoint`
(a lower-case scheme, a host with an optional port that is not empty, an
absolute path of plain bytes, a query free of control bytes and
`#`, nothing else), `do` hands over one request and its URL is the endpoint
itself; the endpoints that the five operations build from a safe segment
under the default base URL or a bare origin have this shape. -/
theorem C5_request_shape {T : Type} (c : Client) (decode : Decoder T) (endpoint : URL)
    (data : T) :
    (∀ req ∈ (c.do decode endpoint data).sent,
      req.Method = str "GET" ∧ req.Body = [] ∧
        (∃ u, Parse endpoint.String = .ok u ∧
          req.URL = { u with Host := removeEmptyPort u.Host }) ∧
        req.Header =
          [(str "Accept", [str "application/json"]),
            (str "Authorization", [str "Bearer " ++ c.token]),
            (str "Content-Type", [str "application/json"])] ∧
        ∀ (token2 : Str) (transport2 : Request → Except Error Response),
          ∀ req2 ∈ (Client.do { c with token := token2, HTTPClient := transport2 } decode
              endpoint data).sent, req2.URL = req.URL) ∧
    (IsEndpoint endpoint →
      (c.do decode endpoint data).sent.map (fun r => r.URL) = [endpoint] ∧
        (c.do decode endpoint data).sent.map (fun r => r.URL.String) = [endpoint.String]) ∧
    (∀ D, OriginBase c.baseURL → SafeSegment D →
      (∃ u, c.webEndpoint D = .ok u ∧ IsEndpoint u) ∧
      (∃ u, c.dnsEndpoint D = .ok u ∧ IsEndpoint u) ∧
      (∃ u, c.relatedEndpoint D = .ok u ∧ IsEndpoint u) ∧
      (∃ u, c.fullEndpoint D = .ok u ∧ IsEndpoint u) ∧
      (∀ F ∈ fieldConstants, ∀ pager : Option Pager,
        (∀ p, pager = some p → 0 ≤ p.Limit ∧ 0 ≤ p.Page) →
          ∃ u, c.domainsEndpoint F D pager = .ok u ∧ IsEndpoint u)) := by
  refine ⟨fun req hreq => do_request_shape c decode endpoint data req hreq, ?_,
    fun D hb hD => operations_endpoints c D hb hD⟩
  intro hu
  rw [do_endpoint c decode endpoint data hu]
  exact ⟨rfl, rfl⟩

/-- C5 at the default client and the endpoint of `Web("example.com")`: one request
is sent, a `GET` without body for exactly that endpoint, with the three
headers. -/
theorem C5_request_shape_witness :
    IsEndpoint
        { Scheme := str "https", Host := str "host.io", Path := str "/api/web/example.com" } ∧
      (Client.do (NewClient (str "secret") (fun _ => .error (.external 0)))
          (fun _ (_ : Nat) => (none, 1))
          { Scheme := str "https", Host := str "host.io", Path := str "/api/web/example.com" }
          0).sent.map (fun r => r.URL.String) = [str "https://host.io/api/web/example.com"] ∧
      ∃ req, req ∈ (Client.do (NewClient (str "secret") (fun _ => .error (.external 0)))
            (fun _ (_ : Nat) => (none, 1))
            { Scheme := str "https", Host := str "host.io",
              Path := str "/api/web/example.com" }
            0).sent ∧
        req.Method = str "GET" ∧ req.Body = [] ∧
        req.URL = { Scheme := str "https", Host := str "host.io",
                    Path := str "/api/web/example.com" } ∧
        req.Header =
          [(str "Accept", [str "application/json"]),
            (str "Authorization", [str "Bearer secret"]),
            (str "Content-Type", [str "application/json"])] :=
  have hmem : withHeaders (str "secret")
      { Method := str "GET",
        URL := { Scheme := str "https", Host := str "host.io",
                 Path := str "/api/web/example.com" },
        Header := [], Body := [], Host := str "host.io" } ∈
      (Client.do (NewClient (str "secret") (fun _ => .error (.external 0)))
        (fun _ (_ : Nat) => (none, 1))
        { Scheme := str "https", Host := str "host.io", Path := str "/api/web/example.com" }
        0).sent := by
    rw [do_sent _ _ _ _
      { Method := str "GET",
        URL := { Scheme := str "https", Host := str "host.io",
                 Path := str "/api/web/example.com" },
        Header := [], Body := [], Host := str "host.io" } (by decide!)]
    exact List.mem_singleton.mpr rfl
  have h := C5_request_shape (NewClient (str "secret") (fun _ => .error (.external 0)))
    (fun _ (_ : Nat) => (none, 1))
    { Scheme := str "https", Host := str "host.io", Path := str "/api/web/example.com" } 0
  ⟨by decide!, ((h.2.1 (by decide!)).2).trans (by decide!), _, hmem, (h.1 _ hmem).1,
    (h.1 _ hmem).2.1, rfl, (h.1 _ hmem).2.2.2.1.trans (by decide)⟩

/-- C5 as stated fails for an endpoint with an empty port: for the endpoint
`http://example.com:/web/example.com` (scheme `http`, host `example.com:`,
path `/web/example.com`), the request that `do` hands to the HTTP client has
the URL `http://example.com/web/example.com`, with the host `example.com`: not
the given endpoint. -/
theorem C5_counterexample :
    URL.String { Scheme := str "http", Host := str "example.com:",
                 Path := str "/web/example.com" } =
        str "http://example.com:/web/example.com" ∧
      (Client.do (NewClient (str "secret") (fun _ => .error (.external 0)))
          (fun _ (_ : Nat) => (none, 1))
          { Scheme := str "http", Host := str "example.com:", Path := str "/web/example.com" }
          0).sent.map (fun r => (r.URL.String, r.URL.Host)) =
        [(str "http://example.com/web/example.com", str "example.com")] ∧
      (Client.do (NewClient (str "secret") (fun _ => .error (.external 0)))
          (fun _ (_ : Nat) => (none, 1))
          { Scheme := str "http", Host := str "example.com:", Path := str "/web/example.com" }
          0).sent.map (fun r => r.URL) ≠
        [{ Scheme := str "http", Host := str "example.com:", Path := str "/web/example.com" }] := by
  decide!

/-- The base URL of the tests, `url.Parse` of a test server's address, is a bare
origin with a port, over IPv4 or IPv6; a host with an empty port is not of the
shape `IsHostPort`.  With such a base URL, `Web` requests `<base>/web/D`. -/
theorem test_origin :
    Parse (str "http://127.0.0.1:34567") =
        .ok (bareOrigin (str "http") (str "127.0.0.1:34567")) ∧
      Parse (str "http://[::1]:34567") = .ok (bareOrigin (str "http") (str "[::1]:34567")) ∧
      IsScheme (str "http") ∧ IsScheme (str "https") ∧
      IsHostPort (str "127.0.0.1:34567") ∧ IsHostPort (str "[::1]:34567") ∧
      IsHostPort (str "host.io") ∧ IsHostPort (str "[::1]") ∧
      ¬ IsHostPort (str "example.com:") ∧ ¬ IsHostPort (str "[::1]:") ∧
      (Client.Web
          { token := str "secret", baseURL := bareOrigin (str "http") (str "127.0.0.1:34567"),
            HTTPClient := fun _ => .error (.external 0) }
          (fun _ r => (none, r)) (str "example.com")).sent.map (fun r => r.URL.String) =
        [str "http://127.0.0.1:34567/web/example.com"] ∧
      (Client.Web
          { token := str "secret", baseURL := bareOrigin (str "http") (str "[::1]:34567"),
            HTTPClient := fun _ => .error (.external 0) }
          (fun _ r => (none, r)) (str "example.com")).sent.map (fun r => r.URL.String) =
        [str "http://[::1]:34567/web/example.com"] := by
  decide!

end Hostio
